import Mathlib

/-!
# Shallow embedding of the Scheme interpreter (interpreter.c, linkedlist.c)

Values are immutable trees; the only mutable objects of the C program that user
code can observe are the frames (their binding lists and the values stored in
binding cells), so the heap of the embedding is the list of frames allocated so
far and a frame pointer is an index into it.  The recursive calls of `eval` are
passed to every handler as an argument `ev`, and `eval` itself is obtained by
iterating one layer of the interpreter over a step budget.
-/

namespace Scheme

/-- The twelve C functions that `interpret` installs in the global frame; the
`pf` member of a PRIMITIVE_TYPE value points to one of them. -/
inductive Prim where
  | primitiveNull
  | primitiveCons
  | primitiveCar
  | primitiveCdr
  | primitiveAdd
  | primitiveMinus
  | primitiveLessThan
  | primitiveGreaterThan
  | primitiveEqual
  | primitiveMultiply
  | primitiveDivide
  | primitiveModulo
  deriving DecidableEq

/-- Modelled from the spec: the tagged record `Value` of headers/value.h, which
is not among the sources.  One constructor per tag used by interpreter.c,
tokenizer.c and parser.c, with the payload members those files access:
`i` (INT_TYPE), `d` (DOUBLE_TYPE, idealised as a rational), `s` (STR_TYPE,
SYMBOL_TYPE, BOOL_TYPE with the text "#t" or "#f", OPEN_TYPE, CLOSE_TYPE),
`c.car`/`c.cdr` (CONS_TYPE), `cl.paramNames`/`cl.functionCode`/`cl.frame`
(CLOSURE_TYPE, the frame being a pointer) and `pf` (PRIMITIVE_TYPE). -/
inductive Value where
  | int (i : Int)
  | double (d : Rat)
  | str (s : String)
  | sym (s : String)
  | bool (s : String)
  | null
  | cons (car cdr : Value)
  | closure (paramNames functionCode : Value) (frame : Nat)
  | primitive (pf : Prim)
  | void
  | unspecified
  | openTok (s : String)
  | closeTok (s : String)
  | ptr
  deriving DecidableEq

/-- Outcome of a C function of the interpreter.
`ok` is a normal return; `error` is the path `printf("Evaluation error: ...")`
followed by `texit(0)`; `undefined` is an execution the C source gives no meaning
to (a read of an uninitialised variable or of a union member that was not
stored, a call through a pointer that is not a function, a division by zero);
`timeout` means the step budget of the embedding ran out. -/
inductive Res (α : Type) where
  | ok (a : α)
  | error (msg : String)
  | undefined
  | timeout
  deriving DecidableEq

/-- Sequencing of outcomes: everything but `ok` is propagated. -/
def Res.bind {α β : Type} (r : Res α) (f : α → Res β) : Res β :=
  match r with
  | .ok a => f a
  | .error m => .error m
  | .undefined => .undefined
  | .timeout => .timeout

/-- A pointer dereference that has no defined result is `undefined`. -/
def Res.ofOption {α : Type} : Option α → Res α
  | some a => .ok a
  | none => .undefined

/-! ## linkedlist.c -/

/-- `makeNull`. -/
def makeNull : Value := .null

/-- `car`: the member `c.car`, defined on CONS_TYPE cells only. -/
def car : Value → Option Value
  | .cons a _ => some a
  | _ => none

/-- `cdr`: the member `c.cdr`, defined on CONS_TYPE cells only. -/
def cdr : Value → Option Value
  | .cons _ d => some d
  | _ => none

/-- `isNull`. -/
def isNull : Value → Bool
  | .null => true
  | _ => false

/-- `length`: counts cells until a NULL_TYPE value; on a chain that does not
end in NULL_TYPE the loop reads `c.cdr` of a value that is not a cell. -/
def length : Value → Option Nat
  | .null => some 0
  | .cons _ d => (length d).map (fun n => n + 1)
  | _ => none

/-- Iterations of `reverse` after the first one (the final `else` of the loop):
`next` is a cell, `prev` is its head.  The loop advances `next`, stops when
`prev` is NULL_TYPE, otherwise conses `prev` onto `list` and reloads `prev`
from the new `next` unless that is NULL_TYPE. -/
def reverseLoop : Value → Value → Value → Option Value
  | .cons _ next, prev, list =>
    if isNull prev then some list
    else
      match next with
      | .null => some (.cons prev list)
      | .cons p r => reverseLoop (.cons p r) p (.cons prev list)
      | _ => none
  | _, _, _ => none

/-- `reverse`.  The first iteration cuts the first cell off (`list -> c.cdr =
prev` with `prev` a fresh NULL_TYPE value) and loads `prev` with the head of
the second cell; the remaining iterations are `reverseLoop`. -/
def reverse : Value → Option Value
  | .null => some .null
  | .cons a next =>
    match next with
    | .null => some (.cons a .null)
    | .cons p r => reverseLoop (.cons p r) p (.cons a .null)
    | _ => none
  | _ => none

/-! ## Reading the `s` member -/

/-- The string stored in the `s` member, for the tags that store one. -/
def textOf : Value → Option String
  | .str s => some s
  | .sym s => some s
  | .bool s => some s
  | .openTok s => some s
  | .closeTok s => some s
  | _ => none

/-- The test `!strcmp(v -> s, lit)` against a string literal.  For the tags
that store a string it is string equality.  The payload members share their
storage, so for the tags that store a pointer the member `s` is that pointer.
For a CONS_TYPE cell `s` overlaps `c.car` and for a CLOSURE_TYPE value it
overlaps `cl.paramNames` (the absent headers/value.h is taken to declare `car`
before `cdr` and `paramNames` first): the bytes compared are the leading bytes
of another value, that is its small tag number followed by a zero byte, at
most one character, hence different from every literal of two or more
characters.  For a PRIMITIVE_TYPE value `s` overlaps `pf` and the bytes
compared are the first bytes of the code of the primitive, which are not the
text of a literal either.  For the remaining tags the member read was never
stored, or holds a number, and the read has no defined result. -/
def strcmpLit (v : Value) (lit : String) : Option Bool :=
  match v with
  | .cons _ _ => if 2 ≤ lit.length then some false else none
  | .closure _ _ _ => if 2 ≤ lit.length then some false else none
  | .primitive _ => if 2 ≤ lit.length then some false else none
  | _ => (textOf v).map (fun s => decide (s = lit))

/-! ## Machine arithmetic -/

/-- Result of a C `int` operation whose mathematical value is `x`, taken as
32-bit two's complement wrap-around. -/
def wrapInt (x : Int) : Int :=
  (x + 2147483648) % 4294967296 - 2147483648

/-- The Bool value holding the given text, as built by the primitives. -/
def mkBool (b : Bool) : Value :=
  if b then .bool "#t" else .bool "#f"

/-! ## Primitives (interpreter.c) -/

/-- The `i` member, stored for INT_TYPE only. -/
def intOf : Value → Option Int
  | .int i => some i
  | _ => none

/-- The argument-checking loop of the numeric primitives: `realFlag` counts the
DOUBLE_TYPE arguments, an INT_TYPE argument is skipped, anything else is the
error `msg`. -/
def countReals (msg : String) : Value → Res Nat
  | .null => .ok 0
  | .cons (.double _) rest => (countReals msg rest).bind (fun n => .ok (n + 1))
  | .cons (.int _) rest => countReals msg rest
  | .cons _ _ => .error msg
  | _ => .undefined

/-- The integer accumulation loop of `primitiveAdd` / `primitiveMultiply`. -/
def foldInts (op : Int → Int → Int) : Value → Int → Option Int
  | .null, acc => some acc
  | .cons (.int i) rest, acc => foldInts op rest (wrapInt (op acc i))
  | _, _ => none

/-- The real accumulation loop of `primitiveAdd` / `primitiveMultiply`: an
INT_TYPE argument is converted with `(double)`.  The `d` member is held as a
rational, so the additions and products here are exact where those of the C
loop are rounded: the result stands for the tag of the C result and for its
value up to rounding only. -/
def foldReals (op : Rat → Rat → Rat) : Value → Rat → Option Rat
  | .null, acc => some acc
  | .cons (.double d) rest, acc => foldReals op rest (op acc d)
  | .cons (.int i) rest, acc => foldReals op rest (op acc (i : Rat))
  | _, _ => none

/-- `primitiveAdd`. -/
def primitiveAdd (args : Value) : Res Value :=
  (countReals "Arguments must be a INT/DOUBLE type." args).bind (fun realFlag =>
    if realFlag = 0 then
      Res.ofOption ((foldInts (fun a b => a + b) args 0).map Value.int)
    else
      Res.ofOption ((foldReals (fun a b => a + b) args 0).map Value.double))

/-- `primitiveMultiply`. -/
def primitiveMultiply (args : Value) : Res Value :=
  (countReals "Arguments must be an INT/DOUBLE type." args).bind (fun realFlag =>
    if realFlag = 0 then
      Res.ofOption ((foldInts (fun a b => a * b) args 1).map Value.int)
    else
      Res.ofOption ((foldReals (fun a b => a * b) args 1).map Value.double))

/-- `primitiveCons`. -/
def primitiveCons (args : Value) : Res Value :=
  if isNull args then .error "No args given to cons."
  else
    match length args with
    | none => .undefined
    | some n =>
      if n ≠ 2 then .error "Wrong number of args to cons."
      else
        match args with
        | .cons a (.cons d _) => .ok (.cons a d)
        | _ => .undefined

/-- The `while (cur -> c.car -> type == CONS_TYPE)` loop of `primitiveNull` and
the test after it: the loop descends into the head while the tail is
NULL_TYPE; the answer is "#t" exactly when the head of the cell reached is
NULL_TYPE. -/
def nullDescend : Value → Option Bool
  | .cons (.cons a d) rest =>
    match rest with
    | .null => nullDescend (.cons a d)
    | _ => some false
  | .cons .null _ => some true
  | .cons _ _ => some false
  | _ => none

/-- `primitiveNull`. -/
def primitiveNull (args : Value) : Res Value :=
  match length args with
  | none => .undefined
  | some n =>
    if n ≠ 1 then .error "Wrong number of args to null?."
    else Res.ofOption ((nullDescend args).map mkBool)

/-- The copy that `primitiveCar` and `primitiveCdr` make of the projected
member `x`: a cell is returned as it is, INT_TYPE and DOUBLE_TYPE are copied,
NULL_TYPE gives a fresh NULL_TYPE value, and every other tag gives a STR_TYPE
value holding the `s` member of `x`. -/
def copyProjected (x : Value) : Res Value :=
  match x with
  | .cons a d => .ok (.cons a d)
  | .int i => .ok (.int i)
  | .double d => .ok (.double d)
  | .null => .ok .null
  | _ => Res.ofOption ((textOf x).map Value.str)

/-- `primitiveCar`. -/
def primitiveCar (args : Value) : Res Value :=
  match length args with
  | none => .undefined
  | some n =>
    if n ≠ 1 then .error "Wrong number of args to car."
    else
      match args with
      | .cons (.cons a _) _ => copyProjected a
      | .cons _ _ => .error "Wrong number of args to car."
      | _ => .undefined

/-- `primitiveCdr`.  When the argument is not a cell the C code copies a member
of `args -> c.cdr`, which is the NULL_TYPE terminator of the argument list and
stores nothing; only a NULL_TYPE argument gives a defined result. -/
def primitiveCdr (args : Value) : Res Value :=
  match length args with
  | none => .undefined
  | some n =>
    if n ≠ 1 then .error "Wrong number of args to cdr."
    else
      match args with
      | .cons (.cons _ d) _ => copyProjected d
      | .cons .null _ => .ok .null
      | _ => .undefined

/-- `primitiveMinus`. -/
def primitiveMinus (args : Value) : Res Value :=
  match length args with
  | none => .undefined
  | some n =>
    if n > 2 then .error "'-' can only take in two arguments."
    else
      (countReals "Arguments must be a INT/DOUBLE type." args).bind (fun realFlag =>
        match args with
        | .cons x (.cons y _) =>
          if realFlag = 0 then
            match x, y with
            | .int a, .int b => .ok (.int (wrapInt (a - b)))
            | _, _ => .undefined
          else
            match x, y with
            | .double a, .double b => .ok (.double (a - b))
            | .double a, .int b => .ok (.double (a - (b : Rat)))
            | .int a, .double b => .ok (.double ((a : Rat) - b))
            | _, _ => .undefined
        | _ => .undefined)

/-- `primitiveLessThan`: compares the `i` members, whatever the tags. -/
def primitiveLessThan (args : Value) : Res Value :=
  match length args with
  | none => .undefined
  | some n =>
    if n > 2 then .error "'<' can only take in two arguments."
    else
      match args with
      | .cons x (.cons y _) =>
        match intOf x, intOf y with
        | some a, some b => .ok (mkBool (decide (a < b)))
        | _, _ => .undefined
      | _ => .undefined

/-- `primitiveGreaterThan`: compares the `i` members, whatever the tags. -/
def primitiveGreaterThan (args : Value) : Res Value :=
  match length args with
  | none => .undefined
  | some n =>
    if n > 2 then .error "'>' can only take in two arguments."
    else
      match args with
      | .cons x (.cons y _) =>
        match intOf x, intOf y with
        | some a, some b => .ok (mkBool (decide (a > b)))
        | _, _ => .undefined
      | _ => .undefined

/-- `primitiveEqual`. -/
def primitiveEqual (args : Value) : Res Value :=
  match length args with
  | none => .undefined
  | some n =>
    if n > 2 then .error "'=' can only take in two arguments."
    else
      (countReals "Arguments must be a INT/DOUBLE type." args).bind (fun realFlag =>
        match args with
        | .cons x (.cons y _) =>
          if realFlag = 0 then
            match x, y with
            | .int a, .int b => .ok (mkBool (decide (a = b)))
            | _, _ => .undefined
          else
            match x, y with
            | .double a, .double b => .ok (mkBool (decide (a = b)))
            | .double a, .int b => .ok (mkBool (decide (a = (b : Rat))))
            | .int a, .double b => .ok (mkBool (decide ((a : Rat) = b)))
            | _, _ => .undefined
        | _ => .undefined)

/-- `primitiveDivide`.  In the integer branch `%` and `/` truncate towards
zero; a zero divisor has no defined result, and neither has the remainder of
-2147483648 by -1, whose quotient does not fit an `int`.  In the real branch
`param2` is always overwritten by `(double) car(cdr(cur)) -> i`, and when the
first argument is INT_TYPE both `param1` and `param2` keep their initial 0:
the quotient the C code stores in those shapes (0.0 / 0.0, or a quotient by
the reinterpreted bits of a double) is not a number the embedding can hold,
and the result is `undefined`. -/
def primitiveDivide (args : Value) : Res Value :=
  match length args with
  | none => .undefined
  | some n =>
    if n > 2 then .error "'/' can only take in two arguments."
    else
      (countReals "Arguments must be a INT/DOUBLE type." args).bind (fun realFlag =>
        match args with
        | .cons x (.cons y _) =>
          if realFlag = 0 then
            match x, y with
            | .int a, .int b =>
              if b = 0 then .undefined
              else if a = -2147483648 ∧ b = -1 then .undefined
              else if Int.tmod a b = 0 then .ok (.int (wrapInt (Int.tdiv a b)))
              else .ok (.double ((a : Rat) / (b : Rat)))
            | _, _ => .undefined
          else
            match x, y with
            | .double a, .int b => if b = 0 then .undefined else .ok (.double (a / (b : Rat)))
            | _, _ => .undefined
        | _ => .undefined)

/-- The argument-checking loop of `primitiveModulo`. -/
def allInts (msg : String) : Value → Res Unit
  | .null => .ok ()
  | .cons (.int _) rest => allInts msg rest
  | .cons _ _ => .error msg
  | _ => .undefined

/-- `primitiveModulo`: C `%`, no defined result for a zero divisor nor for
-2147483648 by -1. -/
def primitiveModulo (args : Value) : Res Value :=
  match length args with
  | none => .undefined
  | some n =>
    if n > 2 then .error "'modulo' can only take in two arguments."
    else
      (allInts "Arguments must be a INT type." args).bind (fun _ =>
        match args with
        | .cons (.int a) (.cons (.int b) _) =>
          if b = 0 then .undefined
          else if a = -2147483648 ∧ b = -1 then .undefined
          else .ok (.int (wrapInt (Int.tmod a b)))
        | _ => .undefined)

/-- The call `function -> pf(args)`. -/
def applyPrim : Prim → Value → Res Value
  | .primitiveNull => primitiveNull
  | .primitiveCons => primitiveCons
  | .primitiveCar => primitiveCar
  | .primitiveCdr => primitiveCdr
  | .primitiveAdd => primitiveAdd
  | .primitiveMinus => primitiveMinus
  | .primitiveLessThan => primitiveLessThan
  | .primitiveGreaterThan => primitiveGreaterThan
  | .primitiveEqual => primitiveEqual
  | .primitiveMultiply => primitiveMultiply
  | .primitiveDivide => primitiveDivide
  | .primitiveModulo => primitiveModulo

/-! ## Frames -/

/-- The C struct `Frame`: the binding list (a list of cells `(name . value)`)
and the parent pointer, `none` for NULL. -/
structure Frame where
  bindings : Value
  parent : Option Nat
  deriving DecidableEq

/-- The frames allocated so far; a frame pointer is an index into this list. -/
abbrev Heap := List Frame

/-- The global variable `globalframe`: `interpret` allocates the global frame
before any other frame. -/
def globalframe : Nat := 0

/-- The assignment `frame -> bindings = b`. -/
def setBindings (h : Heap) (p : Nat) (b : Value) : Res Heap :=
  match h[p]? with
  | some f => .ok (h.set p { f with bindings := b })
  | none => .undefined

/-- Number of cells along the `c.cdr` chain. -/
def cells : Value → Nat
  | .cons _ d => cells d + 1
  | _ => 0

/-- The scan `while (curbinding -> type != NULL_TYPE)` over one binding list,
comparing `curbinding -> c.car -> c.car -> s` with `name -> s`.  The result is
`none` when the scan falls off the end, otherwise the value of the first cell
that matches together with the number of cells from that cell to the end of the
list (which identifies the cell). -/
def scanBindings (name : Value) : Value → Res (Option (Nat × Value))
  | .null => .ok none
  | .cons (.cons k v) rest =>
    match textOf k, textOf name with
    | some a, some b =>
      if a = b then .ok (some (cells rest + 1, v)) else scanBindings name rest
    | _, _ => .undefined
  | _ => .undefined

/-- The frame walk shared by `lookUpSymbol` and `evalSet`: scan the bindings of
`cur`; on a match stop; otherwise move to the parent, and when the parent is
NULL visit `globalframe` once (`globalframeflag`).  `msgTop` is the message of
the test at the top of the loop (empty bindings while the flag is set).  The
result is the frame and cell of the match and the value stored there. -/
def walkFrames (msgTop : String) (name : Value) (h : Heap) :
    Nat → Nat → Bool → Res (Nat × Nat × Value)
  | 0, _, _ => .timeout
  | fuel + 1, cur, flag =>
    match h[cur]? with
    | none => .undefined
    | some f =>
      if isNull f.bindings && flag then .error msgTop
      else
        (scanBindings name f.bindings).bind (fun r =>
          match r with
          | some (d, v) => .ok (cur, d, v)
          | none =>
            match f.parent with
            | some p => walkFrames msgTop name h fuel p flag
            | none =>
              if flag then .error "symbol '%s' not found."
              else walkFrames msgTop name h fuel globalframe true)

/-- `lookUpSymbol`.  The walk visits each frame of an acyclic parent chain at
most once and then the global frame, so `h.length + 2` iterations suffice; on a
cyclic chain the C loop does not end either. -/
def lookUpSymbol (expr : Value) (frame : Nat) (h : Heap) : Res Value :=
  (walkFrames "symbol '%s' not found." expr h (h.length + 2) frame false).bind
    (fun r => .ok r.2.2)

/-- The store `curbinding -> c.car -> c.cdr = v` into the cell that has `d`
cells from itself to the end of the list. -/
def assignAt (d : Nat) (v : Value) : Value → Option Value
  | .cons (.cons k old) rest =>
    if cells rest + 1 = d then some (.cons (.cons k v) rest)
    else (assignAt d v rest).map (fun r => .cons (.cons k old) r)
  | _ => none

/-! ## The evaluator -/

/-- Type of `eval`: expression, frame pointer and heap to result and heap. -/
abbrev Ev := Value → Nat → Heap → Res (Value × Heap)

/-- The body loop `while (curbody -> type != NULL_TYPE) result = eval(car(curbody), frame)`
followed by `return result`; `result` is `none` while it is uninitialised. -/
def evalBody (ev : Ev) (frame : Nat) : Value → Option Value → Heap → Res (Value × Heap)
  | .null, some r, h => .ok (r, h)
  | .null, none, _ => .undefined
  | .cons e rest, _, h => (ev e frame h).bind (fun r => evalBody ev frame rest (some r.1) r.2)
  | _, _, _ => .undefined

/-- `evalIf`. -/
def evalIf (ev : Ev) (args : Value) (frame : Nat) (h : Heap) : Res (Value × Heap) :=
  match length args with
  | none => .undefined
  | some n =>
    if n < 3 then .error "if has fewer than 3 arguments."
    else
      match args with
      | .cons test (.cons trueExpr (.cons falseExpr _)) =>
        (ev test frame h).bind (fun t =>
          match strcmpLit t.1 "#t" with
          | none => .undefined
          | some true => ev trueExpr frame t.2
          | some false =>
            if strcmpLit t.1 "#f" = some true then ev falseExpr frame t.2
            else .ok (makeNull, t.2))
      | _ => .undefined

/-- The duplicate test of `evalLet`: `checkduplicate` is the value of the first
cell of `bindings` whose name is `text` (a fresh NULL_TYPE value when there is
none), and the binder is rejected when `checkduplicate` is not NULL_TYPE. -/
def letDuplicate (text : String) (bindings : Value) : Res Bool :=
  (scanBindings (.sym text) bindings).bind (fun dup =>
    match dup with
    | some (_, checkduplicate) => .ok (!isNull checkduplicate)
    | none => .ok false)

/-- The test `val -> type == CLOSURE_TYPE || val -> type == UNSPECIFIED_TYPE`
of `evalLet` and `evalLetStar`. -/
def letRejects : Value → Bool
  | .closure _ _ _ => true
  | .unspecified => true
  | _ => false

/-- The binding loop of `evalLet`.  `bindings` is the local variable of that
name, which is also `newframe -> bindings`.  Every init expression is passed
to `eval` with `frame`, the frame `evalLet` was called with. -/
def letLoop (ev : Ev) (frame newframe : Nat) : Value → Value → Heap → Res Heap
  | .null, _, h => .ok h
  | .cons b expressions, bindings, h =>
    match b with
    | .null => .error "null binding in let."
    | .cons (.sym text) tl =>
      (letDuplicate text bindings).bind (fun dup =>
        if dup then .error "duplicate variable in let."
        else
          match tl with
          | .cons e _ =>
            (ev e frame h).bind (fun r =>
              if letRejects r.1 then .error "Unbound variable %s in let."
              else
                (setBindings r.2 newframe (.cons (.cons (.str text) r.1) bindings)).bind
                  (fun h2 => letLoop ev frame newframe expressions
                    (.cons (.cons (.str text) r.1) bindings) h2))
          | _ => .undefined)
    | .cons _ _ => .error "left side of a let pair doesn't have a variable."
    | _ => .error "bad form in let"
  | _, _, _ => .undefined

/-- The test `type == NULL_TYPE || type == CONS_TYPE`. -/
def isListTag : Value → Bool
  | .null => true
  | .cons _ _ => true
  | _ => false

/-- `evalLet`: the new frame is allocated first (parent `frame`, no bindings),
then the binding loop runs, then the body is evaluated in the new frame. -/
def evalLet (ev : Ev) (args : Value) (frame : Nat) (h : Heap) : Res (Value × Heap) :=
  match args with
  | .cons expressions body =>
    if isListTag expressions then
      (letLoop ev frame h.length expressions makeNull
          (h ++ [{ bindings := makeNull, parent := some frame }])).bind
        (fun h1 => evalBody ev h.length body none h1)
    else .error "bad form in let"
  | _ => .undefined

/-- The binding loop of `evalLetStar`.  Each round allocates a frame whose
parent is the frame of the previous round, evaluates the init expression in
that new, still empty frame and then stores the binding in it.  The duplicate
scan of the C code runs over the bindings of the frame just allocated, which
are empty, so it never fires.  `newframe` is `none` while the C variable is
uninitialised. -/
def letStarLoop (ev : Ev) : Value → Option Nat → Nat → Heap → Res (Option Nat × Heap)
  | .null, newframe, _, h => .ok (newframe, h)
  | .cons b expressions, _, prevframe, h =>
    match b with
    | .null => .error "null binding in let*."
    | .cons (.sym text) tl =>
      match tl with
      | .cons e _ =>
        (ev e h.length (h ++ [{ bindings := makeNull, parent := some prevframe }])).bind (fun r =>
          if letRejects r.1 then .error "Unbound variable %s in let*."
          else
            match r.2[h.length]? with
            | none => .undefined
            | some f =>
              letStarLoop ev expressions (some h.length) h.length
                (r.2.set h.length
                  { f with bindings := .cons (.cons (.str text) r.1) f.bindings }))
      | _ => .undefined
    | .cons _ _ => .error "left side of a let* pair doesn't have a variable."
    | _ => .error "bad form in let*."
  | _, _, _, _ => .undefined

/-- `evalLetStar`.  With an empty binding list `newframe` is never assigned
and the body is evaluated with an uninitialised frame pointer. -/
def evalLetStar (ev : Ev) (args : Value) (frame : Nat) (h : Heap) : Res (Value × Heap) :=
  match args with
  | .cons expressions body =>
    match expressions with
    | .null => .undefined
    | .cons _ _ =>
      (letStarLoop ev expressions none frame h).bind (fun r =>
        match r.1 with
        | some newframe => evalBody ev newframe body none r.2
        | none => .undefined)
    | _ => .error "bad form in let"
  | _ => .undefined

/-- First loop of `evalLetRec`: one cell `(binder . UNSPECIFIED)` per binding
form, consed in front; the binder is taken as it is, without any test. -/
def letrecInit : Value → Value → Option Value
  | .null, acc => some acc
  | .cons (.cons k _) rest, acc => letrecInit rest (.cons (.cons k .unspecified) acc)
  | _, _ => none

/-- Second loop of `evalLetRec`: every init expression is passed to `eval`
twice in the new frame, once for the value that is kept and once for the test
of its tag. -/
def letrecEval (ev : Ev) (newframe : Nat) : Value → Value → Heap → Res (Value × Heap)
  | .null, evaluatedvalues, h => .ok (evaluatedvalues, h)
  | .cons b bindings, evaluatedvalues, h =>
    match b with
    | .cons _ (.cons e _) =>
      (ev e newframe h).bind (fun r1 =>
        (ev e newframe r1.2).bind (fun r2 =>
          match r2.1 with
          | .unspecified => .error "Evaluated an UNSPECIFIED_TYPE in letrec."
          | _ => letrecEval ev newframe bindings (.cons r1.1 evaluatedvalues) r2.2))
    | _ => .undefined
  | _, _, _ => .undefined

/-- Third loop of `evalLetRec`: the i-th cell of the frame receives the head
of the i-th cell of `evaluatedvalues`; `none` when that list is too short. -/
def letrecAssign : Value → Value → Option Value
  | .null, _ => some .null
  | .cons (.cons k _) rest, .cons v vs =>
    (letrecAssign rest vs).map (fun r => .cons (.cons k v) r)
  | _, _ => none

/-- `evalLetRec`. -/
def evalLetRec (ev : Ev) (args : Value) (frame : Nat) (h : Heap) : Res (Value × Heap) :=
  match args with
  | .cons bindings body =>
    match (letrecInit bindings makeNull).bind reverse with
    | none => .undefined
    | some cellsU =>
      (letrecEval ev h.length bindings makeNull
          (h ++ [{ bindings := cellsU, parent := some frame }])).bind (fun r =>
        match reverse r.1, r.2[h.length]? with
        | some evaluatedvalues, some f =>
          match letrecAssign f.bindings evaluatedvalues with
          | some assigned =>
            evalBody ev h.length body none (r.2.set h.length { f with bindings := assigned })
          | none => .undefined
        | _, _ => .undefined)
  | _ => .undefined

/-- `evalSet`.  The frame walk finds the cell first; the expression is
evaluated (in `frame`) only when a cell was found, and its value is stored
into that very cell, whatever the evaluation added in front of it. -/
def evalSet (ev : Ev) (args : Value) (frame : Nat) (h : Heap) : Res (Value × Heap) :=
  match args with
  | .cons name tl =>
    (walkFrames "symbol '%s' not found when trying to set." name h (h.length + 2) frame
        false).bind (fun loc =>
      match tl with
      | .cons e _ =>
        (ev e frame h).bind (fun r =>
          match r.2[loc.1]? with
          | none => .undefined
          | some f =>
            match assignAt loc.2.1 r.1 f.bindings with
            | none => .undefined
            | some b => .ok (.void, r.2.set loc.1 { f with bindings := b }))
      | _ => .undefined)
  | _ => .undefined

/-- `evalBegin`.  With no operands the VOID_TYPE value is stored in an inner
variable that shadows `result`, and the outer, uninitialised `result` is what
is returned. -/
def evalBegin (ev : Ev) (args : Value) (frame : Nat) (h : Heap) : Res (Value × Heap) :=
  match args with
  | .null => .undefined
  | _ => evalBody ev frame args none h

/-- The loop of `evalAnd`; `result` is the value under construction. -/
def andLoop (ev : Ev) (frame : Nat) : Value → Value → Heap → Res (Value × Heap)
  | .null, result, h => .ok (result, h)
  | .cons e rest, _, h =>
    (ev e frame h).bind (fun r =>
      match r.1 with
      | .int i => andLoop ev frame rest (.int i) r.2
      | .double d => andLoop ev frame rest (.double d) r.2
      | curExpr =>
        match strcmpLit curExpr "#f" with
        | none => .undefined
        | some true => .ok (.bool "#f", r.2)
        | some false => andLoop ev frame rest (.bool "#t") r.2)
  | _, _, _ => .undefined

/-- `evalAnd`. -/
def evalAnd (ev : Ev) (args : Value) (frame : Nat) (h : Heap) : Res (Value × Heap) :=
  match length args with
  | none => .undefined
  | some 0 => .ok (.bool "#t", h)
  | some _ => andLoop ev frame args makeNull h

/-- The loop of `evalOr`; `result` is the value under construction. -/
def orLoop (ev : Ev) (frame : Nat) : Value → Value → Heap → Res (Value × Heap)
  | .null, result, h => .ok (result, h)
  | .cons e rest, _, h =>
    (ev e frame h).bind (fun r =>
      match r.1 with
      | .int i => orLoop ev frame rest (.int i) r.2
      | .double d => orLoop ev frame rest (.double d) r.2
      | curExpr =>
        match strcmpLit curExpr "#t" with
        | none => .undefined
        | some true => .ok (.bool "#t", r.2)
        | some false => orLoop ev frame rest (.bool "#f") r.2)
  | _, _, _ => .undefined

/-- `evalOr`. -/
def evalOr (ev : Ev) (args : Value) (frame : Nat) (h : Heap) : Res (Value × Heap) :=
  match length args with
  | none => .undefined
  | some 0 => .ok (.bool "#f", h)
  | some _ => orLoop ev frame args makeNull h

/-- `evalCond`.  One unit of the budget per iteration of the `while` loop: the
loop advances `cur` only in the "#f" branch, so it may repeat an iteration
without progress.  `result` is `none` while uninitialised. -/
def evalCond (ev : Ev) (frame : Nat) : Nat → Value → Option Value → Heap → Res (Value × Heap)
  | 0, _, _, _ => .timeout
  | fuel + 1, cur, result, h =>
    match cur with
    | .null =>
      match result with
      | some r => .ok (r, h)
      | none => .undefined
    | .cons (.cons (.sym s) tl) rest =>
      if s = "else" then
        match tl with
        | .cons e _ => ev e frame h
        | _ => .undefined
      else evalCond ev frame fuel (.cons (.cons (.sym s) tl) rest) result h
    | .cons (.cons t tl) rest =>
      (ev t frame h).bind (fun b =>
        match strcmpLit b.1 "#t" with
        | none => .undefined
        | some true =>
          match tl with
          | .cons e _ => ev e frame b.2
          | _ => .undefined
        | some false =>
          if strcmpLit b.1 "#f" = some true then
            match tl with
            | .cons e _ =>
              (ev e frame b.2).bind (fun r => evalCond ev frame fuel rest (some r.1) r.2)
            | _ => .undefined
          else evalCond ev frame fuel (.cons (.cons t tl) rest) result b.2)
    | _ => .undefined

/-- `evalQuote`. -/
def evalQuote (args : Value) : Res Value :=
  match length args with
  | none => .undefined
  | some n =>
    if n > 1 then .error "multiple arguments to quote"
    else if isNull args then .error ""
    else Res.ofOption (car args)

/-- `evalDefine`: the expression is evaluated in `frame` and the new cell is
consed in front of the bindings of the same `frame`. -/
def evalDefine (ev : Ev) (args : Value) (frame : Nat) (h : Heap) : Res (Value × Heap) :=
  match args with
  | .null => .error "no args following define."
  | .cons (.sym text) tl =>
    match tl with
    | .null => .error "no value following the symbol in define."
    | .cons e _ =>
      (ev e frame h).bind (fun r =>
        match r.2[frame]? with
        | none => .undefined
        | some f =>
          .ok (.void,
            r.2.set frame { f with bindings := .cons (.cons (.str text) r.1) f.bindings }))
    | _ => .undefined
  | .cons _ _ => .error "define must bind to a symbol."
  | _ => .undefined

/-- First loop of `evalLambda`: every formal must be SYMBOL_TYPE; the formals
are consed in front of `cl.paramNames`. -/
def lambdaParams : Value → Value → Res Value
  | .null, acc => .ok acc
  | .cons (.sym s) params, acc => lambdaParams params (.cons (.sym s) acc)
  | .cons _ _, _ => .error "formal parameters for lambda must be symbols."
  | _, _ => .undefined

/-- Inner loop of the duplicate test of `evalLambda`: is the text of
`var_to_compare` the text of a later formal? -/
def lambdaInner (var_to_compare : Value) : Value → Option Bool
  | .null => some false
  | .cons w next_val =>
    match textOf var_to_compare, textOf w with
    | some a, some b => if a = b then some true else lambdaInner var_to_compare next_val
    | _, _ => none
  | _ => none

/-- Outer loop of the duplicate test of `evalLambda`. -/
def lambdaOuter : Value → Option Bool
  | .null => some false
  | .cons v current =>
    match lambdaInner v current with
    | some true => some true
    | some false => lambdaOuter current
    | none => none
  | _ => none

/-- `evalLambda`: the closure stores the reversed accumulator as parameter
names, the whole tail of the form as `cl.functionCode` and `frame` as
`cl.frame`. -/
def evalLambda (args : Value) (frame : Nat) : Res Value :=
  match args with
  | .null => .error "no args following lambda."
  | .cons params body =>
    (lambdaParams params makeNull).bind (fun acc =>
      match reverse acc with
      | none => .undefined
      | some paramNames =>
        match lambdaOuter paramNames with
        | none => .undefined
        | some true => .error "duplicate identifier in lambda."
        | some false =>
          if isNull body then .error "no code in lambda following parameters."
          else .ok (.closure paramNames body frame))
  | _ => .undefined

/-- The loop of `evalEach`: the values are consed in front of `result`. -/
def evalEachLoop (ev : Ev) (frame : Nat) : Value → Value → Heap → Res (Value × Heap)
  | .null, result, h => .ok (result, h)
  | .cons e rest, result, h =>
    (ev e frame h).bind (fun r => evalEachLoop ev frame rest (.cons r.1 result) r.2)
  | _, _, _ => .undefined

/-- `evalEach`: when the two values consed last are both NULL_TYPE the
accumulator is returned as it is; otherwise it goes through `reverse`. -/
def evalEach (ev : Ev) (args : Value) (frame : Nat) (h : Heap) : Res (Value × Heap) :=
  (evalEachLoop ev frame args makeNull h).bind (fun r =>
    match r.1 with
    | .cons .null (.cons .null _) => .ok (r.1, r.2)
    | result => (Res.ofOption (reverse result)).bind (fun reversed => .ok (reversed, r.2)))

/-- The parameter loop of `apply`.  `args` is `none` once the C variable holds
the `c.cdr` member of a NULL_TYPE value, which stores nothing.  A parameter is
bound to a fresh NULL_TYPE value when `length(args) == 0` and to `car(args)`
otherwise; the name cell is a STR_TYPE copy of the parameter text. -/
def applyBind : Value → Option Value → Value → Res Value
  | .null, _, bindings => .ok bindings
  | .cons p cur, some args, bindings =>
    match textOf p, length args with
    | some text, some 0 => applyBind cur none (.cons (.cons (.str text) makeNull) bindings)
    | some text, some _ =>
      match args with
      | .cons val rest => applyBind cur (some rest) (.cons (.cons (.str text) val) bindings)
      | _ => .undefined
    | _, _ => .undefined
  | _, _, _ => .undefined

/-- `apply`.  For a closure the new frame has the captured frame as parent and
the bindings built by the parameter loop, and the result is that of
`eval(funcvalue -> cl.functionCode -> c.car, applyframe)`.  Every other
operator is called through its `pf` member.  (The frame allocated on entry is
linked to nothing in that case and is not recorded.) -/
def apply (ev : Ev) (function args : Value) (h : Heap) : Res (Value × Heap) :=
  match function with
  | .closure paramNames functionCode frame =>
    (applyBind paramNames (some args) makeNull).bind (fun bindings =>
      match functionCode with
      | .cons e _ => ev e h.length (h ++ [{ bindings := bindings, parent := some frame }])
      | _ => .undefined)
  | .primitive pf => (applyPrim pf args).bind (fun v => .ok (v, h))
  | _ => .undefined

/-- One layer of `eval`, the recursive calls being `ev`.  The head of a cell
is compared with the special-form names through its `s` member, in the order
of the C code; `define` is handed `globalframe`. -/
def evalStep (ev : Ev) (fuel : Nat) (expr : Value) (frame : Nat) (h : Heap) :
    Res (Value × Heap) :=
  match expr with
  | .int _ => .ok (expr, h)
  | .double _ => .ok (expr, h)
  | .sym _ => (lookUpSymbol expr frame h).bind (fun v => .ok (v, h))
  | .cons first args =>
    match strcmpLit first "if" with
    | none => .undefined
    | some true => evalIf ev args frame h
    | some false =>
      if strcmpLit first "let" = some true then evalLet ev args frame h
      else if strcmpLit first "let*" = some true then evalLetStar ev args frame h
      else if strcmpLit first "letrec" = some true then evalLetRec ev args frame h
      else if strcmpLit first "quote" = some true then
        (evalQuote args).bind (fun v => .ok (v, h))
      else if strcmpLit first "define" = some true then evalDefine ev args globalframe h
      else if strcmpLit first "lambda" = some true then
        (evalLambda args frame).bind (fun v => .ok (v, h))
      else if strcmpLit first "set!" = some true then evalSet ev args frame h
      else if strcmpLit first "begin" = some true then evalBegin ev args frame h
      else if strcmpLit first "and" = some true then evalAnd ev args frame h
      else if strcmpLit first "or" = some true then evalOr ev args frame h
      else if strcmpLit first "cond" = some true then evalCond ev frame fuel args none h
      else
        (ev first frame h).bind (fun evaledOperator =>
          (evalEach ev args frame evaledOperator.2).bind (fun evaledArgs =>
            apply ev evaledOperator.1 evaledArgs.1 evaledArgs.2))
  | .str _ => .ok (expr, h)
  | .openTok _ => .ok (expr, h)
  | .closeTok _ => .ok (expr, h)
  | .bool _ => .ok (expr, h)
  | .ptr => .ok (expr, h)
  | _ => .undefined

/-- `eval` with a budget on the nesting of calls (and on the iterations of the
`cond` loop): `eval (n + 1)` is one layer of the C function over `eval n`. -/
def eval : Nat → Ev
  | 0 => fun _ _ _ => .timeout
  | fuel + 1 => evalStep (eval fuel) fuel

/-- The cell that `bind` conses onto the bindings of the global frame. -/
def primCell (name : String) (pf : Prim) : Value :=
  .cons (.sym name) (.primitive pf)

/-- The bindings of the global frame after the twelve calls of `bind` in
`interpret` (the last one bound comes first). -/
def primitiveBindings : Value :=
  .cons (primCell "modulo" .primitiveModulo) (
  .cons (primCell "/" .primitiveDivide) (
  .cons (primCell "*" .primitiveMultiply) (
  .cons (primCell "=" .primitiveEqual) (
  .cons (primCell ">" .primitiveGreaterThan) (
  .cons (primCell "<" .primitiveLessThan) (
  .cons (primCell "-" .primitiveMinus) (
  .cons (primCell "+" .primitiveAdd) (
  .cons (primCell "cdr" .primitiveCdr) (
  .cons (primCell "car" .primitiveCar) (
  .cons (primCell "cons" .primitiveCons) (
  .cons (primCell "null?" .primitiveNull) .null)))))))))))

/-- The heap when the loop of `interpret` starts: the global frame only. -/
def initialHeap : Heap := [{ bindings := primitiveBindings, parent := none }]

/-- The loop of `interpret`: each top-level expression is evaluated in a fresh
frame with no bindings and a NULL parent; the results are collected in order
(the C code prints each of them according to its tag). -/
def interpretLoop (fuel : Nat) : Value → Heap → Res (List Value × Heap)
  | .null, h => .ok ([], h)
  | .cons e rest, h =>
    (eval fuel e h.length (h ++ [{ bindings := makeNull, parent := none }])).bind (fun r =>
      (interpretLoop fuel rest r.2).bind (fun rs => .ok (r.1 :: rs.1, rs.2)))
  | _, _ => .undefined

/-- `interpret`, returning the values of the top-level expressions. -/
def interpret (fuel : Nat) (tree : Value) : Res (List Value) :=
  (interpretLoop fuel tree initialHeap).bind (fun r => .ok r.1)

/-! ## Building expressions -/

/-- The proper list with the given elements, as the parser builds it. -/
def list : List Value → Value
  | [] => .null
  | x :: xs => .cons x (list xs)

/-- The cells the parameter loop of `apply` leaves in front of `acc` when the
parameters `ps` meet the values `vs` one by one (the last parameter first). -/
def paramCells : List String → List Value → Value → Value
  | p :: ps, v :: vs, acc => paramCells ps vs (.cons (.cons (.str p) v) acc)
  | _, _, acc => acc

/-- The expression `((lambda (x) 1 2) 5)`. -/
def twoBodyCall : Value :=
  list [list [.sym "lambda", list [.sym "x"], .int 1, .int 2], .int 5]

/-- The expression `((lambda (x) x) 1 2)`. -/
def extraArgCall : Value :=
  list [list [.sym "lambda", list [.sym "x"], .sym "x"], .int 1, .int 2]

/-- The program `(define make-adder (lambda (n) (lambda (x) (+ x n))))
((make-adder 3) 4)`. -/
def makeAdderProgram : Value :=
  list [
    list [.sym "define", .sym "make-adder",
      list [.sym "lambda", list [.sym "n"],
        list [.sym "lambda", list [.sym "x"], list [.sym "+", .sym "x", .sym "n"]]]],
    list [list [.sym "make-adder", .int 3], .int 4]]

/-- The program `(define x 10) (let ((x 1) (y x)) (+ x y))`. -/
def letShadowProgram : Value :=
  list [
    list [.sym "define", .sym "x", .int 10],
    list [.sym "let", list [list [.sym "x", .int 1], list [.sym "y", .sym "x"]],
      list [.sym "+", .sym "x", .sym "y"]]]

/-- The binding forms `((x1 e1) ... (xn en))` of a `let`, from the list of
binder, init expression and value. -/
def bindingForms (bs : List (String × Value × Value)) : Value :=
  list (bs.map (fun t => list [.sym t.1, t.2.1]))

/-- The cells `(xi . vi)` in front of `acc`, the last binder first. -/
def letCells : List (String × Value × Value) → Value → Value
  | [], acc => acc
  | t :: bs, acc => letCells bs (.cons (.cons (.str t.1) t.2.2) acc)

/-- The init expressions of a `let` evaluate successfully: "evaluates all ei in
the enclosing frame".  For each entry (binder, init expression, value) in
turn, the init expression evaluates in `frame` to the value, from the heap
reached so far, and the cell is stored in the new frame; `hfinal` is the heap
after the last one. -/
def LetInits (ev : Ev) (frame newframe : Nat) :
    List (String × Value × Value) → Value → Heap → Heap → Prop
  | [], _, h, hfinal => hfinal = h
  | t :: bs, bindings, h, hfinal =>
    ∃ h1 h2, ev t.2.1 frame h = .ok (t.2.2, h1)
      ∧ setBindings h1 newframe (.cons (.cons (.str t.1) t.2.2) bindings) = .ok h2
      ∧ LetInits ev frame newframe bs (.cons (.cons (.str t.1) t.2.2) bindings) h2 hfinal

/-- The expression `(let ((f (lambda (x) x))) 1)`. -/
def letClosureInit : Value :=
  list [.sym "let", list [list [.sym "f", list [.sym "lambda", list [.sym "x"], .sym "x"]]],
    .int 1]

/-- The program `(define x 10) (let ((x 1)) (begin (define y x) x)) y`. -/
def defineInLetProgram : Value :=
  list [
    list [.sym "define", .sym "x", .int 10],
    list [.sym "let", list [list [.sym "x", .int 1]],
      list [.sym "begin", list [.sym "define", .sym "y", .sym "x"], .sym "x"]],
    .sym "y"]

/-- The frames `chain` lead from its first element towards the top without
binding `name`: each frame's parent is the next element, no frame of the list
binds `name`, and the parent of the last one is NULL or the global frame. -/
def Unshadowed (name : Value) (h : Heap) : List Nat → Prop
  | [] => False
  | [c] =>
    ∃ f, h[c]? = some f ∧ (f.parent = none ∨ f.parent = some globalframe)
      ∧ scanBindings name f.bindings = .ok none
  | c :: d :: cs =>
    (∃ f, h[c]? = some f ∧ f.parent = some d ∧ scanBindings name f.bindings = .ok none)
      ∧ Unshadowed name h (d :: cs)

/-- The heap in which `interpret` evaluates the first top-level expression: the
global frame and one empty frame with a NULL parent. -/
def topHeap : Heap := initialHeap ++ [Frame.mk .null none]

/-- The heap `h` after a cell `(text . v)` was consed in front of the bindings
of the global frame `g`. -/
def defineCell (h : Heap) (g : Frame) (text : String) (v : Value) : Heap :=
  h.set globalframe { g with bindings := .cons (.cons (.str text) v) g.bindings }

/-- The elements of a list consed one by one in front of `acc`, as the
accumulating loops of the interpreter do (the last element ends up first). -/
def revOnto : List Value → Value → Value
  | [], acc => acc
  | x :: xs, acc => revOnto xs (.cons x acc)

/-- The binding forms `((x1 (lambda . args1)) ...)` of a `letrec` whose init
expressions are all lambda forms, from the list of binder, lambda arguments
(parameter list and body) and closure. -/
def letrecForms (ls : List (String × Value × Value)) : Value :=
  bindingForms (ls.map (fun t => (t.1, .cons (.sym "lambda") t.2.1, t.2.2)))

/-- The cells `(xi . UNSPECIFIED)` that `evalLetRec` first stores in its frame. -/
def unspecifiedCells (ts : List (String × Value × Value)) : List Value :=
  ts.map (fun t => .cons (.sym t.1) .unspecified)

/-- The cells `(xi . vi)` that `evalLetRec` stores in its frame after the init
expressions were evaluated. -/
def assignedCells (ts : List (String × Value × Value)) : List Value :=
  ts.map (fun t => .cons (.sym t.1) t.2.2)

/-- The cells `(xi . closure_i)` of the frame of such a `letrec`. -/
def letrecCells (ls : List (String × Value × Value)) : List Value :=
  assignedCells (ls.map (fun t => (t.1, .cons (.sym "lambda") t.2.1, t.2.2)))

/-- The expression `(letrec ((x 1) (y (null? x))) y)`. -/
def letrecReadsBinder : Value :=
  list [.sym "letrec",
    list [list [.sym "x", .int 1], list [.sym "y", list [.sym "null?", .sym "x"]]],
    .sym "y"]

/-- The program `(letrec ((even? (lambda (n) (if (= n 0) #t (odd? (- n 1)))))
(odd? (lambda (n) (if (= n 0) #f (even? (- n 1)))))) (even? 10))`. -/
def evenOddProgram : Value :=
  list [
    list [.sym "letrec",
      list [
        list [.sym "even?",
          list [.sym "lambda", list [.sym "n"],
            list [.sym "if", list [.sym "=", .sym "n", .int 0], .bool "#t",
              list [.sym "odd?", list [.sym "-", .sym "n", .int 1]]]]],
        list [.sym "odd?",
          list [.sym "lambda", list [.sym "n"],
            list [.sym "if", list [.sym "=", .sym "n", .int 0], .bool "#f",
              list [.sym "even?", list [.sym "-", .sym "n", .int 1]]]]]],
      list [.sym "even?", .int 10]]]

/-- `r'` is the outcome `r` unless `r` ran out of budget. -/
def Res.le {α : Type} (r r' : Res α) : Prop := r = .timeout ∨ r = r'

/-- The pointwise order on evaluators. -/
def Ev.le (ev ev' : Ev) : Prop := ∀ e fr h, (ev e fr h).le (ev' e fr h)

/-- The form `(let* (b1 ... bn) body...)`. -/
def letStarForm (bs : List Value) (body : Value) : Value :=
  .cons (.sym "let*") (.cons (list bs) body)

/-- The nest of single-binding `let*` forms `(let* (b1) (let* (b2) ... (let*
(bn) body...)))`. -/
def nestLetStar : List Value → Value → Value
  | [], body => letStarForm [] body
  | [b], body => letStarForm [b] body
  | b :: b2 :: bs, body => letStarForm [b] (list [nestLetStar (b2 :: bs) body])

/-- The init expression `(begin (set! f (lambda () x)) 1)`. -/
def captureInit : Value :=
  list [.sym "begin", list [.sym "set!", .sym "f", list [.sym "lambda", .null, .sym "x"]],
    .int 1]

/-- The program `(define f 0) (let* ((x (begin (set! f (lambda () x)) 1)))
(f))`. -/
def letStarCaptureProgram : Value :=
  list [list [.sym "define", .sym "f", .int 0],
    list [.sym "let*", list [list [.sym "x", captureInit]], list [.sym "f"]]]

/-- The program `(define f 0) (let ((x (begin (set! f (lambda () x)) 1)))
(f))`, the same with `let` for `let*`. -/
def letCaptureProgram : Value :=
  list [list [.sym "define", .sym "f", .int 0],
    list [.sym "let", list [list [.sym "x", captureInit]], list [.sym "f"]]]

/-- The binding forms `(x 1)` and `(y x)`. -/
def seqBindings : List Value :=
  [list [.sym "x", .int 1], list [.sym "y", .sym "x"]]

/-- The body `(+ x y)`, as a list of one expression. -/
def seqBody : Value := list [list [.sym "+", .sym "x", .sym "y"]]

/-- The frames `chain` lead from frame `c` to frame `t` without binding `name`:
`chain` lists `c` and the frames after it up to `t`, `t` itself left out; each
of them has the next one (the last of them `t`) as parent and does not bind
`name`. -/
def PathTo (name : Value) (h : Heap) : List Nat → Nat → Nat → Prop
  | [], c, t => c = t
  | d :: ds, c, t =>
    d = c ∧ ∃ f p, h[c]? = some f ∧ f.parent = some p
      ∧ scanBindings name f.bindings = .ok none ∧ PathTo name h ds p t

/-- The elements of `pre` consed, in order, in front of `tail`. -/
def consAll : List Value → Value → Value
  | [], tail => tail
  | x :: xs, tail => .cons x (consAll xs tail)

/-- The program `(define x 1) (set! x (begin (define x 5) 2)) x`. -/
def setShadowProgram : Value :=
  list [list [.sym "define", .sym "x", .int 1],
    list [.sym "set!", .sym "x",
      list [.sym "begin", list [.sym "define", .sym "x", .int 5], .int 2]],
    .sym "x"]

/-- The program `(define c 0) (cond (#f (set! c 1)) (else c))`. -/
def condSideEffectProgram : Value :=
  list [list [.sym "define", .sym "c", .int 0],
    list [.sym "cond", list [.bool "#f", list [.sym "set!", .sym "c", .int 1]],
      list [.sym "else", .sym "c"]]]

/-- The form `(cond ((< 3 2) 1) ((= 2 2) 2) (else 3))`. -/
def condExample : Value :=
  list [.sym "cond", list [list [.sym "<", .int 3, .int 2], .int 1],
    list [list [.sym "=", .int 2, .int 2], .int 2], list [.sym "else", .int 3]]

/-- The form `(cond (#f 1))`. -/
def condAllFalse : Value :=
  list [.sym "cond", list [.bool "#f", .int 1]]

/-- The form `(car (cons #t 1))`. -/
def carConsBool : Value :=
  list [.sym "car", list [.sym "cons", .bool "#t", .int 1]]

/-- The form `(car (cons (lambda (x) x) 1))`. -/
def carConsClosure : Value :=
  list [.sym "car", list [.sym "cons", list [.sym "lambda", list [.sym "x"], .sym "x"], .int 1]]

/-- The form `(if "a" 1 2)`; the text of a string literal keeps its quotes. -/
def ifStrTest : Value :=
  list [.sym "if", .str "\"a\"", .int 1, .int 2]

/-- The operands `e` of a run of evaluations paired with their values `v`:
each `e` evaluates to `v` in frame `fr`, from the heap the one before it left;
the run leads from heap `h` to heap `h'`. -/
def EvalSeq (ev : Ev) (fr : Nat) : List (Value × Value) → Heap → Heap → Prop
  | [], h, h' => h = h'
  | p :: rest, h, h' => ∃ h1, ev p.1 fr h = .ok (p.2, h1) ∧ EvalSeq ev fr rest h1 h'

/-- What the loop of `evalAnd` stores in `result` for an operand value that
does not stop the loop: a copy of an INT_TYPE or DOUBLE_TYPE value, and the
Bool "#t" for every other value. -/
def andCopy : Value → Value
  | .int i => .int i
  | .double d => .double d
  | _ => .bool "#t"

/-- The operand values after which the loop of `evalAnd` goes on: INT_TYPE,
DOUBLE_TYPE, and those whose `s` member compares different from "#f". -/
def andContinues : Value → Bool
  | .int _ => true
  | .double _ => true
  | v => strcmpLit v "#f" == some false

/-- What the loop of `evalOr` stores in `result` for an operand value that
does not stop the loop: a copy of an INT_TYPE or DOUBLE_TYPE value, and the
Bool "#f" for every other value. -/
def orCopy : Value → Value
  | .int i => .int i
  | .double d => .double d
  | _ => .bool "#f"

/-- The operand values after which the loop of `evalOr` goes on: INT_TYPE,
DOUBLE_TYPE, and those whose `s` member compares different from "#t". -/
def orContinues : Value → Bool
  | .int _ => true
  | .double _ => true
  | v => strcmpLit v "#t" == some false

/-- The form `(and 1 "a")`. -/
def andStrLast : Value :=
  list [.sym "and", .int 1, .str "\"a\""]

/-- The form `(or 1 #f)`. -/
def orIntFirst : Value :=
  list [.sym "or", .int 1, .bool "#f"]

/-- The initial heap followed by a frame without parent whose bindings are the
single cell `(x . 1)`. -/
def oneBindingHeap : Heap :=
  initialHeap ++ [Frame.mk (.cons (.cons (.sym "x") (.int 1)) .null) none]

/-- The form `(cdr (cons 1 #t))`. -/
def cdrConsBool : Value :=
  list [.sym "cdr", list [.sym "cons", .int 1, .bool "#t"]]

/-- The form `(cdr (cons 1 (lambda (x) x)))`. -/
def cdrConsClosure : Value :=
  list [.sym "cdr", list [.sym "cons", .int 1, list [.sym "lambda", list [.sym "x"], .sym "x"]]]

/-- The values for which `null?` answers "#t": NULL_TYPE, a cell whose head is
NULL_TYPE, and a cell with a NULL_TYPE tail whose head is a cell for which the
answer is "#t". -/
def nullLike : Value → Bool
  | .null => true
  | .cons .null _ => true
  | .cons (.cons a d) .null => nullLike (.cons a d)
  | _ => false

/-- The form `(null? (quote (())))`. -/
def nullOfNested : Value :=
  list [.sym "null?", list [.sym "quote", list [.null]]]

/-- A numeric argument, Integer (left) or Real (right), as a value. -/
def numValue : Int ⊕ Rat → Value
  | .inl i => .int i
  | .inr d => .double d

/-- The conversion `(double)` applied to an Integer argument; a Real argument
is taken as it is. -/
def promote : Int ⊕ Rat → Rat
  | .inl i => (i : Rat)
  | .inr d => d

/-- The Integer held by an Integer argument (0 for a Real one). -/
def intPart : Int ⊕ Rat → Int
  | .inl i => i
  | .inr _ => 0

/-- The form `(+ 2147483647 1)`. -/
def addOverflow : Value :=
  list [.sym "+", .int 2147483647, .int 1]

/-- Modelled from the spec: the enumeration `valueType` of headers/value.h,
which is not among the sources; one constant per tag that interpreter.c,
tokenizer.c and parser.c store or test. -/
inductive valueType where
  | INT_TYPE
  | DOUBLE_TYPE
  | STR_TYPE
  | SYMBOL_TYPE
  | BOOL_TYPE
  | NULL_TYPE
  | CONS_TYPE
  | CLOSURE_TYPE
  | PRIMITIVE_TYPE
  | VOID_TYPE
  | UNSPECIFIED_TYPE
  | OPEN_TYPE
  | CLOSE_TYPE
  | PTR_TYPE
  deriving DecidableEq

/-- The `type` member of a value. -/
def typeOf : Value → valueType
  | .int _ => .INT_TYPE
  | .double _ => .DOUBLE_TYPE
  | .str _ => .STR_TYPE
  | .sym _ => .SYMBOL_TYPE
  | .bool _ => .BOOL_TYPE
  | .null => .NULL_TYPE
  | .cons _ _ => .CONS_TYPE
  | .closure _ _ _ => .CLOSURE_TYPE
  | .primitive _ => .PRIMITIVE_TYPE
  | .void => .VOID_TYPE
  | .unspecified => .UNSPECIFIED_TYPE
  | .openTok _ => .OPEN_TYPE
  | .closeTok _ => .CLOSE_TYPE
  | .ptr => .PTR_TYPE

/-- The `type` member that `primitiveDivide` stores in its result, followed
through the same branches.  The integer branch stores INT_TYPE when
`param1 % param2 == 0` and DOUBLE_TYPE otherwise.  The real branch stores
DOUBLE_TYPE after `result -> d = param1 / param2`, whatever `param1` and
`param2` hold at that point. -/
def primitiveDivideType (args : Value) : Res valueType :=
  match length args with
  | none => .undefined
  | some n =>
    if n > 2 then .error "'/' can only take in two arguments."
    else
      (countReals "Arguments must be a INT/DOUBLE type." args).bind (fun realFlag =>
        match args with
        | .cons x (.cons y _) =>
          if realFlag = 0 then
            match x, y with
            | .int a, .int b =>
              if b = 0 then .undefined
              else if a = -2147483648 ∧ b = -1 then .undefined
              else if Int.tmod a b = 0 then .ok .INT_TYPE
              else .ok .DOUBLE_TYPE
            | _, _ => .undefined
          else .ok .DOUBLE_TYPE
        | _ => .undefined)

/-- The form `(/ 1 2.0)`. -/
def divIntReal : Value :=
  list [.sym "/", .int 1, .double 2]

/-- The form `(/ 3.0 1.5)`. -/
def divRealReal : Value :=
  list [.sym "/", .double 3, .double (3 / 2)]

/-- The primitives whose arity test reads `length(args) > 2`: `-`, `/`,
`modulo`, `<`, `>` and `=`. -/
def twoArgumentPrims : List Prim :=
  [.primitiveMinus, .primitiveDivide, .primitiveModulo, .primitiveLessThan,
    .primitiveGreaterThan, .primitiveEqual]

/-- The form `(- 1)`. -/
def minusOneArg : Value :=
  list [.sym "-", .int 1]

/-- The form `(cons (quote ()) 1)`. -/
def consNullFirst : Value :=
  list [.sym "cons", list [.sym "quote", .null], .int 1]

/-- The form `(let ((x (quote ())) (x 1)) x)`. -/
def letDuplicateAfterNull : Value :=
  list [.sym "let", list [list [.sym "x", list [.sym "quote", .null]], list [.sym "x", .int 1]],
    .sym "x"]

/-- The form `(let ((x 1) (x 2)) x)`. -/
def letDuplicateAfterInt : Value :=
  list [.sym "let", list [list [.sym "x", .int 1], list [.sym "x", .int 2]], .sym "x"]

/-- The form `(let* ((x 1) (x 2)) x)`. -/
def letStarDuplicate : Value :=
  list [.sym "let*", list [list [.sym "x", .int 1], list [.sym "x", .int 2]], .sym "x"]

/-- The program `(define f 1) (f 2)`. -/
def applyIntegerProgram : Value :=
  list [list [.sym "define", .sym "f", .int 1], list [.sym "f", .int 2]]

/-- The program `(define if 1) (if #t 2 3)`. -/
def rebindIfProgram : Value :=
  list [list [.sym "define", .sym "if", .int 1], list [.sym "if", .bool "#t", .int 2, .int 3]]

/-- The status with which the process ends, from `main` and `texit`: `main`
returns 0 after `interpret` has returned, and every evaluation error of
interpreter.c ends in `texit(0)`, which calls `exit(0)`.  `none` when the run
has no defined end or the budget of the embedding ran out. -/
def main (fuel : Nat) (tree : Value) : Option Int :=
  match interpret fuel tree with
  | .ok _ => some 0
  | .error _ => some 0
  | .undefined => none
  | .timeout => none

/-- The program `(define c 0) (letrec ((x (begin (set! c (+ c 1)) c))) c)`. -/
def letrecCounterProgram : Value :=
  list [list [.sym "define", .sym "c", .int 0],
    list [.sym "letrec",
      list [list [.sym "x",
        list [.sym "begin", list [.sym "set!", .sym "c", list [.sym "+", .sym "c", .int 1]],
          .sym "c"]]],
      .sym "c"]]

/-- The form `(/ 1 0)`. -/
def divideByZero : Value :=
  list [.sym "/", .int 1, .int 0]

/-- The form `(modulo 1 0)`. -/
def moduloByZero : Value :=
  list [.sym "modulo", .int 1, .int 0]

/-- The form `(cond (t 1))`. -/
def condSymbolTest : Value :=
  list [.sym "cond", list [.sym "t", .int 1]]

/-- The form `(cond ("a" 1))`. -/
def condStrTest : Value :=
  list [.sym "cond", list [.str "\"a\"", .int 1]]

/-- The form `(lambda (x y x) 1)`. -/
def lambdaDuplicate : Value :=
  list [.sym "lambda", list [.sym "x", .sym "y", .sym "x"], .int 1]

/-- The binding list whose cells are the given pairs of name and value, in
order. -/
def bindingCells (kvs : List (Value × Value)) : Value :=
  list (kvs.map (fun kv => .cons kv.1 kv.2))

/-- The value of the first pair whose name has the text `text`. -/
def firstBinding (text : String) (kvs : List (Value × Value)) : Option Value :=
  match kvs with
  | [] => none
  | kv :: rest => if textOf kv.1 = some text then some kv.2 else firstBinding text rest

/-- The initial heap followed by a frame without parent whose bindings are the
single cell `(x . ())`. -/
def nullBindingHeap : Heap :=
  initialHeap ++ [Frame.mk (.cons (.cons (.sym "x") .null) .null) none]

/-- The form `(if (lambda (x) x) 1 2)`. -/
def ifClosureTest : Value :=
  list [.sym "if", list [.sym "lambda", list [.sym "x"], .sym "x"], .int 1, .int 2]

/-- The form `(letrec ((a (quote ())) (f (lambda () a))) (f))`. -/
def letrecNullInit : Value :=
  list [.sym "letrec",
    list [list [.sym "a", list [.sym "quote", .null]],
      list [.sym "f", list [.sym "lambda", .null, .sym "a"]]],
    list [.sym "f"]]

/-- The expressions that `eval` returns as they are, among them the cases
INT_TYPE, DOUBLE_TYPE, STR_TYPE and BOOL_TYPE of its switch. -/
def selfEvaluating : Value → Bool
  | .int _ => true
  | .double _ => true
  | .str _ => true
  | .bool _ => true
  | _ => false

/-! ## Basic facts -/

@[simp] theorem Res.bind_ok {α β : Type} (a : α) (f : α → Res β) :
    (Res.ok a).bind f = f a := rfl

@[simp] theorem Res.bind_error {α β : Type} (m : String) (f : α → Res β) :
    (Res.error m : Res α).bind f = .error m := rfl

@[simp] theorem Res.bind_undefined {α β : Type} (f : α → Res β) :
    (Res.undefined : Res α).bind f = .undefined := rfl

@[simp] theorem Res.bind_timeout {α β : Type} (f : α → Res β) :
    (Res.timeout : Res α).bind f = .timeout := rfl

@[simp] theorem length_list (xs : List Value) : length (list xs) = some xs.length := by
  induction xs with
  | nil => rfl
  | cons x xs ih => simp [list, length, ih]

theorem applyBind_list (ps : List String) :
    ∀ (vs extra : List Value) (acc : Value), ps.length = vs.length →
      applyBind (list (ps.map Value.sym)) (some (list (vs ++ extra))) acc
        = .ok (paramCells ps vs acc) := by
  induction ps with
  | nil =>
    intro vs extra acc hlen
    cases vs with
    | nil => simp [list, applyBind, paramCells]
    | cons v vs => simp at hlen
  | cons p ps ih =>
    intro vs extra acc hlen
    cases vs with
    | nil => simp at hlen
    | cons v vs =>
      simp only [List.length_cons, Nat.succ.injEq] at hlen
      simp only [List.map_cons, list, List.cons_append, applyBind, textOf, length, length_list,
        Option.map_some', paramCells]
      exact ih vs extra _ hlen

theorem applyBind_one_short (ps : List String) (p : String) :
    ∀ (vs : List Value) (acc : Value), ps.length = vs.length →
      applyBind (list ((ps ++ [p]).map Value.sym)) (some (list vs)) acc
        = .ok (.cons (.cons (.str p) .null) (paramCells ps vs acc)) := by
  induction ps with
  | nil =>
    intro vs acc hlen
    cases vs with
    | nil => simp [list, applyBind, paramCells, textOf, length, makeNull]
    | cons v vs => simp at hlen
  | cons q ps ih =>
    intro vs acc hlen
    cases vs with
    | nil => simp at hlen
    | cons v vs =>
      simp only [List.length_cons, Nat.succ.injEq] at hlen
      simp only [List.cons_append, List.map_cons, list, applyBind, textOf, length, length_list,
        Option.map_some', paramCells]
      exact ih vs _ hlen

/-! ## Claims -/

/-- C1 (the code departs from the claim): applying a closure evaluates only the
first expression of its body, in the new frame, and returns that value; the
expressions after the first are never evaluated.  On `((lambda (x) 1 2) 5)` the
interpreter returns 1, where the last body expression has the value 2. -/
theorem apply_closure_evaluates_first_body_only (ev : Ev) (ps e rest args : Value) (fr : Nat)
    (h : Heap) :
    apply ev (.closure ps (.cons e rest) fr) args h
        = (applyBind ps (some args) makeNull).bind (fun b =>
            ev e h.length (h ++ [{ bindings := b, parent := some fr }]))
      ∧ interpret 5 (list [twoBodyCall]) = .ok [.int 1] := by
  refine ⟨rfl, ?_⟩
  decide!

/-- C2, counterexample: a closure with one parameter applied to two arguments
returns a value (`((lambda (x) x) 1 2)` evaluates to 1). -/
theorem apply_closure_extra_argument_returns :
    interpret 5 (list [extraArgCall]) = .ok [.int 1] := by
  decide!

/-- C2, amended: `apply` makes no arity test on a closure.  With at least as
many arguments as parameters it binds the parameters to the leading arguments,
ignores the others and evaluates the first body expression in the new frame;
with exactly one argument missing the last parameter is bound to NULL and the
body is evaluated all the same. -/
theorem apply_closure_no_arity_test (ev : Ev) (ps : List String) (p : String)
    (vs extra : List Value) (e rest : Value) (fr : Nat) (h : Heap)
    (hlen : ps.length = vs.length) :
    apply ev (.closure (list (ps.map Value.sym)) (.cons e rest) fr) (list (vs ++ extra)) h
        = ev e h.length (h ++ [{ bindings := paramCells ps vs .null, parent := some fr }])
      ∧ apply ev (.closure (list ((ps ++ [p]).map Value.sym)) (.cons e rest) fr) (list vs) h
        = ev e h.length
            (h ++ [{ bindings := .cons (.cons (.str p) .null) (paramCells ps vs .null),
                     parent := some fr }]) := by
  constructor
  · simp only [apply, makeNull, applyBind_list ps vs extra _ hlen, Res.bind_ok]
  · simp only [apply, makeNull, applyBind_one_short ps p vs _ hlen, Res.bind_ok]

/-- C2, witness: one parameter and the arguments `1 2`, and two parameters
with the single argument `1`. -/
theorem apply_closure_no_arity_test_witness :
    apply (eval 3) (.closure (list [.sym "x"]) (list [.sym "x"]) 0) (list [.int 1, .int 2])
        initialHeap
        = eval 3 (.sym "x") 1
            (initialHeap ++ [{ bindings := list [.cons (.str "x") (.int 1)], parent := some 0 }])
      ∧ apply (eval 3) (.closure (list [.sym "x", .sym "y"]) (list [.sym "x"]) 0)
          (list [.int 1]) initialHeap
        = eval 3 (.sym "x") 1
            (initialHeap ++ [{ bindings := list [.cons (.str "y") .null,
                                               .cons (.str "x") (.int 1)],
                               parent := some 0 }]) :=
  apply_closure_no_arity_test (eval 3) ["x"] "y" [.int 1] [.int 2] (.sym "x") .null 0
    initialHeap rfl

/-! ### Frame walks -/

theorem walkFrames_found (msg : String) (name : Value) (h : Heap) (fuel cur : Nat) (flag : Bool)
    (f : Frame) (d : Nat) (v : Value) (hf : h[cur]? = some f)
    (hs : scanBindings name f.bindings = .ok (some (d, v))) :
    walkFrames msg name h (fuel + 1) cur flag = .ok (cur, d, v) := by
  have hb : isNull f.bindings = false := by
    cases hfb : f.bindings <;> simp [isNull]
    rw [hfb] at hs
    simp [scanBindings] at hs
  simp [walkFrames, hf, hb, hs]

theorem walkFrames_skip (msg : String) (name : Value) (h : Heap) (fuel cur p : Nat)
    (f : Frame) (hf : h[cur]? = some f)
    (hs : scanBindings name f.bindings = .ok none) (hp : f.parent = some p) :
    walkFrames msg name h (fuel + 1) cur false = walkFrames msg name h fuel p false := by
  simp [walkFrames, hf, hs, hp]

theorem walkFrames_append (msg : String) (name : Value) (h ext : Heap) :
    ∀ (fuel cur : Nat) (flag : Bool) (r : Nat × Nat × Value),
      walkFrames msg name h fuel cur flag = .ok r →
      walkFrames msg name (h ++ ext) fuel cur flag = .ok r := by
  intro fuel
  induction fuel with
  | zero => intro cur flag r hr; simp [walkFrames] at hr
  | succ n ih =>
    intro cur flag r hr
    rw [walkFrames] at hr ⊢
    cases hf : h[cur]? with
    | none => simp [hf] at hr
    | some f =>
      have hlt : cur < h.length := by
        by_contra hge
        rw [List.getElem?_eq_none (by omega)] at hf
        cases hf
      have hf' : (h ++ ext)[cur]? = some f := by
        rw [List.getElem?_append_left hlt]; exact hf
      rw [hf] at hr
      rw [hf']
      simp only at hr ⊢
      split at hr
      · cases hr
      · rename_i hcond
        rw [if_neg hcond]
        cases hs : scanBindings name f.bindings with
        | ok o =>
          rw [hs] at hr
          simp only [Res.bind_ok] at hr ⊢
          cases o with
          | some dv => exact hr
          | none =>
            simp only at hr ⊢
            cases hp : f.parent with
            | some p => rw [hp] at hr; exact ih _ _ _ hr
            | none =>
              rw [hp] at hr
              simp only at hr ⊢
              split at hr
              · cases hr
              · rename_i hfl
                rw [if_neg hfl]
                exact ih _ _ _ hr
        | error m => rw [hs] at hr; cases hr
        | undefined => rw [hs] at hr; cases hr
        | timeout => rw [hs] at hr; cases hr

/-- A variable that the first frame does not bind is resolved through the
parent of that frame: lookup from a new frame with bindings `b` and parent `F`
gives what lookup from `F` gave. -/
theorem lookUpSymbol_child (y : String) (b v : Value) (F : Nat) (h : Heap)
    (hb : scanBindings (.sym y) b = .ok none)
    (hv : lookUpSymbol (.sym y) F h = .ok v) :
    lookUpSymbol (.sym y) h.length (h ++ [{ bindings := b, parent := some F }]) = .ok v := by
  unfold lookUpSymbol at hv ⊢
  cases hw : walkFrames "symbol '%s' not found." (.sym y) h (h.length + 2) F false with
  | ok r =>
    rw [hw] at hv
    simp only [Res.bind_ok, Res.ok.injEq] at hv
    have hlen : (h ++ [({ bindings := b, parent := some F } : Frame)]).length + 2
        = (h.length + 2) + 1 := by simp
    rw [hlen, walkFrames_skip _ _ _ _ _ F { bindings := b, parent := some F } (by simp) hb rfl,
      walkFrames_append _ _ _ _ _ _ _ _ hw]
    simp [hv]
  | error m => rw [hw] at hv; cases hv
  | undefined => rw [hw] at hv; cases hv
  | timeout => rw [hw] at hv; cases hv

theorem evalLambda_closure (args c : Value) (F : Nat) (hlam : evalLambda args F = .ok c) :
    ∃ ps body, c = .closure ps body F ∧ isNull body = false := by
  unfold evalLambda at hlam
  split at hlam
  · cases hlam
  · rename_i params body
    cases hp : lambdaParams params makeNull with
    | ok acc =>
      rw [hp] at hlam
      simp only [Res.bind_ok] at hlam
      split at hlam
      · cases hlam
      · split at hlam
        · cases hlam
        · cases hlam
        · split at hlam
          · cases hlam
          · rename_i hnb
            simp only [Res.ok.injEq] at hlam
            exact ⟨_, _, hlam.symm, by simpa using hnb⟩
    | error m => rw [hp] at hlam; cases hlam
    | undefined => rw [hp] at hlam; cases hlam
    | timeout => rw [hp] at hlam; cases hlam
  · cases hlam

/-- C3: a closure produced by `evalLambda` in frame `F` has `F` as captured
frame; applying it evaluates the body's first expression in a new frame whose
parent is `F`; a variable that the new frame does not bind is resolved there
exactly as it is in `F`; and the second expression of `(define make-adder
(lambda (n) (lambda (x) (+ x n)))) ((make-adder 3) 4)` evaluates to the
Integer 7. -/
theorem closure_captures_defining_frame (ev : Ev) (args c : Value) (F : Nat)
    (hlam : evalLambda args F = .ok c) :
    (∃ ps body, c = .closure ps body F ∧ isNull body = false ∧
      ∀ (e rest actuals : Value) (h : Heap), body = .cons e rest →
        apply ev c actuals h
          = (applyBind ps (some actuals) makeNull).bind (fun b =>
              ev e h.length (h ++ [{ bindings := b, parent := some F }])))
      ∧ (∀ (y : String) (b v : Value) (h : Heap),
          scanBindings (.sym y) b = .ok none → lookUpSymbol (.sym y) F h = .ok v →
          lookUpSymbol (.sym y) h.length (h ++ [{ bindings := b, parent := some F }]) = .ok v)
      ∧ interpret 6 makeAdderProgram = .ok [.void, .int 7] := by
  obtain ⟨ps, body, hc, hnb⟩ := evalLambda_closure args c F hlam
  refine ⟨⟨ps, body, hc, hnb, ?_⟩, ?_, ?_⟩
  · intro e rest actuals h hbody
    subst hc hbody
    rfl
  · intro y b v h hb hv
    exact lookUpSymbol_child y b v F h hb hv
  · decide!

/-- C3, witness: the closure of `(lambda (x) (+ x n))` made in frame 1. -/
theorem closure_captures_defining_frame_witness :
    (∃ ps body, Value.closure (list [.sym "x"]) (list [list [.sym "+", .sym "x", .sym "n"]]) 1
        = .closure ps body 1 ∧ isNull body = false ∧
      ∀ (e rest actuals : Value) (h : Heap), body = .cons e rest →
        apply (eval 3)
            (.closure (list [.sym "x"]) (list [list [.sym "+", .sym "x", .sym "n"]]) 1)
            actuals h
          = (applyBind ps (some actuals) makeNull).bind (fun b =>
              eval 3 e h.length (h ++ [{ bindings := b, parent := some 1 }])))
      ∧ (∀ (y : String) (b v : Value) (h : Heap),
          scanBindings (.sym y) b = .ok none → lookUpSymbol (.sym y) 1 h = .ok v →
          lookUpSymbol (.sym y) h.length (h ++ [{ bindings := b, parent := some 1 }]) = .ok v)
      ∧ interpret 6 makeAdderProgram = .ok [.void, .int 7] :=
  closure_captures_defining_frame (eval 3)
    (list [list [.sym "x"], list [.sym "+", .sym "x", .sym "n"]])
    (.closure (list [.sym "x"]) (list [list [.sym "+", .sym "x", .sym "n"]]) 1) 1 (by decide)

/-! ### let -/

theorem letLoop_congr (ev ev' : Ev) (frame newframe : Nat)
    (hagree : ∀ e h, ev e frame h = ev' e frame h) (expressions : Value) :
    ∀ (bindings : Value) (h : Heap),
      letLoop ev frame newframe expressions bindings h
        = letLoop ev' frame newframe expressions bindings h := by
  induction expressions with
  | cons b rest _ ih =>
    intro bindings h
    cases b with
    | cons k tl =>
      cases k with
      | sym text =>
        simp only [letLoop]
        congr 1
        funext dup
        split
        · rfl
        · cases tl with
          | cons e tl2 =>
            simp only [hagree]
            congr 1
            funext r
            split
            · rfl
            · congr 1
              funext h2
              exact ih _ _
          | _ => rfl
      | _ => simp [letLoop]
    | _ => simp [letLoop]
  | _ => intro bindings h; simp [letLoop]

theorem scanBindings_cell (y x : String) (v acc : Value) (hxy : x ≠ y) :
    scanBindings (.sym y) (.cons (.cons (.str x) v) acc) = scanBindings (.sym y) acc := by
  simp [scanBindings, textOf, hxy]

theorem letLoop_of_inits (ev : Ev) (frame newframe : Nat) (hfinal : Heap) :
    ∀ (bs : List (String × Value × Value)) (acc : Value) (h : Heap),
      (bs.map (fun t => t.1)).Nodup →
      (∀ t ∈ bs, scanBindings (.sym t.1) acc = .ok none) →
      (∀ t ∈ bs, letRejects t.2.2 = false) →
      LetInits ev frame newframe bs acc h hfinal →
      letLoop ev frame newframe (bindingForms bs) acc h = .ok hfinal := by
  intro bs
  induction bs with
  | nil =>
    intro acc h _ _ _ hin
    simp only [LetInits] at hin
    simp [bindingForms, list, letLoop, hin]
  | cons t bs ih =>
    intro acc h hnd hacc htag hin
    obtain ⟨h1, h2, hev, hset, hrest⟩ := hin
    have hnd' : t.1 ∉ bs.map (fun t => t.1) ∧ (bs.map (fun t => t.1)).Nodup := by
      rw [List.map_cons] at hnd
      exact List.nodup_cons.mp hnd
    have hd : letDuplicate t.1 acc = .ok false := by
      simp [letDuplicate, hacc t (List.mem_cons_self _ _)]
    have ht : letRejects t.2.2 = false := htag t (List.mem_cons_self _ _)
    have hstep : letLoop ev frame newframe (bindingForms (t :: bs)) acc h
        = letLoop ev frame newframe (bindingForms bs)
            (.cons (.cons (.str t.1) t.2.2) acc) h2 := by
      simp [bindingForms, list, letLoop, hd, hev, ht, hset]
    rw [hstep]
    apply ih _ _ hnd'.2
    · intro u hu
      have hne : t.1 ≠ u.1 := by
        intro heq
        exact hnd'.1 (List.mem_map.mpr ⟨u, hu, heq.symm⟩)
      rw [scanBindings_cell _ _ _ _ hne]
      exact hacc u (List.mem_cons_of_mem _ hu)
    · intro u hu
      exact htag u (List.mem_cons_of_mem _ hu)
    · exact hrest

theorem setBindings_get (h h2 : Heap) (p : Nat) (b : Value) (hs : setBindings h p b = .ok h2) :
    ∃ f, h2[p]? = some f ∧ f.bindings = b := by
  unfold setBindings at hs
  cases hf : h[p]? with
  | none => rw [hf] at hs; cases hs
  | some f =>
    rw [hf] at hs
    simp only [Res.ok.injEq] at hs
    have hlt : p < h.length := by
      by_contra hge
      rw [List.getElem?_eq_none (by omega)] at hf
      cases hf
    refine ⟨{ f with bindings := b }, ?_, rfl⟩
    rw [← hs]
    simp [List.getElem?_set, hlt]

theorem letInits_final (ev : Ev) (frame newframe : Nat) (hfinal : Heap) :
    ∀ (bs : List (String × Value × Value)) (acc : Value) (h : Heap),
      bs ≠ [] → LetInits ev frame newframe bs acc h hfinal →
      ∃ f, hfinal[newframe]? = some f ∧ f.bindings = letCells bs acc := by
  intro bs
  induction bs with
  | nil => intro acc h hne; exact absurd rfl hne
  | cons t bs ih =>
    intro acc h _ hin
    obtain ⟨h1, h2, _, hset, hrest⟩ := hin
    cases bs with
    | nil =>
      simp only [LetInits] at hrest
      subst hrest
      simpa [letCells] using setBindings_get _ _ _ _ hset
    | cons u bs => exact ih _ _ (by simp) hrest

theorem isListTag_list (xs : List Value) : isListTag (list xs) = true := by
  cases xs <;> rfl

theorem walkFrames_fuel_succ (msg : String) (name : Value) (h : Heap) :
    ∀ (fuel cur : Nat) (flag : Bool) (r : Nat × Nat × Value),
      walkFrames msg name h fuel cur flag = .ok r →
      walkFrames msg name h (fuel + 1) cur flag = .ok r := by
  intro fuel
  induction fuel with
  | zero => intro cur flag r hr; simp [walkFrames] at hr
  | succ n ih =>
    intro cur flag r hr
    rw [walkFrames] at hr ⊢
    cases hf : h[cur]? with
    | none => simp [hf] at hr
    | some f =>
      rw [hf] at hr
      simp only at hr ⊢
      split at hr
      · cases hr
      · rename_i hcond
        rw [if_neg hcond]
        cases hs : scanBindings name f.bindings with
        | ok o =>
          rw [hs] at hr
          simp only [Res.bind_ok] at hr ⊢
          cases o with
          | some dv => exact hr
          | none =>
            simp only at hr ⊢
            cases hp : f.parent with
            | some p => rw [hp] at hr; exact ih _ _ _ hr
            | none =>
              rw [hp] at hr
              simp only at hr ⊢
              split at hr
              · cases hr
              · rename_i hfl
                rw [if_neg hfl]
                exact ih _ _ _ hr
        | error m => rw [hs] at hr; cases hr
        | undefined => rw [hs] at hr; cases hr
        | timeout => rw [hs] at hr; cases hr

/-- Lookup from a frame of the heap is not changed by a frame allocated
afterwards, whatever that frame binds: the walk from `F` follows parent
pointers, and no frame of `h` has the new frame as parent. -/
theorem lookUpSymbol_enclosing (name v : Value) (F : Nat) (h : Heap) (g : Frame)
    (hv : lookUpSymbol name F h = .ok v) :
    lookUpSymbol name F (h ++ [g]) = .ok v := by
  unfold lookUpSymbol at hv ⊢
  cases hw : walkFrames "symbol '%s' not found." name h (h.length + 2) F false with
  | ok r =>
    rw [hw] at hv
    simp only [Res.bind_ok, Res.ok.injEq] at hv
    have hlen : (h ++ [g]).length + 2 = (h.length + 2) + 1 := by simp
    rw [hlen, walkFrames_fuel_succ _ _ _ _ _ _ _ (walkFrames_append _ _ _ [g] _ _ _ _ hw)]
    simp [hv]
  | error m => rw [hw] at hv; cases hv
  | undefined => rw [hw] at hv; cases hv
  | timeout => rw [hw] at hv; cases hv

theorem setBindings_new (h : Heap) (b0 b : Value) (p : Option Nat) :
    setBindings (h ++ [{ bindings := b0, parent := p }]) h.length b
      = .ok (h ++ [{ bindings := b, parent := p }]) := by
  simp [setBindings]

theorem evalBody_congr (ev ev' : Ev) (fr : Nat)
    (hagree : ∀ e h, ev e fr h = ev' e fr h) (body : Value) :
    ∀ (r : Option Value) (h : Heap), evalBody ev fr body r h = evalBody ev' fr body r h := by
  induction body with
  | cons e rest _ ih =>
    intro r h
    simp only [evalBody, hagree]
    congr 1
    funext x
    exact ih _ _
  | null => intro r h; cases r <;> rfl
  | _ => intro r h; simp [evalBody]

theorem eval_selfEvaluating (n : Nat) (e : Value) (fr : Nat) (h : Heap)
    (he : selfEvaluating e = true) : eval (n + 1) e fr h = .ok (e, h) := by
  cases e <;> simp [selfEvaluating] at he <;> simp [eval, evalStep]

theorem letInits_outer (n F : Nat) (h : Heap) :
    ∀ (bs : List (String × Value × Value)) (acc : Value),
      (∀ t ∈ bs,
        (∃ s, t.2.1 = .sym s ∧ lookUpSymbol (.sym s) F h = .ok t.2.2)
          ∨ (selfEvaluating t.2.1 = true ∧ t.2.2 = t.2.1)) →
      LetInits (eval (n + 1)) F h.length bs acc
        (h ++ [{ bindings := acc, parent := some F }])
        (h ++ [{ bindings := letCells bs acc, parent := some F }]) := by
  intro bs
  induction bs with
  | nil => intro acc _; simp [LetInits, letCells]
  | cons t bs ih =>
    intro acc hin
    have hev : eval (n + 1) t.2.1 F (h ++ [{ bindings := acc, parent := some F }])
        = .ok (t.2.2, h ++ [{ bindings := acc, parent := some F }]) := by
      rcases hin t (List.mem_cons_self _ _) with ⟨s, hs, hl⟩ | ⟨hs, hv⟩
      · rw [hs]
        simp only [eval, evalStep]
        rw [lookUpSymbol_enclosing _ _ _ _ _ hl]
        rfl
      · rw [hv]
        exact eval_selfEvaluating n _ _ _ hs
    refine ⟨_, _, hev, setBindings_new h acc _ (some F), ?_⟩
    exact ih _ (fun u hu => hin u (List.mem_cons_of_mem _ hu))

/-- C4: `let` hands every init expression to `eval` together with the
enclosing frame, never with the new frame, and the body with the new frame.
First, for an evaluator that is `ev` in the enclosing frame `F` and `ev2` in
every other frame, `evalLet` on any operands runs its binding loop with `ev`
and its body with `ev2`.  Second, with the evaluator `eval` itself: when the
binders are distinct and every init expression is either a symbol, whose
binding seen from `F` before the `let` is the value `v`, or a literal, whose
value `v` is itself, the `let` is the evaluation of its body in a new frame
that binds every binder to that `v`: an init that names a binder of the same
`let` receives the OUTER binding.  Third, in `(define x 10) (let ((x 1) (y x))
(+ x y))` the second expression evaluates to the Integer 11. -/
theorem let_inits_in_enclosing_frame (n F : Nat) (h : Heap)
    (bs : List (String × Value × Value)) (body : Value)
    (hF : F < h.length)
    (hnodup : (bs.map (fun t => t.1)).Nodup)
    (htags : ∀ t ∈ bs, letRejects t.2.2 = false)
    (hinits : ∀ t ∈ bs,
      (∃ s, t.2.1 = .sym s ∧ lookUpSymbol (.sym s) F h = .ok t.2.2)
        ∨ (selfEvaluating t.2.1 = true ∧ t.2.2 = t.2.1)) :
    (∀ (ev ev2 : Ev) (expressions rest : Value), isListTag expressions = true →
        evalLet (fun e f h1 => if f = F then ev e f h1 else ev2 e f h1)
            (.cons expressions rest) F h
          = (letLoop ev F h.length expressions makeNull
                (h ++ [{ bindings := makeNull, parent := some F }])).bind
              (fun h1 => evalBody ev2 h.length rest none h1))
      ∧ evalLet (eval (n + 1)) (.cons (bindingForms bs) body) F h
          = evalBody (eval (n + 1)) h.length body none
              (h ++ [{ bindings := letCells bs .null, parent := some F }])
      ∧ interpret 6 letShadowProgram = .ok [.void, .int 11] := by
  refine ⟨?_, ?_, by decide!⟩
  · intro ev ev2 expressions rest hl
    simp only [evalLet, hl, if_true]
    rw [letLoop_congr _ ev F h.length (by intro e h1; simp)]
    congr 1
    funext h1
    apply evalBody_congr
    intro e h2
    have hne : ¬ h.length = F := by omega
    simp [hne]
  · have hloop := letLoop_of_inits (eval (n + 1)) F h.length _ bs .null _ hnodup
      (by intro t _; rfl) htags (letInits_outer n F h bs .null hinits)
    simp only [evalLet, bindingForms, isListTag_list, if_true, makeNull] at hloop ⊢
    rw [hloop]
    rfl

/-- C4, witness: the form `(let ((x 1) (y x)) (+ x y))` in the global frame of
a heap whose global frame binds `x` to 10: the new frame binds `y` to 10. -/
theorem let_inits_in_enclosing_frame_witness :
    (∀ (ev ev2 : Ev) (expressions rest : Value), isListTag expressions = true →
        evalLet (fun e f h1 => if f = 0 then ev e f h1 else ev2 e f h1)
            (.cons expressions rest) 0 [Frame.mk (list [.cons (.str "x") (.int 10)]) none]
          = (letLoop ev 0 [Frame.mk (list [.cons (.str "x") (.int 10)]) none].length
                expressions makeNull
                ([Frame.mk (list [.cons (.str "x") (.int 10)]) none]
                  ++ [{ bindings := makeNull, parent := some 0 }])).bind
              (fun h1 => evalBody ev2
                [Frame.mk (list [.cons (.str "x") (.int 10)]) none].length rest none h1))
      ∧ evalLet (eval 3)
            (.cons (bindingForms [("x", .int 1, .int 1), ("y", .sym "x", .int 10)])
              (list [list [.sym "+", .sym "x", .sym "y"]])) 0
            [Frame.mk (list [.cons (.str "x") (.int 10)]) none]
          = evalBody (eval 3) [Frame.mk (list [.cons (.str "x") (.int 10)]) none].length
              (list [list [.sym "+", .sym "x", .sym "y"]]) none
              ([Frame.mk (list [.cons (.str "x") (.int 10)]) none]
                ++ [{ bindings := letCells [("x", .int 1, .int 1), ("y", .sym "x", .int 10)] .null,
                      parent := some 0 }])
      ∧ interpret 6 letShadowProgram = .ok [.void, .int 11] :=
  let_inits_in_enclosing_frame 2 0 [Frame.mk (list [.cons (.str "x") (.int 10)]) none]
    [("x", .int 1, .int 1), ("y", .sym "x", .int 10)]
    (list [list [.sym "+", .sym "x", .sym "y"]])
    (by decide) (by decide) (by decide)
    (by simp [selfEvaluating, lookUpSymbol, walkFrames, scanBindings, textOf, list, isNull,
      Res.bind])

/-- C5, counterexample: the init expression of `(let ((f (lambda (x) x))) 1)`
evaluates to a closure, and the `let` fails. -/
theorem let_closure_init_fails :
    interpret 5 (list [letClosureInit]) = .error "Unbound variable %s in let." := by
  decide!

/-- C5, amended: when the binders are distinct symbols and the init
expressions evaluate successfully, in the enclosing frame, to values none of
which is tagged Closure (or Unspecified), the `let` is the evaluation of its
body in the new frame, so it returns the value of the last body expression;
and that frame (allocated as a child of the enclosing frame) then holds
exactly the cells `(xi . vi)`. -/
theorem let_binds_values_not_closures (ev : Ev) (frame : Nat) (h hfinal : Heap)
    (bs : List (String × Value × Value)) (body : Value)
    (hnodup : (bs.map (fun t => t.1)).Nodup)
    (htags : ∀ t ∈ bs, letRejects t.2.2 = false)
    (hinits : LetInits ev frame h.length bs .null
      (h ++ [{ bindings := .null, parent := some frame }]) hfinal) :
    evalLet ev (.cons (bindingForms bs) body) frame h = evalBody ev h.length body none hfinal
      ∧ (bs ≠ [] → ∃ f, hfinal[h.length]? = some f ∧ f.bindings = letCells bs .null) := by
  constructor
  · have hloop := letLoop_of_inits ev frame h.length hfinal bs .null _ hnodup
      (by intro t _; rfl) htags hinits
    simp only [evalLet, bindingForms, isListTag_list, if_true, makeNull] at hloop ⊢
    rw [hloop]
    rfl
  · intro hne
    exact letInits_final ev frame h.length hfinal bs .null _ hne hinits

/-- C5, witness: `(let ((a 1) (c +)) c)` in the top-level frame: an Integer and
a Primitive are bound and the body is evaluated in the new frame. -/
theorem let_binds_values_not_closures_witness :
    evalLet (eval 3)
        (.cons (bindingForms [("a", .int 1, .int 1), ("c", .sym "+", .primitive .primitiveAdd)])
          (list [.sym "c"])) 1 (initialHeap ++ [Frame.mk .null none])
      = evalBody (eval 3) (initialHeap ++ [Frame.mk .null none]).length (list [.sym "c"]) none
          (initialHeap ++ [Frame.mk .null none,
            Frame.mk (list [.cons (.str "c") (.primitive .primitiveAdd),
              .cons (.str "a") (.int 1)]) (some 1)])
      ∧ (([("a", Value.int 1, Value.int 1), ("c", .sym "+", .primitive .primitiveAdd)] :
            List (String × Value × Value)) ≠ [] →
          ∃ f, (initialHeap ++ [Frame.mk .null none,
              Frame.mk (list [.cons (.str "c") (.primitive .primitiveAdd),
                .cons (.str "a") (.int 1)]) (some 1)])[
                  (initialHeap ++ [Frame.mk .null none]).length]? = some f
            ∧ f.bindings = letCells [("a", .int 1, .int 1),
                ("c", .sym "+", .primitive .primitiveAdd)] .null) :=
  let_binds_values_not_closures (eval 3) 1 (initialHeap ++ [Frame.mk .null none])
    (initialHeap ++ [Frame.mk .null none,
      Frame.mk (list [.cons (.str "c") (.primitive .primitiveAdd),
        .cons (.str "a") (.int 1)]) (some 1)])
    [("a", .int 1, .int 1), ("c", .sym "+", .primitive .primitiveAdd)]
    (list [.sym "c"]) (by decide) (by decide)
    ⟨initialHeap ++ [Frame.mk .null none, Frame.mk .null (some 1)],
      initialHeap ++ [Frame.mk .null none,
        Frame.mk (list [.cons (.str "a") (.int 1)]) (some 1)],
      by decide!, by decide!,
      initialHeap ++ [Frame.mk .null none,
        Frame.mk (list [.cons (.str "a") (.int 1)]) (some 1)],
      initialHeap ++ [Frame.mk .null none,
        Frame.mk (list [.cons (.str "c") (.primitive .primitiveAdd),
          .cons (.str "a") (.int 1)]) (some 1)],
      by decide!, by decide!, rfl⟩

/-! ### define -/

theorem evalStep_define (ev : Ev) (fuel : Nat) (args : Value) (F : Nat) (h : Heap) :
    evalStep ev fuel (.cons (.sym "define") args) F h = evalDefine ev args globalframe h := by
  simp [evalStep, strcmpLit, textOf]

/-- C9, counterexample: in `(define x 10) (let ((x 1)) (begin (define y x) x))
y` the body of the `let` sees `x` as 1, yet the `define` in that body binds
`y` to 10, the value of `x` in the global frame. -/
theorem define_in_let_uses_global_value :
    interpret 6 defineInLetProgram = .ok [.void, .int 1, .int 10] := by
  decide!

/-- C9, amended: `define` evaluates its expression in the GLOBAL frame,
whatever the frame `F` in which the form appears, and then conses the cell
`(name . value)` in front of the bindings of the global frame and returns Void;
the value bound is the value of the expression in the global frame. -/
theorem define_evaluates_in_global_frame (ev : Ev) (fuel : Nat) (text : String)
    (e v : Value) (F : Nat) (h h1 : Heap) (g : Frame)
    (hev : ev e globalframe h = .ok (v, h1)) (hg : h1[globalframe]? = some g) :
    evalStep ev fuel (list [.sym "define", .sym text, e]) F h
      = .ok (.void,
          h1.set globalframe { g with bindings := .cons (.cons (.str text) v) g.bindings }) := by
  rw [list, evalStep_define]
  simp [list, evalDefine, hev, hg]

/-- C9, witness: `(define y 5)` evaluated in frame 1. -/
theorem define_evaluates_in_global_frame_witness :
    evalStep (eval 1) 1 (list [.sym "define", .sym "y", .int 5]) 1
        (initialHeap ++ [Frame.mk .null none])
      = .ok (.void,
          (initialHeap ++ [Frame.mk .null none]).set globalframe
            { (Frame.mk primitiveBindings none) with
              bindings := .cons (.cons (.str "y") (.int 5)) primitiveBindings }) :=
  define_evaluates_in_global_frame (eval 1) 1 "y" (.int 5) (.int 5) 1
    (initialHeap ++ [Frame.mk .null none]) (initialHeap ++ [Frame.mk .null none])
    (Frame.mk primitiveBindings none) rfl rfl

theorem unshadowed_mem_lt (name : Value) (h : Heap) :
    ∀ (chain : List Nat), Unshadowed name h chain → ∀ c ∈ chain, c < h.length := by
  intro chain
  induction chain with
  | nil => intro hu; exact absurd hu (by simp [Unshadowed])
  | cons c cs ih =>
    intro hu x hx
    have hc : c < h.length := by
      cases cs with
      | nil =>
        obtain ⟨f, hf, _⟩ := hu
        by_contra hge
        rw [List.getElem?_eq_none (by omega)] at hf
        cases hf
      | cons d ds =>
        obtain ⟨⟨f, hf, _⟩, _⟩ := hu
        by_contra hge
        rw [List.getElem?_eq_none (by omega)] at hf
        cases hf
    rcases List.mem_cons.mp hx with rfl | hx'
    · exact hc
    · cases cs with
      | nil => simp at hx'
      | cons d ds => exact ih hu.2 x hx'

theorem nodup_length_le (chain : List Nat) (n : Nat) (hnd : chain.Nodup)
    (hlt : ∀ c ∈ chain, c < n) : chain.length ≤ n := by
  have hsub : chain.toFinset ⊆ Finset.range n := by
    intro x hx
    exact Finset.mem_range.mpr (hlt x (List.mem_toFinset.mp hx))
  have hcard := Finset.card_le_card hsub
  rwa [List.toFinset_card_of_nodup hnd, Finset.card_range] at hcard

theorem walkFrames_unshadowed (msg : String) (name : Value) (h : Heap) (g : Frame) (d : Nat)
    (v : Value) (hg : h[globalframe]? = some g)
    (hs : scanBindings name g.bindings = .ok (some (d, v))) :
    ∀ (chain : List Nat) (c fuel : Nat), Unshadowed name h (c :: chain) →
      chain.length + 2 ≤ fuel →
      walkFrames msg name h fuel c false = .ok (globalframe, d, v) := by
  intro chain
  induction chain with
  | nil =>
    intro c fuel hu hfuel
    obtain ⟨f, hf, hp, hsc⟩ := hu
    obtain ⟨k, rfl⟩ : ∃ k, fuel = k + 2 := ⟨fuel - 2, by simp at hfuel; omega⟩
    rcases hp with hp | hp
    · have h1 : walkFrames msg name h (k + 1 + 1) c false
          = walkFrames msg name h (k + 1) globalframe true := by
        simp [walkFrames, hf, hsc, hp]
      rw [h1]
      exact walkFrames_found msg name h k globalframe true g d v hg hs
    · rw [walkFrames_skip msg name h (k + 1) c globalframe f hf hsc hp]
      exact walkFrames_found msg name h k globalframe false g d v hg hs
  | cons e es ih =>
    intro c fuel hu hfuel
    obtain ⟨⟨f, hf, hp, hsc⟩, hrest⟩ := hu
    obtain ⟨k, rfl⟩ : ∃ k, fuel = k + 1 := ⟨fuel - 1, by simp at hfuel; omega⟩
    rw [walkFrames_skip msg name h k c e f hf hsc hp]
    exact ih e k hrest (by simp at hfuel ⊢; omega)

theorem lookUpSymbol_unshadowed (text : String) (v rest : Value) (h : Heap) (g : Frame)
    (hg : h[globalframe]? = some g) (hb : g.bindings = .cons (.cons (.str text) v) rest) :
    (∀ (c : Nat) (chain : List Nat), (c :: chain).Nodup →
        Unshadowed (.sym text) h (c :: chain) → lookUpSymbol (.sym text) c h = .ok v)
      ∧ lookUpSymbol (.sym text) globalframe h = .ok v := by
  have hs : scanBindings (.sym text) g.bindings = .ok (some (cells rest + 1, v)) := by
    rw [hb]
    simp [scanBindings, textOf]
  constructor
  · intro c chain hnd hun
    have hlen := nodup_length_le (c :: chain) h.length hnd (unshadowed_mem_lt _ h _ hun)
    unfold lookUpSymbol
    rw [walkFrames_unshadowed _ _ h g _ v hg hs chain c _ hun
      (by simp at hlen ⊢; omega)]
    rfl
  · unfold lookUpSymbol
    rw [walkFrames_found _ _ h (h.length + 1) globalframe false g _ v hg hs]
    rfl

theorem defineCell_global (h : Heap) (g : Frame) (text : String) (v : Value)
    (hg : h[globalframe]? = some g) :
    (defineCell h g text v)[globalframe]?
      = some { g with bindings := .cons (.cons (.str text) v) g.bindings } := by
  have hlt : globalframe < h.length := by
    by_contra hge
    rw [List.getElem?_eq_none (by omega)] at hg
    cases hg
  simp [defineCell, List.getElem?_set, hlt]

/-- C10: `define` returns Void and conses the new cell in front of the
bindings of the global frame; after two defines of the same name, with values
`v1` then `v2` of any tag, lookup of the name returns `v2`, both from the
global frame and from every frame whose chain of parents does not bind the
name. -/
theorem define_twice_lookup_latest (ev : Ev) (fuel : Nat) (text : String)
    (e1 e2 v1 v2 : Value) (F1 F2 : Nat) (h h1 h2 : Heap) (g1 g2 : Frame)
    (c : Nat) (chain : List Nat)
    (hev1 : ev e1 globalframe h = .ok (v1, h1)) (hg1 : h1[globalframe]? = some g1)
    (hev2 : ev e2 globalframe (defineCell h1 g1 text v1) = .ok (v2, h2))
    (hg2 : h2[globalframe]? = some g2)
    (hnd : (c :: chain).Nodup)
    (hun : Unshadowed (.sym text) (defineCell h2 g2 text v2) (c :: chain)) :
    evalStep ev fuel (list [.sym "define", .sym text, e1]) F1 h
        = .ok (.void, defineCell h1 g1 text v1)
      ∧ evalStep ev fuel (list [.sym "define", .sym text, e2]) F2 (defineCell h1 g1 text v1)
        = .ok (.void, defineCell h2 g2 text v2)
      ∧ lookUpSymbol (.sym text) c (defineCell h2 g2 text v2) = .ok v2
      ∧ lookUpSymbol (.sym text) globalframe (defineCell h2 g2 text v2) = .ok v2 := by
  have hl := lookUpSymbol_unshadowed text v2 g2.bindings (defineCell h2 g2 text v2) _
    (defineCell_global h2 g2 text v2 hg2) rfl
  refine ⟨?_, ?_, hl.1 c chain hnd hun, hl.2⟩
  · rw [list, evalStep_define]
    simp only [list, evalDefine, hev1, Res.bind_ok, hg1]
    rfl
  · rw [list, evalStep_define]
    simp only [list, evalDefine, hev2, Res.bind_ok, hg2]
    rfl

/-- C10, witness: `(define a 1)` then `(define a (quote ()))`, and lookup of
`a` from the empty top-level frame 1 and from the global frame: both return
the Null value defined last. -/
theorem define_twice_lookup_latest_witness :
    evalStep (eval 1) 1 (list [.sym "define", .sym "a", .int 1]) 1 topHeap
        = .ok (.void, defineCell topHeap (Frame.mk primitiveBindings none) "a" (.int 1))
      ∧ evalStep (eval 1) 1 (list [.sym "define", .sym "a", list [.sym "quote", .null]]) 1
          (defineCell topHeap (Frame.mk primitiveBindings none) "a" (.int 1))
        = .ok (.void,
            defineCell (defineCell topHeap (Frame.mk primitiveBindings none) "a" (.int 1))
              (Frame.mk (.cons (.cons (.str "a") (.int 1)) primitiveBindings) none) "a" .null)
      ∧ lookUpSymbol (.sym "a") 1
          (defineCell (defineCell topHeap (Frame.mk primitiveBindings none) "a" (.int 1))
            (Frame.mk (.cons (.cons (.str "a") (.int 1)) primitiveBindings) none) "a" .null)
        = .ok .null
      ∧ lookUpSymbol (.sym "a") globalframe
          (defineCell (defineCell topHeap (Frame.mk primitiveBindings none) "a" (.int 1))
            (Frame.mk (.cons (.cons (.str "a") (.int 1)) primitiveBindings) none) "a" .null)
        = .ok .null :=
  define_twice_lookup_latest (eval 1) 1 "a" (.int 1) (list [.sym "quote", .null]) (.int 1) .null
    1 1 topHeap topHeap
    (defineCell topHeap (Frame.mk primitiveBindings none) "a" (.int 1))
    (Frame.mk primitiveBindings none)
    (Frame.mk (.cons (.cons (.str "a") (.int 1)) primitiveBindings) none) 1 []
    rfl rfl (by decide!) rfl (by decide) ⟨Frame.mk .null none, rfl, Or.inl rfl, rfl⟩

/-! ### reverse -/

theorem revOnto_list (xs : List Value) :
    ∀ (acc : List Value), revOnto xs (list acc) = list (xs.reverse ++ acc) := by
  induction xs with
  | nil => intro acc; rfl
  | cons x xs ih =>
    intro acc
    simp only [revOnto, List.reverse_cons, List.append_assoc, List.singleton_append]
    exact ih (x :: acc)

theorem reverseLoop_list (ys : List Value) :
    ∀ (y acc : Value), (∀ z ∈ y :: ys, isNull z = false) →
      reverseLoop (list (y :: ys)) y acc = some (revOnto (y :: ys) acc) := by
  induction ys with
  | nil =>
    intro y acc hnn
    have hy : isNull y = false := hnn y (List.mem_cons_self _ _)
    simp [list, reverseLoop, hy, revOnto]
  | cons w ws ih =>
    intro y acc hnn
    have hy : isNull y = false := hnn y (List.mem_cons_self _ _)
    have hrest : ∀ z ∈ w :: ws, isNull z = false :=
      fun z hz => hnn z (List.mem_cons_of_mem _ hz)
    have hstep : reverseLoop (list (y :: w :: ws)) y acc
        = reverseLoop (list (w :: ws)) w (.cons y acc) := by
      simp [list, reverseLoop, hy]
    rw [hstep, ih w _ hrest]
    rfl

/-- On a proper list none of whose elements after the first is NULL_TYPE,
`reverse` returns the elements in the opposite order. -/
theorem reverse_list (x : Value) (xs : List Value) (hnn : ∀ z ∈ xs, isNull z = false) :
    reverse (list (x :: xs)) = some (list (x :: xs).reverse) := by
  cases xs with
  | nil => rfl
  | cons y ys =>
    have hstep : reverse (list (x :: y :: ys)) = reverseLoop (list (y :: ys)) y (list [x]) := by
      simp [list, reverse]
    rw [hstep, reverseLoop_list ys y _ hnn, revOnto_list]
    simp

theorem reverse_revOnto (xs : List Value) (hnn : ∀ z ∈ xs, isNull z = false) :
    reverse (revOnto xs .null) = some (list xs) := by
  have h0 : revOnto xs .null = list (xs.reverse) := by
    have := revOnto_list xs []
    simpa [list] using this
  rw [h0]
  cases hr : xs.reverse with
  | nil =>
    have : xs = [] := by simpa using hr
    subst this
    rfl
  | cons y ys =>
    have hmem : ∀ z ∈ ys, isNull z = false := by
      intro z hz
      apply hnn z
      have : z ∈ xs.reverse := by rw [hr]; exact List.mem_cons_of_mem _ hz
      simpa using this
    rw [reverse_list y ys hmem, ← hr, List.reverse_reverse]

/-! ### letrec -/

theorem eval_lambda (n : Nat) (args : Value) (fr : Nat) (h : Heap) :
    eval (n + 1) (.cons (.sym "lambda") args) fr h
      = (evalLambda args fr).bind (fun v => .ok (v, h)) := by
  simp [eval, evalStep, strcmpLit, textOf]

theorem eval_sym (n : Nat) (s : String) (fr : Nat) (h : Heap) :
    eval (n + 1) (.sym s) fr h = (lookUpSymbol (.sym s) fr h).bind (fun v => .ok (v, h)) := by
  simp [eval, evalStep]

theorem lookUpSymbol_found (name : Value) (F d : Nat) (v : Value) (h : Heap) (f : Frame)
    (hf : h[F]? = some f) (hs : scanBindings name f.bindings = .ok (some (d, v))) :
    lookUpSymbol name F h = .ok v := by
  unfold lookUpSymbol
  rw [walkFrames_found _ name h (h.length + 1) F false f d v hf hs]
  rfl

theorem letrecInit_forms (ts : List (String × Value × Value)) :
    ∀ (acc : Value),
      letrecInit (bindingForms ts) acc = some (revOnto (unspecifiedCells ts) acc) := by
  induction ts with
  | nil => intro acc; rfl
  | cons t ts ih =>
    intro acc
    have := ih (.cons (.cons (.sym t.1) .unspecified) acc)
    simpa [bindingForms, list, letrecInit, unspecifiedCells, revOnto] using this

theorem letrecInit_reverse (ts : List (String × Value × Value)) :
    (letrecInit (bindingForms ts) makeNull).bind reverse = some (list (unspecifiedCells ts)) := by
  rw [makeNull, letrecInit_forms]
  simp only [Option.some_bind]
  apply reverse_revOnto
  intro z hz
  simp only [unspecifiedCells, List.mem_map] at hz
  obtain ⟨t, _, rfl⟩ := hz
  rfl

theorem letrecEval_prefix (ev : Ev) (newframe : Nat) (h : Heap)
    (pre : List (String × Value × Value)) :
    ∀ (post : List (String × Value × Value)) (acc : Value),
      (∀ t ∈ pre, ev t.2.1 newframe h = .ok (t.2.2, h) ∧ t.2.2 ≠ .unspecified) →
      letrecEval ev newframe (bindingForms (pre ++ post)) acc h
        = letrecEval ev newframe (bindingForms post)
            (revOnto (pre.map (fun t => t.2.2)) acc) h := by
  induction pre with
  | nil => intro post acc _; rfl
  | cons t pre ih =>
    intro post acc hpure
    obtain ⟨hev, hne⟩ := hpure t (List.mem_cons_self _ _)
    have hstep : letrecEval ev newframe (bindingForms (t :: pre ++ post)) acc h
        = letrecEval ev newframe (bindingForms (pre ++ post)) (.cons t.2.2 acc) h := by
      simp only [bindingForms, List.cons_append, List.map_cons, list, letrecEval, hev,
        Res.bind_ok]
      rfl
    rw [hstep, ih post _ (fun u hu => hpure u (List.mem_cons_of_mem _ hu))]
    rfl

theorem letrecAssign_cells (ts : List (String × Value × Value)) :
    letrecAssign (list (unspecifiedCells ts)) (list (ts.map (fun t => t.2.2)))
      = some (list (assignedCells ts)) := by
  induction ts with
  | nil => rfl
  | cons t ts ih =>
    simp only [unspecifiedCells, assignedCells] at ih
    simp [unspecifiedCells, assignedCells, list, letrecAssign, ih]

theorem getElem?_append_new (h : Heap) (f : Frame) : (h ++ [f])[h.length]? = some f := by
  simp

theorem set_append_new (h : Heap) (f f' : Frame) : (h ++ [f]).set h.length f' = h ++ [f'] := by
  induction h with
  | nil => rfl
  | cons a h ih => simp [List.set, ih]

theorem evalLetRec_pure (ev : Ev) (ts : List (String × Value × Value)) (body : Value)
    (F : Nat) (h : Heap)
    (hpure : ∀ t ∈ ts,
      ev t.2.1 h.length (h ++ [{ bindings := list (unspecifiedCells ts), parent := some F }])
          = .ok (t.2.2, h ++ [{ bindings := list (unspecifiedCells ts), parent := some F }])
        ∧ t.2.2 ≠ .unspecified)
    (hnn : ∀ t ∈ ts, isNull t.2.2 = false) :
    evalLetRec ev (.cons (bindingForms ts) body) F h
      = evalBody ev h.length body none
          (h ++ [{ bindings := list (assignedCells ts), parent := some F }]) := by
  have hev := letrecEval_prefix ev h.length _ ts [] makeNull hpure
  have hnil : bindingForms [] = .null := rfl
  simp only [List.append_nil, hnil, letrecEval] at hev
  have hrev : reverse (revOnto (ts.map (fun t => t.2.2)) makeNull)
      = some (list (ts.map (fun t => t.2.2))) := by
    apply reverse_revOnto
    intro z hz
    obtain ⟨t, ht, rfl⟩ := List.mem_map.mp hz
    exact hnn t ht
  simp only [evalLetRec, letrecInit_reverse, hev, Res.bind_ok, hrev, getElem?_append_new,
    letrecAssign_cells, set_append_new]

theorem scanBindings_symCell (y x : String) (v acc : Value) (hxy : x ≠ y) :
    scanBindings (.sym y) (.cons (.cons (.sym x) v) acc) = scanBindings (.sym y) acc := by
  simp [scanBindings, textOf, hxy]

theorem scanBindings_assignedCells (ts : List (String × Value × Value))
    (hnd : (ts.map (fun t => t.1)).Nodup) :
    ∀ t ∈ ts, ∃ d, scanBindings (.sym t.1) (list (assignedCells ts)) = .ok (some (d, t.2.2)) := by
  induction ts with
  | nil => intro t ht; cases ht
  | cons u ts ih =>
    intro t ht
    have hnd' : u.1 ∉ ts.map (fun t => t.1) ∧ (ts.map (fun t => t.1)).Nodup := by
      rw [List.map_cons] at hnd
      exact List.nodup_cons.mp hnd
    rcases List.mem_cons.mp ht with rfl | ht'
    · exact ⟨cells (list (assignedCells ts)) + 1, by
        simp [assignedCells, list, scanBindings, textOf]⟩
    · have hne : u.1 ≠ t.1 := by
        intro heq
        exact hnd'.1 (List.mem_map.mpr ⟨t, ht', heq.symm⟩)
      obtain ⟨d, hd⟩ := ih hnd'.2 t ht'
      refine ⟨d, ?_⟩
      simp only [assignedCells, List.map_cons, list] at hd ⊢
      rw [scanBindings_symCell _ _ _ _ hne]
      exact hd

/-- In a `letrec` whose init expressions are ALL lambda forms, every closure
captures the frame of the `letrec` itself, and when the body is evaluated that
frame binds every binder to its closure, so a closure applied from the body
(or from another closure of the `letrec`) finds every binder through the
parent of its application frame.  The even?/odd? program evaluates to the Bool
`#t`. -/
theorem letrec_closures_see_all_binders (n : Nat) (ls : List (String × Value × Value))
    (body : Value) (F : Nat) (h : Heap)
    (hlam : ∀ t ∈ ls, evalLambda t.2.1 h.length = .ok t.2.2)
    (hnd : (ls.map (fun t => t.1)).Nodup) :
    evalLetRec (eval (n + 1)) (.cons (letrecForms ls) body) F h
        = evalBody (eval (n + 1)) h.length body none
            (h ++ [{ bindings := list (letrecCells ls), parent := some F }])
      ∧ (∀ t ∈ ls, (∃ ps b, t.2.2 = .closure ps b h.length)
          ∧ ∃ d, scanBindings (.sym t.1) (list (letrecCells ls)) = .ok (some (d, t.2.2)))
      ∧ interpret 40 evenOddProgram = .ok [.bool "#t"] := by
  refine ⟨?_, ?_, by decide!⟩
  · apply evalLetRec_pure
    · intro t' ht'
      obtain ⟨t, ht, rfl⟩ := List.mem_map.mp ht'
      obtain ⟨ps, b, hc, _⟩ := evalLambda_closure _ _ _ (hlam t ht)
      constructor
      · simp only [eval_lambda, hlam t ht, Res.bind_ok]
      · simp only [hc]
        exact fun hcontra => Value.noConfusion hcontra
    · intro t' ht'
      obtain ⟨t, ht, rfl⟩ := List.mem_map.mp ht'
      obtain ⟨ps, b, hc, _⟩ := evalLambda_closure _ _ _ (hlam t ht)
      simp only [hc]
      rfl
  · intro t ht
    obtain ⟨ps, b, hc, _⟩ := evalLambda_closure _ _ _ (hlam t ht)
    refine ⟨⟨ps, b, hc⟩, ?_⟩
    have hnd' : ((ls.map (fun t => (t.1, Value.cons (.sym "lambda") t.2.1, t.2.2))).map
        (fun t => t.1)).Nodup := by
      simpa [List.map_map, Function.comp] using hnd
    exact scanBindings_assignedCells _ hnd'
      (t.1, Value.cons (.sym "lambda") t.2.1, t.2.2) (List.mem_map.mpr ⟨t, ht, rfl⟩)

/-- The form `(letrec ((f (lambda (n) (g n))) (g (lambda (n) n))) (f 1))`
evaluated in the global frame of the initial heap. -/
theorem letrec_closures_see_all_binders_witness :
    evalLetRec (eval 6)
        (.cons (letrecForms [
            ("f", list [list [.sym "n"], list [.sym "g", .sym "n"]],
              .closure (list [.sym "n"]) (list [list [.sym "g", .sym "n"]]) 1),
            ("g", list [list [.sym "n"], .sym "n"],
              .closure (list [.sym "n"]) (list [.sym "n"]) 1)])
          (list [list [.sym "f", .int 1]])) 0 initialHeap
        = evalBody (eval 6) initialHeap.length (list [list [.sym "f", .int 1]]) none
            (initialHeap ++ [{ bindings := list (letrecCells [
                ("f", list [list [.sym "n"], list [.sym "g", .sym "n"]],
                  .closure (list [.sym "n"]) (list [list [.sym "g", .sym "n"]]) 1),
                ("g", list [list [.sym "n"], .sym "n"],
                  .closure (list [.sym "n"]) (list [.sym "n"]) 1)]), parent := some 0 }])
      ∧ (∀ t ∈ ([
            ("f", list [list [.sym "n"], list [.sym "g", .sym "n"]],
              .closure (list [.sym "n"]) (list [list [.sym "g", .sym "n"]]) 1),
            ("g", list [list [.sym "n"], .sym "n"],
              .closure (list [.sym "n"]) (list [.sym "n"]) 1)] :
              List (String × Value × Value)),
          (∃ ps b, t.2.2 = .closure ps b initialHeap.length)
          ∧ ∃ d, scanBindings (.sym t.1) (list (letrecCells [
                ("f", list [list [.sym "n"], list [.sym "g", .sym "n"]],
                  .closure (list [.sym "n"]) (list [list [.sym "g", .sym "n"]]) 1),
                ("g", list [list [.sym "n"], .sym "n"],
                  .closure (list [.sym "n"]) (list [.sym "n"]) 1)])) = .ok (some (d, t.2.2)))
      ∧ interpret 40 evenOddProgram = .ok [.bool "#t"] :=
  letrec_closures_see_all_binders 5 _ _ 0 initialHeap (by decide) (by decide)

theorem scanBindings_unspecifiedCells (z : String) (ts : List (String × Value × Value))
    (hz : z ∈ ts.map (fun t => t.1)) :
    ∃ d, scanBindings (.sym z) (list (unspecifiedCells ts)) = .ok (some (d, .unspecified)) := by
  induction ts with
  | nil => simp at hz
  | cons u ts ih =>
    by_cases hu : u.1 = z
    · exact ⟨cells (list (unspecifiedCells ts)) + 1, by
        simp [unspecifiedCells, list, scanBindings, textOf, hu]⟩
    · have hz' : z ∈ ts.map (fun t => t.1) := by
        rw [List.map_cons] at hz
        rcases List.mem_cons.mp hz with h1 | h1
        · exact absurd h1.symm hu
        · exact h1
      obtain ⟨d, hd⟩ := ih hz'
      refine ⟨d, ?_⟩
      simp only [unspecifiedCells, List.map_cons, list] at hd ⊢
      rw [scanBindings_symCell _ _ _ _ hu]
      exact hd

/-- C8, counterexample: lookup of a name whose binding holds Unspecified
returns the Unspecified value; and `(letrec ((x 1) (y (null? x))) y)`, whose
second init expression reads the binder `x` as the argument of an application,
produces the value `#f`. -/
theorem unspecified_is_observable :
    lookUpSymbol (.sym "x") 1
        (initialHeap ++ [Frame.mk (list [.cons (.sym "x") .unspecified]) (some 0)])
        = .ok .unspecified
      ∧ interpret 6 (list [letrecReadsBinder]) = .ok [.bool "#f"] := by
  constructor
  · decide!
  · decide!

theorem walkFrames_path (msg : String) (name : Value) (h : Heap) (t d : Nat) (v : Value)
    (ft : Frame) (hft : h[t]? = some ft)
    (hs : scanBindings name ft.bindings = .ok (some (d, v))) :
    ∀ (chain : List Nat) (c fuel : Nat), PathTo name h chain c t → chain.length + 1 ≤ fuel →
      walkFrames msg name h fuel c false = .ok (t, d, v) := by
  intro chain
  induction chain with
  | nil =>
    intro c fuel hp hfuel
    obtain ⟨k, rfl⟩ : ∃ k, fuel = k + 1 := ⟨fuel - 1, by simp at hfuel; omega⟩
    simp only [PathTo] at hp
    subst hp
    exact walkFrames_found msg name h k c false ft d v hft hs
  | cons e es ih =>
    intro c fuel hp hfuel
    obtain ⟨k, rfl⟩ : ∃ k, fuel = k + 1 := ⟨fuel - 1, by simp at hfuel; omega⟩
    obtain ⟨_, f, p, hf, hpar, hsc, hrest⟩ := hp
    rw [walkFrames_skip msg name h k c p f hf hsc hpar]
    exact ih p k hrest (by simp at hfuel ⊢; omega)

theorem pathTo_mem_lt (name : Value) (h : Heap) (t : Nat) :
    ∀ (chain : List Nat) (c : Nat), PathTo name h chain c t → ∀ x ∈ chain, x < h.length := by
  intro chain
  induction chain with
  | nil => intro c _ x hx; cases hx
  | cons e es ih =>
    intro c hp x hx
    obtain ⟨he, f, p, hf, _, _, hrest⟩ := hp
    rcases List.mem_cons.mp hx with rfl | hx'
    · subst he
      by_contra hge
      rw [List.getElem?_eq_none (by omega)] at hf
      cases hf
    · exact ih p hrest x hx'

/-- Lookup returns the value of the first binding of the name on the chain of
frames, whatever that value is. -/
theorem lookUpSymbol_path (name : Value) (h : Heap) (c t d : Nat) (v : Value) (ft : Frame)
    (chain : List Nat) (hnd : chain.Nodup) (hp : PathTo name h chain c t)
    (hft : h[t]? = some ft) (hs : scanBindings name ft.bindings = .ok (some (d, v))) :
    lookUpSymbol name c h = .ok v := by
  have hlen := nodup_length_le chain h.length hnd (pathTo_mem_lt name h t chain c hp)
  unfold lookUpSymbol
  rw [walkFrames_path _ name h t d v ft hft hs chain c _ hp (by omega)]
  rfl

/-- C8, amended: lookup returns the value of the first matching binding on the
chain of frames also when that value is Unspecified (it does not fail); a
`letrec` fails, with the error "Evaluated an UNSPECIFIED_TYPE in letrec.",
when an init expression is itself a binder of that `letrec` and the init
expressions before it evaluate, without changing the frames, to values that
are not Unspecified. -/
theorem letrec_direct_binder_read_fails (n : Nat) (pre post : List (String × Value × Value))
    (x z name : String) (body : Value) (F fr t d : Nat) (h : Heap) (ft : Frame)
    (chain : List Nat)
    (hnd : chain.Nodup) (hpath : PathTo (.sym name) h chain fr t)
    (hft : h[t]? = some ft)
    (hs : scanBindings (.sym name) ft.bindings = .ok (some (d, .unspecified)))
    (hz : z ∈ (pre ++ (x, .sym z, .unspecified) :: post).map (fun t => t.1))
    (hpure : ∀ t ∈ pre,
      eval (n + 1) t.2.1 h.length
          (h ++ [{ bindings := list (unspecifiedCells
            (pre ++ (x, .sym z, .unspecified) :: post)), parent := some F }])
        = .ok (t.2.2, h ++ [{ bindings := list (unspecifiedCells
            (pre ++ (x, .sym z, .unspecified) :: post)), parent := some F }])
        ∧ t.2.2 ≠ .unspecified) :
    lookUpSymbol (.sym name) fr h = .ok .unspecified
      ∧ evalLetRec (eval (n + 1))
          (.cons (bindingForms (pre ++ (x, .sym z, .unspecified) :: post)) body) F h
        = .error "Evaluated an UNSPECIFIED_TYPE in letrec." := by
  refine ⟨lookUpSymbol_path _ h fr t d _ ft chain hnd hpath hft hs, ?_⟩
  obtain ⟨d', hd'⟩ := scanBindings_unspecifiedCells z _ hz
  have hlook : lookUpSymbol (.sym z) h.length
      (h ++ [{ bindings := list (unspecifiedCells
        (pre ++ (x, .sym z, .unspecified) :: post)), parent := some F }])
      = .ok .unspecified :=
    lookUpSymbol_found _ h.length d' _ _ _ (getElem?_append_new h _) hd'
  have hev := letrecEval_prefix (eval (n + 1)) h.length _ pre
    ((x, .sym z, .unspecified) :: post) makeNull hpure
  have hbad : letrecEval (eval (n + 1)) h.length
      (bindingForms ((x, .sym z, .unspecified) :: post))
      (revOnto (pre.map (fun t => t.2.2)) makeNull)
      (h ++ [{ bindings := list (unspecifiedCells
        (pre ++ (x, .sym z, .unspecified) :: post)), parent := some F }])
      = .error "Evaluated an UNSPECIFIED_TYPE in letrec." := by
    simp only [bindingForms, List.map_cons, list, letrecEval, eval_sym, hlook, Res.bind_ok]
  simp only [evalLetRec, letrecInit_reverse, hev, hbad, Res.bind_error]

/-- C8, witness: lookup of `x` from frame 2, an empty child of frame 1 which
binds `x` to Unspecified, and `(letrec ((a 1) (b b)) a)` in the global frame
of that heap. -/
theorem letrec_direct_binder_read_fails_witness :
    lookUpSymbol (.sym "x") 2
        (initialHeap ++ [Frame.mk (list [.cons (.sym "x") .unspecified]) (some 0),
          Frame.mk .null (some 1)])
        = .ok .unspecified
      ∧ evalLetRec (eval 2)
          (.cons (bindingForms ([("a", .int 1, .int 1)] ++ ("b", .sym "b", .unspecified) :: []))
            (list [.sym "a"])) 0
          (initialHeap ++ [Frame.mk (list [.cons (.sym "x") .unspecified]) (some 0),
            Frame.mk .null (some 1)])
        = .error "Evaluated an UNSPECIFIED_TYPE in letrec." :=
  letrec_direct_binder_read_fails 1 [("a", .int 1, .int 1)] [] "b" "b" "x" (list [.sym "a"])
    0 2 1 1
    (initialHeap ++ [Frame.mk (list [.cons (.sym "x") .unspecified]) (some 0),
      Frame.mk .null (some 1)])
    (Frame.mk (list [.cons (.sym "x") .unspecified]) (some 0)) [2] (by decide)
    ⟨rfl, Frame.mk .null (some 1), 1, rfl, rfl, rfl, rfl⟩ rfl rfl (by decide) (by decide)

/-! ### The step budget only cuts evaluations short -/

theorem Res.le_refl {α : Type} (r : Res α) : r.le r := Or.inr rfl

theorem Res.bind_le {α β : Type} {r r' : Res α} {f f' : α → Res β} (hr : r.le r')
    (hf : ∀ a, (f a).le (f' a)) : (r.bind f).le (r'.bind f') := by
  rcases hr with rfl | rfl
  · exact Or.inl rfl
  · cases r with
    | ok a => exact hf a
    | error m => exact Or.inr rfl
    | undefined => exact Or.inr rfl
    | timeout => exact Or.inl rfl

theorem evalBody_le (ev ev' : Ev) (hle : Ev.le ev ev') (fr : Nat) (body : Value) :
    ∀ (res : Option Value) (h : Heap),
      (evalBody ev fr body res h).le (evalBody ev' fr body res h) := by
  induction body with
  | cons e rest _ ih =>
    intro res h
    simp only [evalBody]
    exact Res.bind_le (hle e fr h) (fun r => ih _ _)
  | _ => intro res h; cases res <;> exact Res.le_refl _

theorem evalIf_le (ev ev' : Ev) (hle : Ev.le ev ev') (args : Value) (fr : Nat) (h : Heap) :
    (evalIf ev args fr h).le (evalIf ev' args fr h) := by
  unfold evalIf
  split
  · exact Res.le_refl _
  · split
    · exact Res.le_refl _
    · split
      · apply Res.bind_le (hle _ _ _)
        intro t
        split
        · exact Res.le_refl _
        · exact hle _ _ _
        · split
          · exact hle _ _ _
          · exact Res.le_refl _
      · exact Res.le_refl _

theorem letLoop_le (ev ev' : Ev) (hle : Ev.le ev ev') (frame newframe : Nat)
    (expressions : Value) :
    ∀ (bindings : Value) (h : Heap),
      (letLoop ev frame newframe expressions bindings h).le
        (letLoop ev' frame newframe expressions bindings h) := by
  induction expressions with
  | cons b rest _ ih =>
    intro bindings h
    cases b with
    | cons k tl =>
      cases k with
      | sym text =>
        simp only [letLoop]
        apply Res.bind_le (Res.le_refl _)
        intro dup
        split
        · exact Res.le_refl _
        · cases tl with
          | cons e tl2 =>
            apply Res.bind_le (hle _ _ _)
            intro r
            split
            · exact Res.le_refl _
            · apply Res.bind_le (Res.le_refl _)
              intro h2
              exact ih _ _
          | _ => exact Res.le_refl _
      | _ => simp only [letLoop]; exact Res.le_refl _
    | _ => simp only [letLoop]; exact Res.le_refl _
  | _ => intro bindings h; simp only [letLoop]; exact Res.le_refl _


theorem letStarLoop_le (ev ev' : Ev) (hle : Ev.le ev ev') (expressions : Value) :
    ∀ (newframe : Option Nat) (prevframe : Nat) (h : Heap),
      (letStarLoop ev expressions newframe prevframe h).le
        (letStarLoop ev' expressions newframe prevframe h) := by
  induction expressions with
  | cons b rest _ ih =>
    intro newframe prevframe h
    cases b with
    | cons k tl =>
      cases k with
      | sym text =>
        cases tl with
        | cons e tl2 =>
          simp only [letStarLoop]
          apply Res.bind_le (hle _ _ _)
          intro r
          split
          · exact Res.le_refl _
          · split
            · exact Res.le_refl _
            · exact ih _ _ _
        | _ => simp only [letStarLoop]; exact Res.le_refl _
      | _ => simp only [letStarLoop]; exact Res.le_refl _
    | _ => simp only [letStarLoop]; exact Res.le_refl _
  | _ => intro newframe prevframe h; simp only [letStarLoop]; exact Res.le_refl _

theorem evalLet_le (ev ev' : Ev) (hle : Ev.le ev ev') (args : Value) (fr : Nat) (h : Heap) :
    (evalLet ev args fr h).le (evalLet ev' args fr h) := by
  unfold evalLet
  split
  · split
    · exact Res.bind_le (letLoop_le ev ev' hle _ _ _ _ _) (fun h1 => evalBody_le ev ev' hle _ _ _ _)
    · exact Res.le_refl _
  · exact Res.le_refl _

theorem evalLetStar_le (ev ev' : Ev) (hle : Ev.le ev ev') (args : Value) (fr : Nat) (h : Heap) :
    (evalLetStar ev args fr h).le (evalLetStar ev' args fr h) := by
  unfold evalLetStar
  split
  · split
    · exact Res.le_refl _
    · apply Res.bind_le (letStarLoop_le ev ev' hle _ _ _ _)
      intro r
      split
      · exact evalBody_le ev ev' hle _ _ _ _
      · exact Res.le_refl _
    · exact Res.le_refl _
  · exact Res.le_refl _

theorem letrecEval_le (ev ev' : Ev) (hle : Ev.le ev ev') (newframe : Nat) (bindings : Value) :
    ∀ (acc : Value) (h : Heap),
      (letrecEval ev newframe bindings acc h).le (letrecEval ev' newframe bindings acc h) := by
  induction bindings with
  | cons b rest _ ih =>
    intro acc h
    cases b with
    | cons k tl =>
      cases tl with
      | cons e tl2 =>
        simp only [letrecEval]
        apply Res.bind_le (hle _ _ _)
        intro r1
        apply Res.bind_le (hle _ _ _)
        intro r2
        split
        · exact Res.le_refl _
        · exact ih _ _
      | _ => simp only [letrecEval]; exact Res.le_refl _
    | _ => simp only [letrecEval]; exact Res.le_refl _
  | _ => intro acc h; simp only [letrecEval]; exact Res.le_refl _

theorem evalLetRec_le (ev ev' : Ev) (hle : Ev.le ev ev') (args : Value) (fr : Nat) (h : Heap) :
    (evalLetRec ev args fr h).le (evalLetRec ev' args fr h) := by
  unfold evalLetRec
  split
  · split
    · exact Res.le_refl _
    · apply Res.bind_le (letrecEval_le ev ev' hle _ _ _ _)
      intro r
      split
      · split
        · exact evalBody_le ev ev' hle _ _ _ _
        · exact Res.le_refl _
      · exact Res.le_refl _
  · exact Res.le_refl _

theorem evalSet_le (ev ev' : Ev) (hle : Ev.le ev ev') (args : Value) (fr : Nat) (h : Heap) :
    (evalSet ev args fr h).le (evalSet ev' args fr h) := by
  unfold evalSet
  split
  · apply Res.bind_le (Res.le_refl _)
    intro loc
    split
    · exact Res.bind_le (hle _ _ _) (fun r => Res.le_refl _)
    · exact Res.le_refl _
  · exact Res.le_refl _

theorem evalBegin_le (ev ev' : Ev) (hle : Ev.le ev ev') (args : Value) (fr : Nat) (h : Heap) :
    (evalBegin ev args fr h).le (evalBegin ev' args fr h) := by
  unfold evalBegin
  split
  · exact Res.le_refl _
  · exact evalBody_le ev ev' hle _ _ _ _

theorem andLoop_le (ev ev' : Ev) (hle : Ev.le ev ev') (fr : Nat) (args : Value) :
    ∀ (res : Value) (h : Heap), (andLoop ev fr args res h).le (andLoop ev' fr args res h) := by
  induction args with
  | cons e rest _ ih =>
    intro res h
    simp only [andLoop]
    apply Res.bind_le (hle _ _ _)
    intro r
    split
    · exact ih _ _
    · exact ih _ _
    · split
      · exact Res.le_refl _
      · exact Res.le_refl _
      · exact ih _ _
  | _ => intro res h; simp only [andLoop]; exact Res.le_refl _

theorem orLoop_le (ev ev' : Ev) (hle : Ev.le ev ev') (fr : Nat) (args : Value) :
    ∀ (res : Value) (h : Heap), (orLoop ev fr args res h).le (orLoop ev' fr args res h) := by
  induction args with
  | cons e rest _ ih =>
    intro res h
    simp only [orLoop]
    apply Res.bind_le (hle _ _ _)
    intro r
    split
    · exact ih _ _
    · exact ih _ _
    · split
      · exact Res.le_refl _
      · exact Res.le_refl _
      · exact ih _ _
  | _ => intro res h; simp only [orLoop]; exact Res.le_refl _

theorem evalAnd_le (ev ev' : Ev) (hle : Ev.le ev ev') (args : Value) (fr : Nat) (h : Heap) :
    (evalAnd ev args fr h).le (evalAnd ev' args fr h) := by
  unfold evalAnd
  split
  · exact Res.le_refl _
  · exact Res.le_refl _
  · exact andLoop_le ev ev' hle _ _ _ _

theorem evalOr_le (ev ev' : Ev) (hle : Ev.le ev ev') (args : Value) (fr : Nat) (h : Heap) :
    (evalOr ev args fr h).le (evalOr ev' args fr h) := by
  unfold evalOr
  split
  · exact Res.le_refl _
  · exact Res.le_refl _
  · exact orLoop_le ev ev' hle _ _ _ _

theorem evalDefine_le (ev ev' : Ev) (hle : Ev.le ev ev') (args : Value) (fr : Nat) (h : Heap) :
    (evalDefine ev args fr h).le (evalDefine ev' args fr h) := by
  unfold evalDefine
  split
  · exact Res.le_refl _
  · split
    · exact Res.le_refl _
    · exact Res.bind_le (hle _ _ _) (fun r => Res.le_refl _)
    · exact Res.le_refl _
  · exact Res.le_refl _
  · exact Res.le_refl _

theorem evalEachLoop_le (ev ev' : Ev) (hle : Ev.le ev ev') (fr : Nat) (args : Value) :
    ∀ (res : Value) (h : Heap),
      (evalEachLoop ev fr args res h).le (evalEachLoop ev' fr args res h) := by
  induction args with
  | cons e rest _ ih =>
    intro res h
    simp only [evalEachLoop]
    exact Res.bind_le (hle _ _ _) (fun r => ih _ _)
  | _ => intro res h; simp only [evalEachLoop]; exact Res.le_refl _

theorem evalEach_le (ev ev' : Ev) (hle : Ev.le ev ev') (args : Value) (fr : Nat) (h : Heap) :
    (evalEach ev args fr h).le (evalEach ev' args fr h) := by
  unfold evalEach
  exact Res.bind_le (evalEachLoop_le ev ev' hle _ _ _ _) (fun r => Res.le_refl _)

theorem apply_le (ev ev' : Ev) (hle : Ev.le ev ev') (function args : Value) (h : Heap) :
    (apply ev function args h).le (apply ev' function args h) := by
  unfold apply
  split
  · apply Res.bind_le (Res.le_refl _)
    intro b
    split
    · exact hle _ _ _
    · exact Res.le_refl _
  · exact Res.le_refl _
  · exact Res.le_refl _

theorem evalCond_le (ev ev' : Ev) (hle : Ev.le ev ev') (fr : Nat) :
    ∀ (fuel : Nat) (cur : Value) (res : Option Value) (h : Heap),
      (evalCond ev fr fuel cur res h).le (evalCond ev' fr (fuel + 1) cur res h) := by
  intro fuel
  induction fuel with
  | zero => intro cur res h; exact Or.inl rfl
  | succ n ih =>
    intro cur res h
    rw [evalCond.eq_def ev, evalCond.eq_def ev']
    simp only
    split
    · exact Res.le_refl _
    · split
      · split
        · exact hle _ _ _
        · exact Res.le_refl _
      · exact ih _ _ _
    · apply Res.bind_le (hle _ _ _)
      intro b
      split
      · exact Res.le_refl _
      · split
        · exact hle _ _ _
        · exact Res.le_refl _
      · split
        · split
          · exact Res.bind_le (hle _ _ _) (fun r => ih _ _ _)
          · exact Res.le_refl _
        · exact ih _ _ _
    · exact Res.le_refl _

theorem Res.ite_le {α : Type} {c : Prop} [Decidable c] {a a' b b' : Res α} (ha : a.le a')
    (hb : b.le b') : (if c then a else b).le (if c then a' else b') := by
  split
  · exact ha
  · exact hb

theorem evalStep_le (ev ev' : Ev) (hle : Ev.le ev ev') (fuel : Nat) (expr : Value) (fr : Nat)
    (h : Heap) : (evalStep ev fuel expr fr h).le (evalStep ev' (fuel + 1) expr fr h) := by
  cases expr with
  | cons first args =>
    unfold evalStep
    simp only
    split
    · exact Res.le_refl _
    · exact evalIf_le ev ev' hle _ _ _
    · refine Res.ite_le (evalLet_le ev ev' hle _ _ _) ?_
      refine Res.ite_le (evalLetStar_le ev ev' hle _ _ _) ?_
      refine Res.ite_le (evalLetRec_le ev ev' hle _ _ _) ?_
      refine Res.ite_le (Res.le_refl _) ?_
      refine Res.ite_le (evalDefine_le ev ev' hle _ _ _) ?_
      refine Res.ite_le (Res.le_refl _) ?_
      refine Res.ite_le (evalSet_le ev ev' hle _ _ _) ?_
      refine Res.ite_le (evalBegin_le ev ev' hle _ _ _) ?_
      refine Res.ite_le (evalAnd_le ev ev' hle _ _ _) ?_
      refine Res.ite_le (evalOr_le ev ev' hle _ _ _) ?_
      refine Res.ite_le (evalCond_le ev ev' hle _ _ _ _ _) ?_
      apply Res.bind_le (hle _ _ _)
      intro op
      apply Res.bind_le (evalEach_le ev ev' hle _ _ _)
      intro as
      exact apply_le ev ev' hle _ _ _
  | _ => exact Res.le_refl _

theorem eval_le_succ : ∀ (n : Nat), Ev.le (eval n) (eval (n + 1)) := by
  intro n
  induction n with
  | zero => intro e fr h; exact Or.inl rfl
  | succ n ih => intro e fr h; exact evalStep_le _ _ ih n e fr h

theorem eval_mono (n k : Nat) (e : Value) (fr : Nat) (h : Heap) (r : Res (Value × Heap))
    (hr : eval n e fr h = r) (hne : r ≠ .timeout) : eval (n + k) e fr h = r := by
  induction k with
  | zero => exact hr
  | succ k ih =>
    rcases eval_le_succ (n + k) e fr h with ht | heq
    · rw [ih] at ht
      exact absurd ht hne
    · show eval (n + k + 1) e fr h = r
      rw [← heq]
      exact ih

/-! ### let* -/

theorem eval_le_add (n k : Nat) : Ev.le (eval n) (eval (n + k)) := by
  intro e fr h
  by_cases ht : eval n e fr h = .timeout
  · exact Or.inl ht
  · exact Or.inr (eval_mono n k e fr h _ rfl ht).symm

theorem Res.le_eq {α : Type} {r r' x : Res α} (hle : r.le r') (hr : r = x) (hne : x ≠ .timeout) :
    r' = x := by
  rcases hle with ht | heq
  · rw [hr] at ht
    exact absurd ht hne
  · rw [← heq, hr]

theorem eval_letStar (n : Nat) (args : Value) (F : Nat) (h : Heap) :
    eval (n + 1) (.cons (.sym "let*") args) F h = evalLetStar (eval n) args F h := by
  simp [eval, evalStep, strcmpLit, textOf]

theorem Res.bind_eta {α β : Type} (r : Res (α × β)) : r.bind (fun x => .ok (x.1, x.2)) = r := by
  cases r <;> rfl

theorem Res.bind_assoc {α β γ : Type} (r : Res α) (f : α → Res β) (g : β → Res γ) :
    (r.bind f).bind g = r.bind (fun a => (f a).bind g) := by
  cases r <;> rfl

/-- One round of the `let*` loop followed by the remaining rounds. -/
theorem letStarLoop_split (ev : Ev) (b rest : Value) (newframe : Option Nat) (prevframe : Nat)
    (h : Heap) :
    letStarLoop ev (.cons b rest) newframe prevframe h
      = (letStarLoop ev (.cons b .null) none prevframe h).bind (fun r =>
          match r.1 with
          | some nf => letStarLoop ev rest (some nf) nf r.2
          | none => .undefined) := by
  cases b with
  | cons k tl =>
    cases k with
    | sym text =>
      cases tl with
      | cons e tl2 =>
        simp only [letStarLoop, Res.bind_assoc]
        congr 1
        funext r
        split
        · rfl
        · split
          · rfl
          · rfl
      | _ => rfl
    | _ => rfl
  | _ => rfl

theorem letStarLoop_newframe (ev : Ev) (b rest : Value) (newframe : Option Nat)
    (prevframe : Nat) (h : Heap) :
    letStarLoop ev (.cons b rest) newframe prevframe h
      = letStarLoop ev (.cons b rest) none prevframe h := by
  cases b with
  | cons k tl =>
    cases k with
    | sym text =>
      cases tl with
      | cons e tl2 => rfl
      | _ => rfl
    | _ => rfl
  | _ => rfl

/-- A `let*` with two or more bindings: the first round, then the `let*` of
the remaining bindings in the frame of the first round. -/
theorem evalLetStar_flat (ev : Ev) (b b2 rest body : Value) (F : Nat) (h : Heap) :
    evalLetStar ev (.cons (.cons b (.cons b2 rest)) body) F h
      = (letStarLoop ev (.cons b .null) none F h).bind (fun r =>
          match r.1 with
          | some nf => evalLetStar ev (.cons (.cons b2 rest) body) nf r.2
          | none => .undefined) := by
  simp only [evalLetStar]
  rw [letStarLoop_split, Res.bind_assoc]
  congr 1
  funext r
  cases r.1 with
  | none => rfl
  | some nf =>
    simp only
    rw [letStarLoop_newframe]

/-- A single-binding `let*` whose body is one expression. -/
theorem evalLetStar_single (ev : Ev) (b inner : Value) (F : Nat) (h : Heap) :
    evalLetStar ev (.cons (.cons b .null) (.cons inner .null)) F h
      = (letStarLoop ev (.cons b .null) none F h).bind (fun r =>
          match r.1 with
          | some nf => ev inner nf r.2
          | none => .undefined) := by
  simp only [evalLetStar]
  congr 1
  funext r
  cases r.1 with
  | none => rfl
  | some nf =>
    simp only [evalBody]
    exact Res.bind_eta _

theorem letStar_to_nest (body : Value) (bs : List Value) :
    ∀ (b : Value) (n : Nat) (F : Nat) (h : Heap) (r : Res (Value × Heap)),
      r ≠ .timeout → eval n (letStarForm (b :: bs) body) F h = r →
      eval (n + bs.length) (nestLetStar (b :: bs) body) F h = r := by
  induction bs with
  | nil => intro b n F h r _ hr; exact hr
  | cons b2 bs ih =>
    intro b n F h r hne hr
    cases n with
    | zero => exact absurd hr.symm hne
    | succ m =>
      have hN : m + 1 + (b2 :: bs).length = (m + 1 + bs.length) + 1 := by
        simp only [List.length_cons]; omega
      rw [hN]
      simp only [letStarForm, nestLetStar, list, eval_letStar] at hr ⊢
      rw [evalLetStar_flat] at hr
      rw [evalLetStar_single]
      have hle := letStarLoop_le (eval m) (eval (m + 1 + bs.length)) (by
        have := eval_le_add m (1 + bs.length)
        rwa [← Nat.add_assoc] at this) (.cons b .null) none F h
      cases hL : letStarLoop (eval m) (.cons b .null) none F h with
      | timeout =>
        rw [hL] at hr
        exact absurd hr.symm hne
      | ok r1 =>
        rw [hL] at hr hle
        rw [Res.le_eq hle rfl (by simp)]
        simp only [Res.bind_ok] at hr ⊢
        cases h1 : r1.1 with
        | none => rw [h1] at hr; exact hr
        | some nf =>
          rw [h1] at hr
          simp only at hr ⊢
          apply ih b2 (m + 1) nf r1.2 r hne
          simp only [letStarForm, list, eval_letStar]
          exact hr
      | error msg =>
        rw [hL] at hr hle
        rw [Res.le_eq hle rfl (by simp)]
        exact hr
      | undefined =>
        rw [hL] at hr hle
        rw [Res.le_eq hle rfl (by simp)]
        exact hr

theorem nest_to_letStar (body : Value) (bs : List Value) :
    ∀ (b : Value) (n : Nat) (F : Nat) (h : Heap) (r : Res (Value × Heap)),
      r ≠ .timeout → eval n (nestLetStar (b :: bs) body) F h = r →
      eval n (letStarForm (b :: bs) body) F h = r := by
  induction bs with
  | nil => intro b n F h r _ hr; exact hr
  | cons b2 bs ih =>
    intro b n F h r hne hr
    cases n with
    | zero => exact absurd hr.symm hne
    | succ m =>
      simp only [letStarForm, nestLetStar, list, eval_letStar] at hr ⊢
      rw [evalLetStar_single] at hr
      rw [evalLetStar_flat]
      cases hL : letStarLoop (eval m) (.cons b .null) none F h with
      | ok r1 =>
        rw [hL] at hr
        simp only [Res.bind_ok] at hr ⊢
        cases h1 : r1.1 with
        | none => rw [h1] at hr; exact hr
        | some nf =>
          rw [h1] at hr
          simp only at hr ⊢
          have hflat := ih b2 m nf r1.2 r hne hr
          cases m with
          | zero => exact absurd hflat.symm hne
          | succ j =>
            simp only [letStarForm, list, eval_letStar] at hflat
            exact Res.le_eq (evalLetStar_le (eval j) (eval (j + 1)) (eval_le_succ j) _ _ _)
              hflat hne
      | timeout => rw [hL] at hr; exact hr
      | error msg => rw [hL] at hr; exact hr
      | undefined => rw [hL] at hr; exact hr

/-- C6, counterexample: with the init expression `(begin (set! f (lambda () x))
1)` the `let*` form returns 1, because the closure captured the new frame in
which `x` is bound afterwards, while the corresponding single-binding `let`
fails: there the closure captured the enclosing frame. -/
theorem letStar_differs_from_let :
    interpret 8 letStarCaptureProgram = .ok [.void, .int 1]
      ∧ interpret 8 letCaptureProgram = .error "symbol '%s' not found." := by
  constructor
  · decide!
  · decide!

/-- C6, amended: `let*` is sequential.  One round of its loop allocates a new
frame whose parent is the frame of the previous round, evaluates the init
expression in that new, still empty frame (not in the previous frame, as a
`let` would) and then stores the binding in it.  A `let*` with bindings
`b1 .. bn` has the same outcome as the nest of single-binding `let*` forms:
whenever one of the two evaluations ends (with a value or a failure), so does
the other, with the same outcome and the same frames. -/
theorem letStar_sequential (ev : Ev) (x : String) (e : Value) (newframe : Option Nat)
    (prevframe : Nat) (h0 : Heap) (n : Nat) (b : Value) (bs : List Value) (body : Value)
    (F : Nat) (h : Heap) (r : Res (Value × Heap)) (hne : r ≠ .timeout) :
    letStarLoop ev (list [list [.sym x, e]]) newframe prevframe h0
        = (ev e h0.length (h0 ++ [{ bindings := .null, parent := some prevframe }])).bind
            (fun q =>
              if letRejects q.1 then .error "Unbound variable %s in let*."
              else
                match q.2[h0.length]? with
                | none => .undefined
                | some f =>
                  .ok (some h0.length,
                    q.2.set h0.length
                      { f with bindings := .cons (.cons (.str x) q.1) f.bindings }))
      ∧ (eval n (letStarForm (b :: bs) body) F h = r →
          eval (n + bs.length) (nestLetStar (b :: bs) body) F h = r)
      ∧ (eval n (nestLetStar (b :: bs) body) F h = r →
          eval n (letStarForm (b :: bs) body) F h = r) := by
  refine ⟨?_, letStar_to_nest body bs b n F h r hne, nest_to_letStar body bs b n F h r hne⟩
  simp only [list, letStarLoop, makeNull]

/-- C6, witness: `(let* ((x 1) (y x)) (+ x y))` in the top-level frame ends
with budget 5, and `(let* ((x 1)) (let* ((y x)) (+ x y)))` has the same outcome
with budget 6. -/
theorem letStar_sequential_witness :
    eval 5 (letStarForm seqBindings seqBody) 1 topHeap ≠ .timeout
      ∧ eval (5 + 1) (nestLetStar seqBindings seqBody) 1 topHeap
        = eval 5 (letStarForm seqBindings seqBody) 1 topHeap :=
  ⟨by decide!,
    (letStar_sequential (eval 3) "x" (.int 1) none 1 topHeap 5 (list [.sym "x", .int 1])
      [list [.sym "y", .sym "x"]] seqBody 1 topHeap
      (eval 5 (letStarForm seqBindings seqBody) 1 topHeap) (by decide!)).2.1 rfl⟩

/-! ### set! -/

theorem walkFrames_global_unbound (msg : String) (name : Value) (h : Heap) (g : Frame)
    (hg : h[globalframe]? = some g) (hgp : g.parent = none)
    (hgs : scanBindings name g.bindings = .ok none) (k : Nat) :
    (walkFrames msg name h (k + 1) globalframe true = .error msg
        ∨ walkFrames msg name h (k + 1) globalframe true = .error "symbol '%s' not found.")
      ∧ (walkFrames msg name h (k + 2) globalframe false = .error msg
        ∨ walkFrames msg name h (k + 2) globalframe false = .error "symbol '%s' not found.") := by
  have h1 : walkFrames msg name h (k + 1) globalframe true = .error msg
      ∨ walkFrames msg name h (k + 1) globalframe true = .error "symbol '%s' not found." := by
    cases hn : isNull g.bindings with
    | true => left; simp [walkFrames, hg, hn]
    | false => right; simp [walkFrames, hg, hn, hgs, hgp]
  refine ⟨h1, ?_⟩
  have h2 : walkFrames msg name h (k + 1 + 1) globalframe false
      = walkFrames msg name h (k + 1) globalframe true := by
    simp [walkFrames, hg, hgs, hgp]
  rw [show k + 2 = k + 1 + 1 from rfl, h2]
  exact h1

theorem walkFrames_unbound (msg : String) (name : Value) (h : Heap) (g : Frame)
    (hg : h[globalframe]? = some g) (hgp : g.parent = none)
    (hgs : scanBindings name g.bindings = .ok none) :
    ∀ (chain : List Nat) (c fuel : Nat), Unshadowed name h (c :: chain) →
      chain.length + 3 ≤ fuel →
      walkFrames msg name h fuel c false = .error msg
        ∨ walkFrames msg name h fuel c false = .error "symbol '%s' not found." := by
  intro chain
  induction chain with
  | nil =>
    intro c fuel hu hfuel
    obtain ⟨f, hf, hp, hsc⟩ := hu
    obtain ⟨k, rfl⟩ : ∃ k, fuel = k + 3 := ⟨fuel - 3, by simp at hfuel; omega⟩
    rcases hp with hp | hp
    · have h1 : walkFrames msg name h (k + 2 + 1) c false
          = walkFrames msg name h (k + 1 + 1) globalframe true := by
        simp [walkFrames, hf, hsc, hp]
      rw [show k + 3 = k + 2 + 1 from rfl, h1]
      exact (walkFrames_global_unbound msg name h g hg hgp hgs (k + 1)).1
    · rw [show k + 3 = k + 2 + 1 from rfl,
        walkFrames_skip msg name h (k + 2) c globalframe f hf hsc hp]
      exact (walkFrames_global_unbound msg name h g hg hgp hgs k).2
  | cons e es ih =>
    intro c fuel hu hfuel
    obtain ⟨⟨f, hf, hp, hsc⟩, hrest⟩ := hu
    obtain ⟨k, rfl⟩ : ∃ k, fuel = k + 1 := ⟨fuel - 1, by simp at hfuel; omega⟩
    rw [walkFrames_skip msg name h k c e f hf hsc hp]
    exact ih e k hrest (by simp at hfuel ⊢; omega)

/-- C11: `set!` on a name that no frame binds, from the current frame along
the chain of parents and in the global frame, fails with one of the two
"symbol not found" errors of `evalSet`.  This holds for every evaluator and
every expression: the failure is decided by the frame walk alone, before the
expression is evaluated and before any store, so no binding is changed. -/
theorem set_unbound_fails (ev : Ev) (name tl : Value) (c : Nat) (chain : List Nat) (h : Heap)
    (g : Frame) (hnd : (c :: chain).Nodup) (hun : Unshadowed name h (c :: chain))
    (hg : h[globalframe]? = some g) (hgp : g.parent = none)
    (hgs : scanBindings name g.bindings = .ok none) :
    evalSet ev (.cons name tl) c h = .error "symbol '%s' not found when trying to set."
      ∨ evalSet ev (.cons name tl) c h = .error "symbol '%s' not found." := by
  have hlen := nodup_length_le (c :: chain) h.length hnd (unshadowed_mem_lt _ h _ hun)
  have hw := walkFrames_unbound "symbol '%s' not found when trying to set." name h g hg hgp hgs
    chain c (h.length + 2) hun (by simp at hlen ⊢; omega)
  rcases hw with hw | hw
  · left; simp only [evalSet, hw, Res.bind_error]
  · right; simp only [evalSet, hw, Res.bind_error]

/-- C11, witness: `(set! zz 1)` in the empty top-level frame of the initial
heap, where only the primitives are bound. -/
theorem set_unbound_fails_witness :
    evalSet (eval 1) (list [.sym "zz", .int 1]) 1 topHeap
        = .error "symbol '%s' not found when trying to set."
      ∨ evalSet (eval 1) (list [.sym "zz", .int 1]) 1 topHeap
        = .error "symbol '%s' not found." :=
  set_unbound_fails (eval 1) (.sym "zz") (list [.int 1]) 1 [] topHeap
    (Frame.mk primitiveBindings none) (by decide)
    ⟨Frame.mk .null none, rfl, Or.inl rfl, rfl⟩ rfl rfl (by decide)

/-! ### quote, begin, cond, car of cons -/

theorem evalStep_quote (ev : Ev) (fuel : Nat) (args : Value) (fr : Nat) (h : Heap) :
    evalStep ev fuel (.cons (.sym "quote") args) fr h
      = (evalQuote args).bind (fun v => .ok (v, h)) := by
  simp [evalStep, strcmpLit, textOf]

theorem evalStep_begin (ev : Ev) (fuel : Nat) (args : Value) (fr : Nat) (h : Heap) :
    evalStep ev fuel (.cons (.sym "begin") args) fr h = evalBegin ev args fr h := by
  simp [evalStep, strcmpLit, textOf]

theorem evalStep_cond (ev : Ev) (fuel : Nat) (args : Value) (fr : Nat) (h : Heap) :
    evalStep ev fuel (.cons (.sym "cond") args) fr h = evalCond ev fr fuel args none h := by
  simp [evalStep, strcmpLit, textOf]

/-- C19: `(quote e)` evaluates to `e` itself and leaves the heap as it was, in
every frame and whatever the evaluator of the recursive calls does, so `e` is
not evaluated; `(quote)` fails (with the bare "Evaluation error") and a `quote`
with two or more arguments fails with "multiple arguments to quote". -/
theorem quote_returns_argument_unevaluated (ev : Ev) (fuel : Nat) (e a b : Value)
    (rest : List Value) (fr : Nat) (h : Heap) :
    evalStep ev fuel (list [.sym "quote", e]) fr h = .ok (e, h)
      ∧ eval (fuel + 1) (list [.sym "quote", e]) fr h = .ok (e, h)
      ∧ evalStep ev fuel (list [.sym "quote"]) fr h = .error ""
      ∧ evalStep ev fuel (list (.sym "quote" :: a :: b :: rest)) fr h
          = .error "multiple arguments to quote" := by
  have h1 : ∀ ev : Ev, evalStep ev fuel (list [.sym "quote", e]) fr h = .ok (e, h) := by
    intro ev
    rw [list, evalStep_quote]
    simp [evalQuote, list, length, isNull, car, Res.ofOption]
  refine ⟨h1 ev, h1 (eval fuel), ?_, ?_⟩
  · rw [list, evalStep_quote]
    simp [evalQuote, list, length, isNull]
  · rw [list, evalStep_quote]
    have hl : length (list (a :: b :: rest)) = some (rest.length + 2) := by
      rw [length_list]; rfl
    simp [evalQuote, hl]

/-- C18 (the code departs from the claim): `(begin)` does not return Void.  The
Void value is stored in a variable declared inside the `if` block, and the
function returns the outer `result`, which was never assigned: the result is
undefined, in every frame and heap. -/
theorem begin_empty_result_undefined (ev : Ev) (fuel : Nat) (fr : Nat) (h : Heap) :
    evalStep ev fuel (list [.sym "begin"]) fr h = .undefined
      ∧ interpret (fuel + 2) (list [list [.sym "begin"]]) = .undefined := by
  have h1 : ∀ (ev : Ev) (fr : Nat) (h : Heap),
      evalStep ev fuel (list [.sym "begin"]) fr h = .undefined := by
    intro ev fr h
    rw [list, evalStep_begin]
    rfl
  refine ⟨h1 ev fr h, ?_⟩
  simp [interpret, interpretLoop, list, eval, evalStep_begin, evalBegin]

/-- C16 (the code departs from the claim): the body of a clause whose test is
`#f` IS evaluated.  In `(define c 0) (cond (#f (set! c 1)) (else c))` the
`set!` of the first clause runs and the `else` clause then reads 1.  The
example of the claim, `(cond ((< 3 2) 1) ((= 2 2) 2) (else 3))`, does evaluate
to 2. -/
theorem cond_false_clause_body_is_evaluated :
    interpret 6 condSideEffectProgram = .ok [.void, .int 1]
      ∧ interpret 6 (list [condExample]) = .ok [.int 2] := by
  constructor <;> decide!

/-- C17 (the code departs from the claim): a `cond` whose tests are all `#f`
and that has no `else` does not return Void.  `(cond (#f 1))` returns 1, the
value of the body of the last clause, and `(cond)` returns the variable
`result` that was never assigned. -/
theorem cond_without_firing_clause_not_void (ev : Ev) (fuel : Nat) (fr : Nat) (h : Heap) :
    interpret 6 (list [condAllFalse]) = .ok [.int 1]
      ∧ evalStep ev (fuel + 1) (list [.sym "cond"]) fr h = .undefined := by
  constructor
  · decide!
  · rw [list, evalStep_cond]
    rfl

/-- C20 (the code departs from the claim): `car` of a fresh pair copies the
head by tag.  An Integer, Real, Null or Pair head comes back as it was, and so
does a Str; a Bool or a Symbol comes back as a Str with the same text, and for
a Closure or a Primitive the copy reads a text member that the value does not
have.  `(car (cons #t 1))` is the Str "#t", not the Bool `#t`. -/
theorem car_cons_copies_by_tag (a d : Value) (i : Int) (q : Rat) (s : String) (x y : Value)
    (ps body : Value) (fr : Nat) (pf : Prim) :
    (primitiveCons (list [a, d])).bind (fun p => primitiveCar (list [p])) = copyProjected a
      ∧ copyProjected (.int i) = .ok (.int i)
      ∧ copyProjected (.double q) = .ok (.double q)
      ∧ copyProjected .null = .ok .null
      ∧ copyProjected (.cons x y) = .ok (.cons x y)
      ∧ copyProjected (.str s) = .ok (.str s)
      ∧ copyProjected (.bool s) = .ok (.str s)
      ∧ copyProjected (.sym s) = .ok (.str s)
      ∧ copyProjected (.closure ps body fr) = .undefined
      ∧ copyProjected (.primitive pf) = .undefined
      ∧ interpret 6 (list [carConsBool]) = .ok [.str "#t"]
      ∧ interpret 6 (list [carConsClosure]) = .undefined := by
  refine ⟨?_, rfl, rfl, rfl, rfl, rfl, rfl, rfl, rfl, rfl, ?_, ?_⟩
  · simp [primitiveCons, primitiveCar, list, length, isNull]
  · decide!
  · decide!

/-! ### if -/

theorem evalStep_if (ev : Ev) (fuel : Nat) (args : Value) (fr : Nat) (h : Heap) :
    evalStep ev fuel (.cons (.sym "if") args) fr h = evalIf ev args fr h := by
  simp [evalStep, strcmpLit, textOf]

/-- C13, counterexample: the test of `(if "a" 1 2)` is a Str, which is not the
Bool `#f`, yet the result is not 1: no branch is taken and the form evaluates
to Null.  So does `(if (lambda (x) x) 1 2)`, whose test is a Closure. -/
theorem if_str_test_takes_no_branch :
    interpret 5 (list [ifStrTest]) = .ok [.null]
      ∧ interpret 5 (list [ifClosureTest]) = .ok [.null] := by
  constructor <;> decide!

/-- C13, amended: `if` compares the TEXT of the value of the test with "#t"
and with "#f".  When the text is "#t" (the Bool `#t`) the result is that of
the consequent, when it is "#f" (the Bool `#f`) the result is that of the
alternate, and in both cases the other branch is not evaluated (the equation
holds whatever the evaluator does on it).  When the value carries another text
(a Str, a Symbol), and when it is a Pair or a Closure (whose `s` member is a
pointer to another value), neither comparison succeeds: neither branch is
evaluated and the result is a fresh Null.  When the value is an Integer, a
Real, Null or Void the comparison reads a member that was never stored, or a
number, and the result is undefined. -/
theorem if_selects_by_text_of_test (ev : Ev) (fuel : Nat) (t a b : Value) (fr : Nat)
    (h h1 : Heap) (tv : Value) (htest : ev t fr h = .ok (tv, h1)) :
    (textOf tv = some "#t" → evalStep ev fuel (list [.sym "if", t, a, b]) fr h = ev a fr h1)
      ∧ (textOf tv = some "#f" →
          evalStep ev fuel (list [.sym "if", t, a, b]) fr h = ev b fr h1)
      ∧ (∀ s, textOf tv = some s → s ≠ "#t" → s ≠ "#f" →
          evalStep ev fuel (list [.sym "if", t, a, b]) fr h = .ok (.null, h1))
      ∧ (∀ x y, tv = .cons x y →
          evalStep ev fuel (list [.sym "if", t, a, b]) fr h = .ok (.null, h1))
      ∧ (∀ ps body f, tv = .closure ps body f →
          evalStep ev fuel (list [.sym "if", t, a, b]) fr h = .ok (.null, h1))
      ∧ ((∃ i, tv = .int i) ∨ (∃ d, tv = .double d) ∨ tv = .null ∨ tv = .void →
          evalStep ev fuel (list [.sym "if", t, a, b]) fr h = .undefined) := by
  have hif : evalStep ev fuel (list [.sym "if", t, a, b]) fr h
      = match strcmpLit tv "#t" with
        | none => .undefined
        | some true => ev a fr h1
        | some false =>
          if strcmpLit tv "#f" = some true then ev b fr h1 else .ok (makeNull, h1) := by
    rw [list, evalStep_if]
    simp [evalIf, list, length, htest]
  rw [hif]
  refine ⟨?_, ?_, ?_, ?_, ?_, ?_⟩
  · intro ht
    cases tv <;> simp_all [strcmpLit, textOf]
  · intro ht
    cases tv <;> simp_all [strcmpLit, textOf]
  · intro s ht h1 h2
    cases tv <;> simp_all [strcmpLit, textOf, makeNull]
  · intro x y hv
    subst hv
    have h2t : 2 ≤ "#t".length := by decide
    have h2f : 2 ≤ "#f".length := by decide
    simp [strcmpLit, makeNull, h2t, h2f]
  · intro ps body f hv
    subst hv
    have h2t : 2 ≤ "#t".length := by decide
    have h2f : 2 ≤ "#f".length := by decide
    simp [strcmpLit, makeNull, h2t, h2f]
  · rintro (⟨i, rfl⟩ | ⟨d, rfl⟩ | rfl | rfl) <;> simp [strcmpLit, textOf]

/-- C13, witness: the test `"a"` in the top-level frame; the value carries the
text of the literal, no branch is evaluated. -/
theorem if_selects_by_text_of_test_witness :
    evalStep (eval 1) 1 ifStrTest 1 topHeap = .ok (.null, topHeap) :=
  (if_selects_by_text_of_test (eval 1) 1 (.str "\"a\"") (.int 1) (.int 2) 1 topHeap topHeap
    (.str "\"a\"") rfl).2.2.1 "\"a\"" rfl (by decide) (by decide)

/-! ### and, or -/

theorem list_append (xs ys : List Value) : list (xs ++ ys) = consAll xs (list ys) := by
  induction xs with
  | nil => rfl
  | cons x xs ih => simp [list, consAll, ih]

theorem evalStep_and (ev : Ev) (fuel : Nat) (args : Value) (fr : Nat) (h : Heap) :
    evalStep ev fuel (.cons (.sym "and") args) fr h = evalAnd ev args fr h := by
  simp [evalStep, strcmpLit, textOf]

theorem evalStep_or (ev : Ev) (fuel : Nat) (args : Value) (fr : Nat) (h : Heap) :
    evalStep ev fuel (.cons (.sym "or") args) fr h = evalOr ev args fr h := by
  simp [evalStep, strcmpLit, textOf]

theorem evalAnd_nonempty (ev : Ev) (x : Value) (xs : List Value) (fr : Nat) (h : Heap) :
    evalAnd ev (list (x :: xs)) fr h = andLoop ev fr (list (x :: xs)) makeNull h := by
  simp [evalAnd]

theorem evalOr_nonempty (ev : Ev) (x : Value) (xs : List Value) (fr : Nat) (h : Heap) :
    evalOr ev (list (x :: xs)) fr h = orLoop ev fr (list (x :: xs)) makeNull h := by
  simp [evalOr]

theorem andLoop_continue (ev : Ev) (fr : Nat) (e rest res v : Value) (h h1 : Heap)
    (hev : ev e fr h = .ok (v, h1)) (hv : andContinues v = true) :
    andLoop ev fr (.cons e rest) res h = andLoop ev fr rest (andCopy v) h1 := by
  cases v <;> simp_all [andLoop, andContinues, andCopy]

theorem andLoop_stop (ev : Ev) (fr : Nat) (e rest res : Value) (h h1 : Heap)
    (hev : ev e fr h = .ok (.bool "#f", h1)) :
    andLoop ev fr (.cons e rest) res h = .ok (.bool "#f", h1) := by
  simp [andLoop, hev, strcmpLit, textOf]

theorem orLoop_continue (ev : Ev) (fr : Nat) (e rest res v : Value) (h h1 : Heap)
    (hev : ev e fr h = .ok (v, h1)) (hv : orContinues v = true) :
    orLoop ev fr (.cons e rest) res h = orLoop ev fr rest (orCopy v) h1 := by
  cases v <;> simp_all [orLoop, orContinues, orCopy]

theorem orLoop_stop (ev : Ev) (fr : Nat) (e rest res : Value) (h h1 : Heap)
    (hev : ev e fr h = .ok (.bool "#t", h1)) :
    orLoop ev fr (.cons e rest) res h = .ok (.bool "#t", h1) := by
  simp [orLoop, hev, strcmpLit, textOf]

theorem andLoop_prefix (ev : Ev) (fr : Nat) (tail : Value) :
    ∀ (pre : List (Value × Value)) (res : Value) (h h1 : Heap), EvalSeq ev fr pre h h1 →
      (∀ p ∈ pre, andContinues p.2 = true) →
      ∃ res1, andLoop ev fr (consAll (pre.map Prod.fst) tail) res h
        = andLoop ev fr tail res1 h1 := by
  intro pre
  induction pre with
  | nil =>
    intro res h h1 hseq _
    cases hseq
    exact ⟨res, rfl⟩
  | cons p ps ih =>
    intro res h h1 hseq hall
    obtain ⟨h2, hev, hrest⟩ := hseq
    obtain ⟨res1, hres⟩ := ih (andCopy p.2) h2 h1 hrest
      (fun q hq => hall q (List.mem_cons_of_mem _ hq))
    refine ⟨res1, ?_⟩
    rw [List.map_cons, consAll,
      andLoop_continue ev fr p.1 _ res p.2 h h2 hev (hall p (List.mem_cons_self _ _)), hres]

theorem orLoop_prefix (ev : Ev) (fr : Nat) (tail : Value) :
    ∀ (pre : List (Value × Value)) (res : Value) (h h1 : Heap), EvalSeq ev fr pre h h1 →
      (∀ p ∈ pre, orContinues p.2 = true) →
      ∃ res1, orLoop ev fr (consAll (pre.map Prod.fst) tail) res h
        = orLoop ev fr tail res1 h1 := by
  intro pre
  induction pre with
  | nil =>
    intro res h h1 hseq _
    cases hseq
    exact ⟨res, rfl⟩
  | cons p ps ih =>
    intro res h h1 hseq hall
    obtain ⟨h2, hev, hrest⟩ := hseq
    obtain ⟨res1, hres⟩ := ih (orCopy p.2) h2 h1 hrest
      (fun q hq => hall q (List.mem_cons_of_mem _ hq))
    refine ⟨res1, ?_⟩
    rw [List.map_cons, consAll,
      orLoop_continue ev fr p.1 _ res p.2 h h2 hev (hall p (List.mem_cons_self _ _)), hres]

theorem list_prefix_nonempty (pre : List (Value × Value)) (e : Value) (rest : List Value) :
    ∃ x xs, pre.map Prod.fst ++ e :: rest = x :: xs := by
  cases pre with
  | nil => exact ⟨e, rest, rfl⟩
  | cons p ps => exact ⟨p.1, ps.map Prod.fst ++ e :: rest, rfl⟩

/-- C14, counterexample: in `(and 1 "a")` no operand is `#f` and the last
operand is a Str, yet the result is the Bool `#t`, not the Str. -/
theorem and_str_last_gives_bool :
    interpret 5 (list [andStrLast]) = .ok [.bool "#t"] := by
  decide!

/-- C14, amended: `and` evaluates its operands left to right in the current
frame.  After operands on which the loop went on (`pre`, with their values),
an operand whose value is the Bool `#f` makes the result `#f`, whatever
operands follow and without evaluating them; and when the last operand has a
value `v` on which the loop goes on, the result is `andCopy v`: `v` itself
when it is an Integer or a Real, and the Bool `#t` otherwise (for a Str, a
Symbol, a Bool, a Pair), not the value of the last operand. -/
theorem and_short_circuits_else_copies_last (ev : Ev) (fuel : Nat) (fr : Nat)
    (pre : List (Value × Value)) (e v : Value) (h h1 h2 : Heap)
    (hpre : EvalSeq ev fr pre h h1) (hall : ∀ p ∈ pre, andContinues p.2 = true)
    (hev : ev e fr h1 = .ok (v, h2)) :
    (v = .bool "#f" → ∀ rest : List Value,
        evalStep ev fuel (.cons (.sym "and") (list (pre.map Prod.fst ++ e :: rest))) fr h
          = .ok (.bool "#f", h2))
      ∧ (andContinues v = true →
        evalStep ev fuel (.cons (.sym "and") (list (pre.map Prod.fst ++ [e]))) fr h
          = .ok (andCopy v, h2)) := by
  have hloop : ∀ rest : List Value, ∃ res1,
      evalStep ev fuel (.cons (.sym "and") (list (pre.map Prod.fst ++ e :: rest))) fr h
        = andLoop ev fr (.cons e (list rest)) res1 h1 := by
    intro rest
    obtain ⟨x, xs, hx⟩ := list_prefix_nonempty pre e rest
    obtain ⟨res1, hres⟩ := andLoop_prefix ev fr (list (e :: rest)) pre makeNull h h1 hpre hall
    refine ⟨res1, ?_⟩
    rw [evalStep_and, hx, evalAnd_nonempty, ← hx, list_append, hres]
    rfl
  constructor
  · intro hv rest
    subst hv
    obtain ⟨res1, hres⟩ := hloop rest
    rw [hres, andLoop_stop ev fr e _ res1 h1 h2 hev]
  · intro hv
    obtain ⟨res1, hres⟩ := hloop []
    rw [hres, andLoop_continue ev fr e _ res1 v h1 h2 hev hv]
    simp [list, andLoop]

/-- C14, witness: `(and 1 "a")` in the top-level frame; the loop goes on after
the Integer 1 and the Str gives the Bool `#t`. -/
theorem and_short_circuits_else_copies_last_witness :
    evalStep (eval 1) 1 andStrLast 1 topHeap = .ok (.bool "#t", topHeap) :=
  (and_short_circuits_else_copies_last (eval 1) 1 1 [(.int 1, .int 1)] (.str "\"a\"")
    (.str "\"a\"") topHeap topHeap topHeap ⟨topHeap, rfl, rfl⟩
    (by intro p hp; simp at hp; subst hp; rfl) rfl).2 (by decide)

/-- C15, counterexample: `(or 1 #f)` evaluates to the Bool `#f`, not to the
Integer 1, its first operand that is not `#f`. -/
theorem or_int_then_false_gives_false :
    interpret 5 (list [orIntFirst]) = .ok [.bool "#f"] := by
  decide!

/-- C15, amended: `or` evaluates its operands left to right in the current
frame and stops only at the Bool `#t`.  After operands on which the loop went
on (`pre`, with their values), an operand whose value is the Bool `#t` makes
the result `#t`, whatever operands follow and without evaluating them; an
operand of any other value does not end the loop, and when the last operand
has a value `v` on which the loop goes on, the result is `orCopy v`: `v`
itself when it is an Integer or a Real, and the Bool `#f` otherwise. -/
theorem or_stops_at_true_else_copies_last (ev : Ev) (fuel : Nat) (fr : Nat)
    (pre : List (Value × Value)) (e v : Value) (h h1 h2 : Heap)
    (hpre : EvalSeq ev fr pre h h1) (hall : ∀ p ∈ pre, orContinues p.2 = true)
    (hev : ev e fr h1 = .ok (v, h2)) :
    (v = .bool "#t" → ∀ rest : List Value,
        evalStep ev fuel (.cons (.sym "or") (list (pre.map Prod.fst ++ e :: rest))) fr h
          = .ok (.bool "#t", h2))
      ∧ (orContinues v = true →
        evalStep ev fuel (.cons (.sym "or") (list (pre.map Prod.fst ++ [e]))) fr h
          = .ok (orCopy v, h2)) := by
  have hloop : ∀ rest : List Value, ∃ res1,
      evalStep ev fuel (.cons (.sym "or") (list (pre.map Prod.fst ++ e :: rest))) fr h
        = orLoop ev fr (.cons e (list rest)) res1 h1 := by
    intro rest
    obtain ⟨x, xs, hx⟩ := list_prefix_nonempty pre e rest
    obtain ⟨res1, hres⟩ := orLoop_prefix ev fr (list (e :: rest)) pre makeNull h h1 hpre hall
    refine ⟨res1, ?_⟩
    rw [evalStep_or, hx, evalOr_nonempty, ← hx, list_append, hres]
    rfl
  constructor
  · intro hv rest
    subst hv
    obtain ⟨res1, hres⟩ := hloop rest
    rw [hres, orLoop_stop ev fr e _ res1 h1 h2 hev]
  · intro hv
    obtain ⟨res1, hres⟩ := hloop []
    rw [hres, orLoop_continue ev fr e _ res1 v h1 h2 hev hv]
    simp [list, orLoop]

/-- C15, witness: `(or 1 #f)` in the top-level frame; the loop goes on after
the Integer 1, and the Bool `#f` that comes last is the result. -/
theorem or_stops_at_true_else_copies_last_witness :
    evalStep (eval 1) 1 orIntFirst 1 topHeap = .ok (.bool "#f", topHeap) :=
  (or_stops_at_true_else_copies_last (eval 1) 1 1 [(.int 1, .int 1)] (.bool "#f")
    (.bool "#f") topHeap topHeap topHeap ⟨topHeap, rfl, rfl⟩
    (by intro p hp; simp at hp; subst hp; rfl) rfl).2 (by decide)

/-! ### set!: the located cell -/

theorem walkFrames_inv (msg : String) (name : Value) (h : Heap) (n cur : Nat) (flag : Bool)
    (r : Nat × Nat × Value) (hr : walkFrames msg name h (n + 1) cur flag = .ok r) :
    ∃ f, h[cur]? = some f ∧ (isNull f.bindings && flag) = false ∧
      ((∃ d v, scanBindings name f.bindings = .ok (some (d, v)) ∧ r = (cur, d, v))
        ∨ (scanBindings name f.bindings = .ok none ∧
            ((∃ p, f.parent = some p ∧ walkFrames msg name h n p flag = .ok r)
              ∨ (f.parent = none ∧ flag = false
                  ∧ walkFrames msg name h n globalframe true = .ok r)))) := by
  rw [walkFrames] at hr
  cases hf : h[cur]? with
  | none => simp [hf] at hr
  | some f =>
    rw [hf] at hr
    simp only at hr
    refine ⟨f, rfl, ?_⟩
    split at hr
    · cases hr
    · rename_i hcond
      refine ⟨by simpa using hcond, ?_⟩
      cases hs : scanBindings name f.bindings with
      | ok o =>
        rw [hs] at hr
        simp only [Res.bind_ok] at hr
        cases o with
        | some dv =>
          left
          simp only [Res.ok.injEq] at hr
          exact ⟨dv.1, dv.2, rfl, hr.symm⟩
        | none =>
          right
          refine ⟨rfl, ?_⟩
          simp only at hr
          cases hp : f.parent with
          | some p => rw [hp] at hr; exact Or.inl ⟨p, rfl, hr⟩
          | none =>
            rw [hp] at hr
            simp only at hr
            split at hr
            · cases hr
            · rename_i hflag
              right
              have hfl : flag = false := by simpa using hflag
              subst hfl
              exact ⟨rfl, rfl, hr⟩
      | error m => rw [hs] at hr; simp at hr
      | undefined => rw [hs] at hr; simp at hr
      | timeout => rw [hs] at hr; simp at hr

theorem walkFrames_next (msg : String) (name : Value) (h : Heap) (n cur : Nat) (flag : Bool)
    (f : Frame) (hf : h[cur]? = some f) (hn : (isNull f.bindings && flag) = false)
    (hs : scanBindings name f.bindings = .ok none) :
    walkFrames msg name h (n + 1) cur flag
      = match f.parent with
        | some p => walkFrames msg name h n p flag
        | none =>
          if flag then .error "symbol '%s' not found."
          else walkFrames msg name h n globalframe true := by
  rw [walkFrames]
  simp only [hf, hn, hs, Res.bind_ok]
  simp

theorem walkFrames_msg (m1 m2 : String) (name : Value) (h : Heap) :
    ∀ (fuel cur : Nat) (flag : Bool) (r : Nat × Nat × Value),
      walkFrames m1 name h fuel cur flag = .ok r →
      walkFrames m2 name h fuel cur flag = .ok r := by
  intro fuel
  induction fuel with
  | zero => intro cur flag r hr; simp [walkFrames] at hr
  | succ n ih =>
    intro cur flag r hr
    obtain ⟨f, hf, hn, hcase⟩ := walkFrames_inv m1 name h n cur flag r hr
    rcases hcase with ⟨d, v, hs, rfl⟩ | ⟨hs, hnext⟩
    · exact walkFrames_found m2 name h n cur flag f d v hf hs
    · rw [walkFrames_next m2 name h n cur flag f hf hn hs]
      rcases hnext with ⟨p, hp, hw⟩ | ⟨hp, hfl, hw⟩
      · rw [hp]; exact ih _ _ _ hw
      · rw [hp, hfl]; exact ih _ _ _ hw

theorem assignAt_cells (d : Nat) (v : Value) :
    ∀ (bs b : Value), assignAt d v bs = some b → cells b = cells bs := by
  intro bs
  induction bs with
  | cons a rest _ ih =>
    intro b hb
    cases a with
    | cons k old =>
      rw [assignAt] at hb
      split at hb
      · cases hb; rfl
      · cases hr : assignAt d v rest with
        | none => rw [hr] at hb; cases hb
        | some r =>
          rw [hr] at hb
          cases hb
          simp [cells, ih r hr]
    | _ => simp [assignAt] at hb
  | _ => intro b hb; simp [assignAt] at hb

theorem assignAt_split (d : Nat) (v : Value) :
    ∀ (bs b : Value), assignAt d v bs = some b →
      ∃ pre k old tail, bs = consAll pre (.cons (.cons k old) tail) ∧ cells tail + 1 = d
        ∧ b = consAll pre (.cons (.cons k v) tail) := by
  intro bs
  induction bs with
  | cons a rest _ ih =>
    intro b hb
    cases a with
    | cons k old =>
      rw [assignAt] at hb
      split at hb
      · rename_i hd
        cases hb
        exact ⟨[], k, old, rest, rfl, hd, rfl⟩
      · cases hr : assignAt d v rest with
        | none => rw [hr] at hb; cases hb
        | some r =>
          rw [hr] at hb
          cases hb
          obtain ⟨pre, k1, old1, tail, hbs, hd, hbr⟩ := ih r hr
          exact ⟨.cons k old :: pre, k1, old1, tail, by rw [hbs]; rfl, hd, by rw [hbr]; rfl⟩
    | _ => simp [assignAt] at hb
  | _ => intro b hb; simp [assignAt] at hb

theorem scanBindings_depth_le (name : Value) :
    ∀ (bs : Value) (d : Nat) (x : Value), scanBindings name bs = .ok (some (d, x)) →
      d ≤ cells bs := by
  intro bs
  induction bs with
  | cons a rest _ ih =>
    intro d x hs
    cases a with
    | cons k old =>
      rw [scanBindings] at hs
      split at hs
      · split at hs
        · simp only [Res.ok.injEq, Option.some.injEq, Prod.mk.injEq] at hs
          simp only [cells]
          omega
        · have := ih d x hs
          simp only [cells]
          omega
      · cases hs
    | _ => simp [scanBindings] at hs
  | _ => intro d x hs; simp [scanBindings] at hs

theorem scanBindings_assignAt (name : Value) (d : Nat) (v : Value) :
    ∀ (bs b : Value), assignAt d v bs = some b →
      (scanBindings name bs = .ok none → scanBindings name b = .ok none)
        ∧ (∀ x, scanBindings name bs = .ok (some (d, x)) →
            scanBindings name b = .ok (some (d, v))) := by
  intro bs
  induction bs with
  | cons a rest _ ih =>
    intro b hb
    cases a with
    | cons k old =>
      rw [assignAt] at hb
      split at hb
      · rename_i hd
        cases hb
        constructor
        · intro hs
          rw [scanBindings] at hs ⊢
          split at hs
          · rename_i a1 b1 hk hn
            split at hs
            · cases hs
            · rename_i hne
              rw [if_neg hne]; exact hs
          · cases hs
        · intro x hs
          rw [scanBindings] at hs ⊢
          split at hs
          · rename_i a1 b1 hk hn
            split at hs
            · rename_i heq
              rw [if_pos heq, hd]
            · have := scanBindings_depth_le name rest d x hs
              omega
          · cases hs
      · rename_i hd
        cases hr : assignAt d v rest with
        | none => rw [hr] at hb; cases hb
        | some r =>
          rw [hr] at hb
          cases hb
          have hc := assignAt_cells d v rest r hr
          obtain ⟨ih1, ih2⟩ := ih r hr
          constructor
          · intro hs
            rw [scanBindings] at hs ⊢
            split at hs
            · rename_i a1 b1 hk hn
              split at hs
              · cases hs
              · rename_i hne
                rw [if_neg hne]; exact ih1 hs
            · cases hs
          · intro x hs
            rw [scanBindings] at hs ⊢
            split at hs
            · rename_i a1 b1 hk hn
              split at hs
              · simp only [Res.ok.injEq, Option.some.injEq, Prod.mk.injEq] at hs
                omega
              · rename_i hne
                rw [if_neg hne]; exact ih2 x hs
            · cases hs
    | _ => simp [assignAt] at hb
  | _ => intro b hb; simp [assignAt] at hb

theorem assignAt_isNull (d : Nat) (v bs b : Value) (hb : assignAt d v bs = some b) :
    isNull b = false := by
  obtain ⟨pre, k, old, tail, _, _, rfl⟩ := assignAt_split d v bs b hb
  cases pre <;> rfl

theorem walkFrames_store (msg : String) (name : Value) (h1 : Heap) (p d : Nat) (v : Value)
    (f1 : Frame) (b : Value) (hf1 : h1[p]? = some f1)
    (hb : assignAt d v f1.bindings = some b) :
    ∀ (fuel cur : Nat) (flag : Bool) (x : Value),
      walkFrames msg name h1 fuel cur flag = .ok (p, d, x) →
      walkFrames msg name (h1.set p { f1 with bindings := b }) fuel cur flag
        = .ok (p, d, v) := by
  have hlt : p < h1.length := by
    by_contra hge
    rw [List.getElem?_eq_none (by omega)] at hf1
    cases hf1
  have hscan := scanBindings_assignAt name d v f1.bindings b hb
  intro fuel
  induction fuel with
  | zero => intro cur flag x hr; simp [walkFrames] at hr
  | succ n ih =>
    intro cur flag x hr
    obtain ⟨f, hf, hn, hcase⟩ := walkFrames_inv msg name h1 n cur flag _ hr
    by_cases hc : cur = p
    · subst hc
      rw [hf1] at hf
      cases hf
      have hnew : (h1.set cur { f1 with bindings := b })[cur]? = some { f1 with bindings := b } := by
        simp [List.getElem?_set, hlt]
      rcases hcase with ⟨d1, v1, hs, hrd⟩ | ⟨hs, hnext⟩
      · simp only [Prod.mk.injEq] at hrd
        obtain ⟨_, hd, _⟩ := hrd
        subst hd
        exact walkFrames_found msg name _ n cur flag _ d v hnew (hscan.2 v1 hs)
      · rw [walkFrames_next msg name _ n cur flag _ hnew
          (by simp [assignAt_isNull d v _ b hb]) (hscan.1 hs)]
        rcases hnext with ⟨q, hq, hw⟩ | ⟨hq, hfl, hw⟩
        · have hw1 := ih _ _ _ hw
          simp only [hq] at hw1 ⊢
          exact hw1
        · have hw1 := ih _ _ _ hw
          subst hfl
          simp only [hq] at hw1 ⊢
          simpa using hw1
    · have hnew : (h1.set p { f1 with bindings := b })[cur]? = some f := by
        rw [List.getElem?_set_ne (fun hpc => hc hpc.symm)]; exact hf
      rcases hcase with ⟨d1, v1, _, hrd⟩ | ⟨hs, hnext⟩
      · simp only [Prod.mk.injEq] at hrd
        exact absurd hrd.1.symm hc
      · rw [walkFrames_next msg name _ n cur flag f hnew hn hs]
        rcases hnext with ⟨q, hq, hw⟩ | ⟨hq, hfl, hw⟩
        · simp only [hq]; exact ih _ _ _ hw
        · simp only [hq, hfl]; exact ih _ _ _ hw

/-- C12, counterexample: in `(define x 1) (set! x (begin (define x 5) 2)) x`
the `set!` succeeds, yet the lookup of `x` that follows returns 5 and not 2, the
value of the expression: the cell was located before the expression was
evaluated, and the `define` inside the expression put a newer binding of `x` in
front of it. -/
theorem set_then_lookup_sees_newer_define :
    interpret 6 setShadowProgram = .ok [.void, .void, .int 5] := by
  decide!

/-- C12, amended: `set!` first locates the binding that Lookup finds in the
heap as it is BEFORE the expression is evaluated (frame `p`, cell `d` counted
from the end of its binding list, holding `old`); it then evaluates the
expression in the current frame and stores the value `v`, of any tag, into that
cell of the heap `h1` left by the evaluation.  The result is Void; the binding
list of frame `p` changes in exactly that one cell, which keeps its key and
gets the value `v`; every other frame is as the evaluation left it.  A Lookup
of the name from the same frame afterwards returns `v` provided the located
cell is still the first match in `h1`, which fails when the expression itself
has defined the name anew. -/
theorem set_stores_into_located_cell (ev : Ev) (name e v old : Value) (frame p d : Nat)
    (h h1 : Heap) (f1 : Frame) (b : Value)
    (hloc : walkFrames "symbol '%s' not found." name h (h.length + 2) frame false
      = .ok (p, d, old))
    (hev : ev e frame h = .ok (v, h1))
    (hf1 : h1[p]? = some f1) (hb : assignAt d v f1.bindings = some b) :
    lookUpSymbol name frame h = .ok old
      ∧ evalSet ev (list [name, e]) frame h
          = .ok (.void, h1.set p { f1 with bindings := b })
      ∧ (∃ pre k old1 tail, f1.bindings = consAll pre (.cons (.cons k old1) tail)
          ∧ cells tail + 1 = d ∧ b = consAll pre (.cons (.cons k v) tail))
      ∧ (∀ q, q ≠ p → (h1.set p { f1 with bindings := b })[q]? = h1[q]?)
      ∧ (∀ old1, walkFrames "symbol '%s' not found." name h1 (h1.length + 2) frame false
            = .ok (p, d, old1) →
          lookUpSymbol name frame (h1.set p { f1 with bindings := b }) = .ok v) := by
  refine ⟨?_, ?_, assignAt_split d v _ b hb, ?_, ?_⟩
  · simp only [lookUpSymbol, hloc, Res.bind_ok]
  · simp only [list, evalSet,
      walkFrames_msg _ "symbol '%s' not found when trying to set." name h _ _ _ _ hloc,
      Res.bind_ok, hev, hf1, hb]
  · intro q hq
    exact List.getElem?_set_ne (fun hpq => hq hpq.symm)
  · intro old1 hw
    have hs := walkFrames_store "symbol '%s' not found." name h1 p d v f1 b hf1 hb
      (h1.length + 2) frame false old1 hw
    simp only [lookUpSymbol, List.length_set, hs, Res.bind_ok]

/-- C12, witness: `(set! x (quote ()))` in a frame that binds `x` to 1; the new
value is Null, and the lookup of `x` afterwards returns Null. -/
theorem set_stores_into_located_cell_witness :
    evalSet (eval 1) (list [.sym "x", list [.sym "quote", .null]]) 1 oneBindingHeap
        = .ok (.void, oneBindingHeap.set 1 (Frame.mk (.cons (.cons (.sym "x") .null) .null) none))
      ∧ lookUpSymbol (.sym "x") 1
          (oneBindingHeap.set 1 (Frame.mk (.cons (.cons (.sym "x") .null) .null) none))
        = .ok .null :=
  ⟨(set_stores_into_located_cell (eval 1) (.sym "x") (list [.sym "quote", .null]) .null
      (.int 1) 1 1 1 oneBindingHeap oneBindingHeap
      (Frame.mk (.cons (.cons (.sym "x") (.int 1)) .null) none)
      (.cons (.cons (.sym "x") .null) .null) (by decide!) (by decide!) rfl rfl).2.1,
   (set_stores_into_located_cell (eval 1) (.sym "x") (list [.sym "quote", .null]) .null
      (.int 1) 1 1 1 oneBindingHeap oneBindingHeap
      (Frame.mk (.cons (.cons (.sym "x") (.int 1)) .null) none)
      (.cons (.cons (.sym "x") .null) .null) (by decide!) (by decide!) rfl rfl).2.2.2.2
      (.int 1) (by decide!)⟩

/-! ### cdr of cons, null? -/

/-- C21 (the code departs from the claim): `cdr` of a fresh pair copies the
tail by tag.  An Integer, Real, Null or Pair tail comes back as it was, and so
does a Str; a Bool or a Symbol comes back as a Str with the same text, and for
a Closure or a Primitive the copy reads a text member that the value does not
have.  `(cdr (cons 1 #t))` is the Str "#t", not the Bool `#t`. -/
theorem cdr_cons_copies_by_tag (a d : Value) (i : Int) (q : Rat) (s : String) (x y : Value)
    (ps body : Value) (fr : Nat) (pf : Prim) :
    (primitiveCons (list [a, d])).bind (fun p => primitiveCdr (list [p])) = copyProjected d
      ∧ (primitiveCons (list [a, .int i])).bind (fun p => primitiveCdr (list [p]))
          = .ok (.int i)
      ∧ (primitiveCons (list [a, .double q])).bind (fun p => primitiveCdr (list [p]))
          = .ok (.double q)
      ∧ (primitiveCons (list [a, .null])).bind (fun p => primitiveCdr (list [p])) = .ok .null
      ∧ (primitiveCons (list [a, .cons x y])).bind (fun p => primitiveCdr (list [p]))
          = .ok (.cons x y)
      ∧ (primitiveCons (list [a, .str s])).bind (fun p => primitiveCdr (list [p]))
          = .ok (.str s)
      ∧ (primitiveCons (list [a, .bool s])).bind (fun p => primitiveCdr (list [p]))
          = .ok (.str s)
      ∧ (primitiveCons (list [a, .sym s])).bind (fun p => primitiveCdr (list [p]))
          = .ok (.str s)
      ∧ (primitiveCons (list [a, .closure ps body fr])).bind (fun p => primitiveCdr (list [p]))
          = .undefined
      ∧ (primitiveCons (list [a, .primitive pf])).bind (fun p => primitiveCdr (list [p]))
          = .undefined
      ∧ interpret 6 (list [cdrConsBool]) = .ok [.str "#t"]
      ∧ interpret 6 (list [cdrConsClosure]) = .undefined := by
  have hgen : ∀ d : Value,
      (primitiveCons (list [a, d])).bind (fun p => primitiveCdr (list [p]))
        = copyProjected d := by
    intro d
    simp [primitiveCons, primitiveCdr, list, length, isNull]
  refine ⟨hgen d, ?_, ?_, ?_, ?_, ?_, ?_, ?_, ?_, ?_, ?_, ?_⟩
  · rw [hgen]; rfl
  · rw [hgen]; rfl
  · rw [hgen]; rfl
  · rw [hgen]; rfl
  · rw [hgen]; rfl
  · rw [hgen]; rfl
  · rw [hgen]; rfl
  · rw [hgen]; rfl
  · rw [hgen]; rfl
  · decide!
  · decide!

theorem nullDescend_cell (v : Value) :
    nullDescend (.cons v .null) = some (nullLike v) := by
  induction v with
  | cons a d iha _ =>
    cases a with
    | cons p q =>
      cases d with
      | null =>
        have h1 : nullDescend (.cons (.cons (.cons p q) .null) .null)
            = nullDescend (.cons (.cons p q) .null) := by
          simp [nullDescend]
        rw [h1, iha]
        simp [nullLike]
      | _ => simp [nullDescend, nullLike]
    | _ => simp [nullDescend, nullLike]
  | _ => simp [nullDescend, nullLike]

/-- C22, counterexample: `(null? (quote (())))`, whose argument is a Pair with
a Null head, evaluates to `#t`. -/
theorem null_of_pair_with_null_head :
    interpret 6 (list [nullOfNested]) = .ok [.bool "#t"] := by
  decide!

/-- C22, amended: for every value `v`, `null?` applied to the one-element
argument list `(v)` returns a Bool, and it is `#t` exactly when `v` is Null,
or `v` is a Pair whose head is Null (whatever its tail), or `v` is a Pair with
a Null tail whose head is a Pair for which the answer is `#t`; it is `#f` for
every other value, in particular for every value that is neither Null nor a
Pair and for every Pair whose head is neither Null nor a Pair. -/
theorem null_descends_into_heads (v : Value) :
    primitiveNull (list [v]) = .ok (mkBool (nullLike v))
      ∧ nullLike .null = true
      ∧ (∀ d, nullLike (.cons .null d) = true)
      ∧ (∀ a b, nullLike (.cons (.cons a b) .null) = nullLike (.cons a b))
      ∧ (∀ a b d, d ≠ .null → nullLike (.cons (.cons a b) d) = false)
      ∧ (∀ a d, a ≠ .null → (∀ p q, a ≠ .cons p q) → nullLike (.cons a d) = false)
      ∧ ((v ≠ .null ∧ ∀ a d, v ≠ .cons a d) → nullLike v = false) := by
  refine ⟨?_, rfl, fun _ => rfl, fun _ _ => ?_, ?_, ?_, ?_⟩
  · have hl : length (list [v]) = some 1 := rfl
    have hn := nullDescend_cell v
    simp only [list] at hn hl
    simp [primitiveNull, list, hl, hn, Res.ofOption]
  · simp [nullLike]
  · intro a b d hd
    cases d <;> simp_all [nullLike]
  · intro a d ha hc
    cases a <;> simp_all [nullLike]
  · intro hv
    cases v <;> simp_all [nullLike]

/-! ### Numeric primitives -/

theorem wrapInt_of_fits (x : Int) (h1 : -2147483648 ≤ x) (h2 : x < 2147483648) :
    wrapInt x = x := by
  unfold wrapInt
  omega

theorem wrapInt_add_wrapInt (a b : Int) : wrapInt (wrapInt a + b) = wrapInt (a + b) := by
  unfold wrapInt
  omega

theorem countReals_num (msg : String) (ns : List (Int ⊕ Rat)) :
    countReals msg (list (ns.map numValue)) = .ok (ns.countP (fun n => n.isRight)) := by
  induction ns with
  | nil => rfl
  | cons n ns ih =>
    cases n with
    | inl i => simpa [list, numValue, countReals] using ih
    | inr d => simp [list, numValue, countReals, ih]

theorem foldInts_add_num (ns : List (Int ⊕ Rat)) :
    ∀ acc : Int, ns.countP (fun n => n.isRight) = 0 →
      foldInts (fun a b => a + b) (list (ns.map numValue)) (wrapInt acc)
        = some (wrapInt (acc + (ns.map intPart).sum)) := by
  induction ns with
  | nil => intro acc _; simp [list, foldInts]
  | cons n ns ih =>
    intro acc hc
    cases n with
    | inl i =>
      have hc1 : ns.countP (fun n => n.isRight) = 0 := by simpa using hc
      have := ih (wrapInt acc + i) hc1
      simp only [List.map_cons, list, numValue, foldInts, intPart, List.sum_cons]
      rw [this]
      congr 1
      unfold wrapInt
      omega
    | inr d => simp at hc

theorem foldReals_add_num (ns : List (Int ⊕ Rat)) :
    ∀ acc : Rat,
      foldReals (fun a b => a + b) (list (ns.map numValue)) acc
        = some (acc + (ns.map promote).sum) := by
  induction ns with
  | nil => intro acc; simp [list, foldReals]
  | cons n ns ih =>
    intro acc
    cases n with
    | inl i =>
      simp only [List.map_cons, list, numValue, foldReals, promote, List.sum_cons]
      rw [ih, add_assoc]
    | inr d =>
      simp only [List.map_cons, list, numValue, foldReals, promote, List.sum_cons]
      rw [ih, add_assoc]

theorem primitiveAdd_num (ns : List (Int ⊕ Rat)) :
    primitiveAdd (list (ns.map numValue))
      = if ns.countP (fun n => n.isRight) = 0 then .ok (.int (wrapInt (ns.map intPart).sum))
        else .ok (.double (ns.map promote).sum) := by
  unfold primitiveAdd
  rw [countReals_num]
  simp only [Res.bind_ok]
  split
  · rename_i hc
    have h0 : wrapInt 0 = 0 := by decide
    have := foldInts_add_num ns 0 hc
    rw [h0, zero_add] at this
    rw [this]
    rfl
  · rw [foldReals_add_num ns 0, zero_add]
    rfl

/-- C23, counterexample: `(+ 2147483647 1)` has two Integer arguments and
evaluates to the Integer -2147483648, which is not their sum: the addition is
done in a C `int`. -/
theorem add_int_sum_wraps :
    interpret 6 (list [addOverflow]) = .ok [.int (-2147483648)] := by
  decide!

/-- C23, amended: `+` on a proper list of numeric arguments.  With no argument
the result is the Integer 0.  When all arguments are Integer the result is an
Integer, the sum reduced to the range of a 32-bit C `int` by wrap-around, which
is the sum itself whenever the sum lies in that range, and it does not depend
on the order of the arguments.  When at least one argument is Real the result
is tagged Real.  (Nothing is said here of the value of a Real result, which
the C code accumulates from left to right in rounded double arithmetic.) -/
theorem add_two_tier (is js : List Int) (ns : List (Int ⊕ Rat)) :
    primitiveAdd (list []) = .ok (.int 0)
      ∧ primitiveAdd (list (is.map Value.int)) = .ok (.int (wrapInt is.sum))
      ∧ (-2147483648 ≤ is.sum → is.sum < 2147483648 →
          primitiveAdd (list (is.map Value.int)) = .ok (.int is.sum))
      ∧ (is.Perm js →
          primitiveAdd (list (is.map Value.int)) = primitiveAdd (list (js.map Value.int)))
      ∧ ((∃ n ∈ ns, n.isRight = true) →
          ∃ v, primitiveAdd (list (ns.map numValue)) = .ok v ∧ typeOf v = .DOUBLE_TYPE) := by
  have hints : ∀ ks : List Int,
      primitiveAdd (list (ks.map Value.int)) = .ok (.int (wrapInt ks.sum)) := by
    intro ks
    have hmap : ks.map Value.int = (ks.map Sum.inl).map numValue := by
      simp [List.map_map, Function.comp_def, numValue]
    have hc : (ks.map (Sum.inl : Int → Int ⊕ Rat)).countP (fun n => n.isRight) = 0 := by
      simp [List.countP_eq_zero]
    have hs : ((ks.map (Sum.inl : Int → Int ⊕ Rat)).map intPart).sum = ks.sum := by
      simp [List.map_map, Function.comp_def, intPart]
    rw [hmap, primitiveAdd_num, if_pos hc, hs]
  refine ⟨rfl, hints is, ?_, ?_, ?_⟩
  · intro h1 h2
    rw [hints, wrapInt_of_fits _ h1 h2]
  · intro hp
    rw [hints, hints, hp.sum_eq]
  · intro hex
    have hc : ns.countP (fun n => n.isRight) ≠ 0 :=
      Nat.pos_iff_ne_zero.mp (List.countP_pos_iff.mpr hex)
    exact ⟨.double (ns.map promote).sum, by rw [primitiveAdd_num, if_neg hc], rfl⟩

theorem tmod_eq_zero_iff_emod (a b : Int) : Int.tmod a b = 0 ↔ a % b = 0 :=
  ⟨fun h => Int.emod_eq_zero_of_dvd (Int.dvd_of_tmod_eq_zero h),
   fun h => Int.tmod_eq_zero_of_dvd (Int.dvd_of_emod_eq_zero h)⟩

theorem primitiveDivideType_ints (a b : Int) (hb : b ≠ 0)
    (hov : ¬ (a = -2147483648 ∧ b = -1)) :
    primitiveDivideType (list [.int a, .int b])
      = if a % b = 0 then .ok .INT_TYPE else .ok .DOUBLE_TYPE := by
  by_cases hd : a % b = 0
  · have ht : Int.tmod a b = 0 := (tmod_eq_zero_iff_emod a b).mpr hd
    simp [primitiveDivideType, list, length, countReals, hb, hov, ht, hd]
  · have ht : ¬ Int.tmod a b = 0 := fun h => hd ((tmod_eq_zero_iff_emod a b).mp h)
    simp [primitiveDivideType, list, length, countReals, hb, hov, ht, hd]

theorem primitiveDivideType_real (m n : Int ⊕ Rat) (hr : m.isRight = true ∨ n.isRight = true) :
    primitiveDivideType (list [numValue m, numValue n]) = .ok .DOUBLE_TYPE := by
  cases m <;> cases n <;>
    simp_all [primitiveDivideType, list, length, countReals, numValue]

/-- C25 (the code departs from the claim): of the three shapes with a Real
operand only Real/Integer gives the quotient.  With an Integer dividend and a
Real divisor neither `param1` nor `param2` is assigned and the function divides
their initial 0 by 0; with two Reals the divisor is overwritten by the `i`
member of the Real divisor, which was never stored.  In both shapes the result
is tagged Real but its value cannot be the quotient: `(/ 1 2.0)` and
`(/ 3.0 1.5)` have no defined value. -/
theorem divide_real_operand_shapes (a b : Int) (x y : Rat) :
    primitiveDivide (list [.int a, .double y]) = .undefined
      ∧ primitiveDivide (list [.double x, .double y]) = .undefined
      ∧ (b ≠ 0 → primitiveDivide (list [.double x, .int b]) = .ok (.double (x / (b : Rat))))
      ∧ primitiveDivideType (list [.int a, .double y]) = .ok .DOUBLE_TYPE
      ∧ primitiveDivideType (list [.double x, .double y]) = .ok .DOUBLE_TYPE
      ∧ interpret 6 (list [divIntReal]) = .undefined
      ∧ interpret 6 (list [divRealReal]) = .undefined := by
  refine ⟨?_, ?_, ?_, ?_, ?_, ?_, ?_⟩
  · simp [primitiveDivide, list, length, countReals]
  · simp [primitiveDivide, list, length, countReals]
  · intro hb
    simp [primitiveDivide, list, length, countReals, hb]
  · simp [primitiveDivideType, list, length, countReals]
  · simp [primitiveDivideType, list, length, countReals]
  · decide!
  · decide!

/-- C26 (the code departs from the claim): the arity test of `-`, `/`,
`modulo`, `<`, `>` and `=` is `length(args) > 2`.  Three or more arguments fail
with the arity error of the primitive; with no argument, or with one Integer
argument, no arity error is raised and the primitive goes on to read the head
of the NULL_TYPE value that ends the list, which was never stored: the result
is undefined.  `(- 1)` is such a call. -/
theorem two_argument_primitives_test_upper_bound_only (p : Prim) (hp : p ∈ twoArgumentPrims)
    (xs : List Value) (i : Int) :
    (3 ≤ xs.length → ∃ msg, applyPrim p (list xs) = .error msg)
      ∧ applyPrim p (list []) = .undefined
      ∧ applyPrim p (list [.int i]) = .undefined
      ∧ interpret 6 (list [minusOneArg]) = .undefined := by
  have hlen : length (list xs) = some xs.length := length_list xs
  simp only [twoArgumentPrims, List.mem_cons, List.mem_singleton, List.not_mem_nil,
    or_false] at hp
  refine ⟨?_, ?_, ?_, by decide!⟩
  · intro h3
    have h2 : xs.length > 2 := by omega
    rcases hp with rfl | rfl | rfl | rfl | rfl | rfl
    · exact ⟨_, by simp only [applyPrim, primitiveMinus, hlen, if_pos h2]; rfl⟩
    · exact ⟨_, by simp only [applyPrim, primitiveDivide, hlen, if_pos h2]; rfl⟩
    · exact ⟨_, by simp only [applyPrim, primitiveModulo, hlen, if_pos h2]; rfl⟩
    · exact ⟨_, by simp only [applyPrim, primitiveLessThan, hlen, if_pos h2]; rfl⟩
    · exact ⟨_, by simp only [applyPrim, primitiveGreaterThan, hlen, if_pos h2]; rfl⟩
    · exact ⟨_, by simp only [applyPrim, primitiveEqual, hlen, if_pos h2]; rfl⟩
  · rcases hp with rfl | rfl | rfl | rfl | rfl | rfl <;> rfl
  · rcases hp with rfl | rfl | rfl | rfl | rfl | rfl <;>
      simp [applyPrim, primitiveMinus, primitiveDivide, primitiveModulo, primitiveLessThan,
        primitiveGreaterThan, primitiveEqual, list, length, countReals, allInts]

/-- C26, the call `(- 1)`: one Integer argument to `-`. -/
theorem two_argument_primitives_test_upper_bound_only_witness :
    applyPrim .primitiveMinus (list [.int 1]) = .undefined :=
  (two_argument_primitives_test_upper_bound_only .primitiveMinus (by decide) [] 1).2.2.1

/-! ### reverse -/

theorem reverseLoop_null (a t acc : Value) : reverseLoop (.cons a t) .null acc = some acc := by
  cases t <;> simp [reverseLoop, isNull]

theorem reverseLoop_stop (zs : List Value) (ys : List Value) :
    ∀ (y acc : Value), (∀ z ∈ y :: ys, isNull z = false) →
      reverseLoop (list (y :: ys ++ .null :: zs)) y acc = some (revOnto (y :: ys) acc) := by
  induction ys with
  | nil =>
    intro y acc hnn
    have hy : isNull y = false := hnn y (List.mem_cons_self _ _)
    have hstep : reverseLoop (list (y :: [] ++ .null :: zs)) y acc
        = reverseLoop (.cons .null (list zs)) .null (.cons y acc) := by
      simp [list, reverseLoop, hy]
    rw [hstep, reverseLoop_null]
    rfl
  | cons w ws ih =>
    intro y acc hnn
    have hy : isNull y = false := hnn y (List.mem_cons_self _ _)
    have hrest : ∀ z ∈ w :: ws, isNull z = false :=
      fun z hz => hnn z (List.mem_cons_of_mem _ hz)
    have hstep : reverseLoop (list (y :: (w :: ws) ++ .null :: zs)) y acc
        = reverseLoop (list (w :: ws ++ .null :: zs)) w (.cons y acc) := by
      simp [list, reverseLoop, hy]
    rw [hstep, ih w _ hrest]
    rfl

theorem reverse_truncated (x : Value) (ys zs : List Value)
    (hnn : ∀ z ∈ ys, isNull z = false) :
    reverse (list (x :: ys ++ .null :: zs)) = some (list (x :: ys).reverse) := by
  cases ys with
  | nil =>
    have hstep : reverse (list (x :: [] ++ .null :: zs))
        = reverseLoop (.cons .null (list zs)) .null (list [x]) := by
      simp [list, reverse]
    rw [hstep, reverseLoop_null]
    rfl
  | cons y ys =>
    have hstep : reverse (list (x :: (y :: ys) ++ .null :: zs))
        = reverseLoop (list (y :: ys ++ .null :: zs)) y (list [x]) := by
      simp [list, reverse]
    rw [hstep, reverseLoop_stop zs ys y _ hnn, revOnto_list]
    simp

/-- C27 (the code departs from the claim): `reverse` takes a NULL_TYPE element
for the end of the list.  On a proper list with a Null element after the first
position it returns the reverse of the elements before that Null only, so the
result is shorter than the argument: `reverse` of `(1 () 2)` is `(1)`. -/
theorem reverse_shortens_at_null_element (x : Value) (ys zs : List Value)
    (hnn : ∀ z ∈ ys, isNull z = false) :
    reverse (list (x :: ys ++ .null :: zs)) = some (list (x :: ys).reverse)
      ∧ (reverse (list (x :: ys ++ .null :: zs))).bind length = some (ys.length + 1)
      ∧ length (list (x :: ys ++ .null :: zs)) = some (ys.length + zs.length + 2) := by
  refine ⟨reverse_truncated x ys zs hnn, ?_, ?_⟩
  · rw [reverse_truncated x ys zs hnn]
    simp [length_list]
  · rw [length_list]
    simp
    omega

/-- C27, the list `(1 () 2)`: its length is 3 and the length of its reverse
is 1. -/
theorem reverse_shortens_at_null_element_witness :
    (reverse (list [.int 1, .null, .int 2])).bind length = some 1
      ∧ length (list [.int 1, .null, .int 2]) = some 3 :=
  (reverse_shortens_at_null_element (.int 1) [] [.int 2] (by simp)).2

/-- C28 (the code departs from the claim): on a proper list with a Null
element after the first position, reversing twice gives back only the elements
before that Null, not the list: `reverse (reverse (1 () 2))` is `(1)`.  This is
the defect of C27, the Null element taken for the end of the list. -/
theorem reverse_twice_keeps_prefix_only (x : Value) (ys zs : List Value)
    (hx : isNull x = false) (hnn : ∀ z ∈ ys, isNull z = false) :
    (reverse (list (x :: ys ++ .null :: zs))).bind reverse = some (list (x :: ys))
      ∧ list (x :: ys) ≠ list (x :: ys ++ .null :: zs) := by
  constructor
  · rw [reverse_truncated x ys zs hnn]
    have h0 : list (x :: ys).reverse = revOnto (x :: ys) .null := by
      have := revOnto_list (x :: ys) []
      simpa [list] using this.symm
    have hall : ∀ z ∈ x :: ys, isNull z = false := by
      intro z hz
      rcases List.mem_cons.mp hz with rfl | hz
      · exact hx
      · exact hnn z hz
    rw [h0]
    exact reverse_revOnto (x :: ys) hall
  · intro h
    have hl := congrArg length h
    rw [length_list, length_list] at hl
    simp at hl

/-- C28, the list `(1 () 2)`: reversed twice it is `(1)`. -/
theorem reverse_twice_keeps_prefix_only_witness :
    (reverse (list [.int 1, .null, .int 2])).bind reverse = some (list [.int 1])
      ∧ list [.int 1] ≠ list [.int 1, .null, .int 2] :=
  reverse_twice_keeps_prefix_only (.int 1) [] [.int 2] rfl (by simp)

/-! ### evalEach -/

theorem evalEachLoop_seq (ev : Ev) (fr : Nat) :
    ∀ (ps : List (Value × Value)) (acc : Value) (h h1 : Heap), EvalSeq ev fr ps h h1 →
      evalEachLoop ev fr (list (ps.map Prod.fst)) acc h
        = .ok (revOnto (ps.map Prod.snd) acc, h1) := by
  intro ps
  induction ps with
  | nil =>
    intro acc h h1 hseq
    cases hseq
    rfl
  | cons p ps ih =>
    intro acc h h1 hseq
    obtain ⟨h2, hev, hrest⟩ := hseq
    simp only [List.map_cons, list, evalEachLoop, hev, Res.bind_ok, revOnto]
    exact ih _ _ _ hrest

theorem evalEach_of_loop (ev : Ev) (args a rest : Value) (fr : Nat) (h h1 : Heap)
    (hloop : evalEachLoop ev fr args makeNull h = .ok (.cons a rest, h1))
    (ha : isNull a = false) :
    evalEach ev args fr h
      = (Res.ofOption (reverse (.cons a rest))).bind (fun reversed => .ok (reversed, h1)) := by
  unfold evalEach
  rw [hloop]
  simp only [Res.bind_ok]
  cases a <;> simp_all [isNull]

/-- C29 (the code departs from the claim): the list that `evalEach` hands to
`apply` goes through `reverse`, which takes a Null value for the end of the
list.  When an operand before the last evaluates to Null, and the operands
after it (`mid` and the last one) evaluate to values that are not Null, the
argument list holds the values of the operands AFTER that one only: the Null
and every value before it are missing.  `(cons (quote ()) 1)` reaches `cons`
with the single argument 1 and fails with its arity error.  This is the defect
of C27 seen from `evalEach`. -/
theorem evalEach_drops_values_through_null (ev : Ev) (fr : Nat)
    (pre mid : List (Value × Value)) (eN eL last : Value) (h h1 : Heap)
    (hseq : EvalSeq ev fr (pre ++ (eN, .null) :: mid ++ [(eL, last)]) h h1)
    (hnn : ∀ p ∈ mid, isNull p.2 = false) (hlast : isNull last = false) :
    evalEach ev (list ((pre ++ (eN, .null) :: mid ++ [(eL, last)]).map Prod.fst)) fr h
        = .ok (list (mid.map Prod.snd ++ [last]), h1)
      ∧ interpret 6 (list [consNullFirst]) = .error "Wrong number of args to cons." := by
  refine ⟨?_, by decide!⟩
  have hloop := evalEachLoop_seq ev fr _ makeNull h h1 hseq
  have hrev : revOnto ((pre ++ (eN, .null) :: mid ++ [(eL, last)]).map Prod.snd) makeNull
      = list (last :: (mid.map Prod.snd).reverse ++ .null :: (pre.map Prod.snd).reverse) := by
    have := revOnto_list ((pre ++ (eN, .null) :: mid ++ [(eL, last)]).map Prod.snd) []
    simpa [list, makeNull] using this
  rw [hrev] at hloop
  have hnn1 : ∀ z ∈ (mid.map Prod.snd).reverse, isNull z = false := by
    intro z hz
    rw [List.mem_reverse, List.mem_map] at hz
    obtain ⟨p, hp, rfl⟩ := hz
    exact hnn p hp
  rw [evalEach_of_loop ev _ last _ fr h h1 hloop hlast]
  have ht := reverse_truncated last (mid.map Prod.snd).reverse (pre.map Prod.snd).reverse hnn1
  simp only [List.cons_append, list] at ht
  rw [ht]
  simp [Res.ofOption]

/-- C29, the operands of `(cons (quote ()) 1)`: the list handed to `apply` is
`(1)`. -/
theorem evalEach_drops_values_through_null_witness :
    evalEach (eval 1) (list [list [.sym "quote", .null], .int 1]) 1 topHeap
      = .ok (list [.int 1], topHeap) :=
  (evalEach_drops_values_through_null (eval 1) 1 [] [] (list [.sym "quote", .null]) (.int 1)
    (.int 1) topHeap topHeap ⟨topHeap, by decide!, topHeap, rfl, rfl⟩ (by simp) rfl).1

/-! ### Duplicate binders of let -/

/-- C30 (the code departs from the claim): the duplicate test of `evalLet`
looks the binder up among the cells bound so far and rejects it when the value
found is not NULL_TYPE, the NULL_TYPE value standing for "not found".  A binder
that repeats an earlier one whose value is Null is therefore accepted:
`(let ((x (quote ())) (x 1)) x)` evaluates to 1, where
`(let ((x 1) (x 2)) x)` fails with "duplicate variable in let.". -/
theorem let_duplicate_missed_after_null (text : String) (v rest : Value) :
    letDuplicate text (.cons (.cons (.str text) v) rest) = .ok (!isNull v)
      ∧ letDuplicate text (.cons (.cons (.str text) .null) rest) = .ok false
      ∧ interpret 6 (list [letDuplicateAfterNull]) = .ok [.int 1]
      ∧ interpret 6 (list [letDuplicateAfterInt]) = .error "duplicate variable in let." := by
  have hgen : ∀ v : Value,
      letDuplicate text (.cons (.cons (.str text) v) rest) = .ok (!isNull v) := by
    intro v
    simp [letDuplicate, scanBindings, textOf]
  refine ⟨hgen v, ?_, ?_, ?_⟩
  · rw [hgen]
    rfl
  · decide!
  · decide!

/-! ### let*, apply, reserved names, exit status, letrec, division by zero -/

/-- C31 (the code departs from the claim): `evalLetStar` never rejects a
repeated binder.  Its duplicate scan runs over the bindings of the frame it
has just allocated, which are empty, so the error "duplicate variable in let*"
cannot be reached: `(let* ((x 1) (x 2)) x)` evaluates to 2, where the same
binders in a `let` fail with "duplicate variable in let.". -/
theorem let_star_accepts_duplicate_binder :
    interpret 6 (list [letStarDuplicate]) = .ok [.int 2]
      ∧ interpret 6 (list [letDuplicateAfterInt]) = .error "duplicate variable in let." := by
  constructor <;> decide!

/-- C33, counterexample: in `(define f 1) (f 2)` the operator is the Integer 1;
the run does not end in an evaluation error, its result is undefined. -/
theorem apply_integer_operator_undefined :
    interpret 6 applyIntegerProgram = .undefined := by
  decide!

/-- C33, amended: `apply` makes no test of the operator.  An operator that is
not a Closure is called through its `pf` member; for a value that is not a
Primitive either (Integer, Real, Bool, Str, Null, Pair, Void) that member was
never stored, so the call has no defined result: no error is raised, for any
argument list. -/
theorem apply_calls_pf_of_non_closure (ev : Ev) (function args : Value) (h : Heap)
    (hc : ∀ ps body fr, function ≠ .closure ps body fr)
    (hp : ∀ pf, function ≠ .primitive pf) :
    apply ev function args h = .undefined
      ∧ ∀ msg, apply ev function args h ≠ .error msg := by
  have hu : apply ev function args h = .undefined := by
    cases function with
    | closure ps body fr => exact absurd rfl (hc ps body fr)
    | primitive pf => exact absurd rfl (hp pf)
    | _ => rfl
  refine ⟨hu, ?_⟩
  intro msg hm
  rw [hu] at hm
  cases hm

/-- C33, witness: the Integer 1 applied to the argument list `(2)`. -/
theorem apply_calls_pf_of_non_closure_witness :
    apply (eval 1) (.int 1) (list [.int 2]) topHeap = .undefined :=
  (apply_calls_pf_of_non_closure (eval 1) (.int 1) (list [.int 2]) topHeap
    (fun _ _ _ hf => by cases hf) (fun _ hf => by cases hf)).1

theorem evalStep_let (ev : Ev) (fuel : Nat) (args : Value) (fr : Nat) (h : Heap) :
    evalStep ev fuel (.cons (.sym "let") args) fr h = evalLet ev args fr h := by
  simp [evalStep, strcmpLit, textOf]

theorem evalStep_letStar (ev : Ev) (fuel : Nat) (args : Value) (fr : Nat) (h : Heap) :
    evalStep ev fuel (.cons (.sym "let*") args) fr h = evalLetStar ev args fr h := by
  simp [evalStep, strcmpLit, textOf]

theorem evalStep_letrec (ev : Ev) (fuel : Nat) (args : Value) (fr : Nat) (h : Heap) :
    evalStep ev fuel (.cons (.sym "letrec") args) fr h = evalLetRec ev args fr h := by
  simp [evalStep, strcmpLit, textOf]

theorem evalStep_lambda (ev : Ev) (fuel : Nat) (args : Value) (fr : Nat) (h : Heap) :
    evalStep ev fuel (.cons (.sym "lambda") args) fr h
      = (evalLambda args fr).bind (fun v => .ok (v, h)) := by
  simp [evalStep, strcmpLit, textOf]

theorem evalStep_set (ev : Ev) (fuel : Nat) (args : Value) (fr : Nat) (h : Heap) :
    evalStep ev fuel (.cons (.sym "set!") args) fr h = evalSet ev args fr h := by
  simp [evalStep, strcmpLit, textOf]

/-- C34: a Pair whose head is the Symbol of a special form is handed to the
handler of that form with its unevaluated tail, in every frame and for every
heap, hence whatever the frames bind the name to: the head is compared by text
and never looked up.  In `(define if 1) (if #t 2 3)` the second expression is
still the conditional and evaluates to 2. -/
theorem special_form_names_are_reserved (ev : Ev) (fuel : Nat) (args : Value) (fr : Nat)
    (h : Heap) :
    evalStep ev fuel (.cons (.sym "if") args) fr h = evalIf ev args fr h
      ∧ evalStep ev fuel (.cons (.sym "let") args) fr h = evalLet ev args fr h
      ∧ evalStep ev fuel (.cons (.sym "let*") args) fr h = evalLetStar ev args fr h
      ∧ evalStep ev fuel (.cons (.sym "letrec") args) fr h = evalLetRec ev args fr h
      ∧ evalStep ev fuel (.cons (.sym "quote") args) fr h
          = (evalQuote args).bind (fun v => .ok (v, h))
      ∧ evalStep ev fuel (.cons (.sym "define") args) fr h = evalDefine ev args globalframe h
      ∧ evalStep ev fuel (.cons (.sym "lambda") args) fr h
          = (evalLambda args fr).bind (fun v => .ok (v, h))
      ∧ evalStep ev fuel (.cons (.sym "set!") args) fr h = evalSet ev args fr h
      ∧ evalStep ev fuel (.cons (.sym "begin") args) fr h = evalBegin ev args fr h
      ∧ evalStep ev fuel (.cons (.sym "and") args) fr h = evalAnd ev args fr h
      ∧ evalStep ev fuel (.cons (.sym "or") args) fr h = evalOr ev args fr h
      ∧ evalStep ev fuel (.cons (.sym "cond") args) fr h = evalCond ev fr fuel args none h
      ∧ interpret 6 rebindIfProgram = .ok [.void, .int 2] :=
  ⟨evalStep_if ev fuel args fr h, evalStep_let ev fuel args fr h,
    evalStep_letStar ev fuel args fr h, evalStep_letrec ev fuel args fr h,
    evalStep_quote ev fuel args fr h, evalStep_define ev fuel args fr h,
    evalStep_lambda ev fuel args fr h, evalStep_set ev fuel args fr h,
    evalStep_begin ev fuel args fr h, evalStep_and ev fuel args fr h,
    evalStep_or ev fuel args fr h, evalStep_cond ev fuel args fr h, by decide!⟩

/-- C36, counterexample: the program `zz` fails with the evaluation error
"symbol not found" (the name is unbound), and the process ends with status 0. -/
theorem unbound_symbol_exits_with_zero :
    interpret 6 (list [.sym "zz"]) = .error "symbol '%s' not found."
      ∧ main 6 (list [.sym "zz"]) = some 0 := by
  constructor <;> decide!

/-- C36, amended: the exit status does not tell an evaluation error from
success.  Whenever the run of a program ends, it ends with status 0: after an
evaluation error (every error path of the evaluator calls `texit(0)`) as after
the successful evaluation of every top-level expression (`main` returns 0). -/
theorem exit_status_is_zero (fuel : Nat) (tree : Value) :
    (∀ msg, interpret fuel tree = .error msg → main fuel tree = some 0)
      ∧ (∀ vs, interpret fuel tree = .ok vs → main fuel tree = some 0)
      ∧ (∀ s, main fuel tree = some s → s = 0) := by
  refine ⟨?_, ?_, ?_⟩
  · intro msg hm
    simp [main, hm]
  · intro vs hv
    simp [main, hv]
  · intro s hs
    unfold main at hs
    split at hs <;> simp_all

/-- C38 (the code departs from the claim): `evalLetRec` passes every init
expression to `eval` twice, once for the value it keeps and once more to test
the tag of the result, and the next init is evaluated in the frames left by
the second evaluation.  The side effects of an init expression happen twice:
`(define c 0) (letrec ((x (begin (set! c (+ c 1)) c))) c)` yields 2. -/
theorem letrec_evaluates_init_twice (ev : Ev) (newframe : Nat) (k e tl bindings acc : Value)
    (h : Heap) :
    letrecEval ev newframe (.cons (.cons k (.cons e tl)) bindings) acc h
        = (ev e newframe h).bind (fun r1 =>
            (ev e newframe r1.2).bind (fun r2 =>
              match r2.1 with
              | .unspecified => .error "Evaluated an UNSPECIFIED_TYPE in letrec."
              | _ => letrecEval ev newframe bindings (.cons r1.1 acc) r2.2))
      ∧ interpret 8 letrecCounterProgram = .ok [.void, .int 2] := by
  refine ⟨?_, by decide!⟩
  rw [letrecEval]

/-- C39, counterexample: `(/ 1 0)` does not fail with an evaluation error; the
integer remainder by zero is executed and the result is undefined. -/
theorem divide_by_zero_not_an_error :
    interpret 6 (list [divideByZero]) = .undefined
      ∧ interpret 6 (list [moduloByZero]) = .undefined := by
  constructor <;> decide!

/-- C39, amended: integer division by zero is not guarded.  For every Integer
`a`, `/` and `modulo` applied to `a` and the Integer 0 execute the C remainder
`param1 % param2` with a zero divisor, which has no defined result; no
evaluation error is raised. -/
theorem integer_division_by_zero_unguarded (a : Int) :
    primitiveDivide (list [.int a, .int 0]) = .undefined
      ∧ primitiveModulo (list [.int a, .int 0]) = .undefined
      ∧ (∀ msg, primitiveDivide (list [.int a, .int 0]) ≠ .error msg)
      ∧ (∀ msg, primitiveModulo (list [.int a, .int 0]) ≠ .error msg) := by
  have hd : primitiveDivide (list [.int a, .int 0]) = .undefined := by
    simp [primitiveDivide, list, length, countReals]
  have hm : primitiveModulo (list [.int a, .int 0]) = .undefined := by
    simp [primitiveModulo, list, length, allInts]
  refine ⟨hd, hm, ?_, ?_⟩
  · intro msg h
    rw [hd] at h
    cases h
  · intro msg h
    rw [hm] at h
    cases h

/-! ### The loop of cond -/

theorem evalCond_symbol_loops (ev : Ev) (fr : Nat) (s : String) (tl rest : Value)
    (hs : s ≠ "else") :
    ∀ (fuel : Nat) (res : Option Value) (h : Heap),
      evalCond ev fr fuel (.cons (.cons (.sym s) tl) rest) res h = .timeout := by
  intro fuel
  induction fuel with
  | zero => intro res h; rw [evalCond]
  | succ n ih =>
    intro res h
    rw [evalCond.eq_def]
    simp only [hs, if_false]
    exact ih res h

theorem evalCond_step (ev : Ev) (fr n : Nat) (t tl rest : Value) (res : Option Value)
    (h : Heap) (hsym : ∀ s, t ≠ .sym s) :
    evalCond ev fr (n + 1) (.cons (.cons t tl) rest) res h
      = (ev t fr h).bind (fun b =>
          match strcmpLit b.1 "#t" with
          | none => .undefined
          | some true => (match tl with | .cons e _ => ev e fr b.2 | _ => .undefined)
          | some false =>
            if strcmpLit b.1 "#f" = some true then
              match tl with
              | .cons e _ =>
                (ev e fr b.2).bind (fun r => evalCond ev fr n rest (some r.1) r.2)
              | _ => .undefined
            else evalCond ev fr n (.cons (.cons t tl) rest) res b.2) := by
  cases t with
  | sym s => exact absurd rfl (hsym s)
  | _ => rw [evalCond.eq_def]

theorem evalCond_stuck_loops (ev : Ev) (fr : Nat) (t v tl rest : Value) (h : Heap)
    (hsym : ∀ s, t ≠ .sym s) (hev : ev t fr h = .ok (v, h) ∨ ev t fr h = .timeout)
    (ht : strcmpLit v "#t" = some false) (hf : strcmpLit v "#f" = some false) :
    ∀ (fuel : Nat) (res : Option Value),
      evalCond ev fr fuel (.cons (.cons t tl) rest) res h = .timeout := by
  intro fuel
  induction fuel with
  | zero => intro res; rw [evalCond]
  | succ n ih =>
    intro res
    rw [evalCond_step ev fr n t tl rest res h hsym]
    rcases hev with hev | hev
    · rw [hev]
      simp only [Res.bind_ok, ht, hf]
      simp only [Bool.false_eq_true, Option.some.injEq, if_false]
      exact ih res
    · rw [hev]
      rfl

/-- C37 (the code departs from the claim): the loop of `evalCond` moves to the
next clause only after a test whose value has the text "#f".  A clause whose
test is a Symbol other than `else` is neither evaluated nor skipped, and a
test whose value is neither `#t` nor `#f` leaves `cur` where it is: the loop
repeats the same clause for ever.  In the embedding every budget runs out:
`(cond (t 1))` and `(cond ("a" 1))` never return. -/
theorem cond_repeats_clause_for_ever (ev : Ev) (fr : Nat) (s : String) (tl rest : Value)
    (res : Option Value) (h : Heap) (hs : s ≠ "else") :
    (∀ fuel, evalCond ev fr fuel (.cons (.cons (.sym s) tl) rest) res h = .timeout)
      ∧ (∀ n, interpret n (list [condSymbolTest]) = .timeout)
      ∧ (∀ n, interpret n (list [condStrTest]) = .timeout) := by
  refine ⟨fun fuel => evalCond_symbol_loops ev fr s tl rest hs fuel res h, ?_, ?_⟩
  · have hloop : ∀ (n fr : Nat) (h : Heap), eval n condSymbolTest fr h = .timeout := by
      intro n fr h
      cases n with
      | zero => rfl
      | succ k =>
        show evalStep (eval k) k condSymbolTest fr h = .timeout
        rw [condSymbolTest, list, evalStep_cond]
        exact evalCond_symbol_loops _ _ "t" _ _ (by decide) k none h
    intro n
    simp [interpret, interpretLoop, list, hloop]
  · have hloop : ∀ (n fr : Nat) (h : Heap), eval n condStrTest fr h = .timeout := by
      intro n fr h
      cases n with
      | zero => rfl
      | succ k =>
        show evalStep (eval k) k condStrTest fr h = .timeout
        rw [condStrTest, list, evalStep_cond]
        refine evalCond_stuck_loops (eval k) fr (.str "\"a\"") (.str "\"a\"") _ _ h
          (fun s hc => by cases hc) ?_ (by decide) (by decide) k none
        cases k with
        | zero => exact Or.inr rfl
        | succ j => exact Or.inl rfl
    intro n
    simp [interpret, interpretLoop, list, hloop]

/-- C37, witness: the clause `(t 1)`, whose test is the Symbol `t`. -/
theorem cond_repeats_clause_for_ever_witness :
    evalCond (eval 1) 1 5 (list [list [.sym "t", .int 1]]) none topHeap = .timeout :=
  (cond_repeats_clause_for_ever (eval 1) 1 "t" (list [.int 1]) .null none topHeap
    (by decide)).1 5

/-- C40 (the code departs from the claim in its last part): on a proper list
none of whose elements after the first is Null, `reverse` returns the same
elements in the opposite order, so the length is preserved; the empty list is
returned as it is.  Reversing twice gives the list back when, moreover, its
first element is not Null or it has a single element.  But a list of two or
more elements whose FIRST element is Null is in the range of the claim and is
not given back: its reverse ends in that Null, and the second `reverse` stops
there (the defect of C27 and C28): `reverse (reverse (() 1))` is `(1)`. -/
theorem reverse_exact_without_null_after_first (x : Value) (xs : List Value)
    (hnn : ∀ z ∈ xs, isNull z = false) :
    reverse (list (x :: xs)) = some (list (x :: xs).reverse)
      ∧ (reverse (list (x :: xs))).bind length = length (list (x :: xs))
      ∧ ((isNull x = false ∨ xs = []) →
          (reverse (list (x :: xs))).bind reverse = some (list (x :: xs)))
      ∧ reverse (list []) = some (list [])
      ∧ (reverse (list [.null, .int 1])).bind reverse = some (list [.int 1]) := by
  have hrev := reverse_list x xs hnn
  refine ⟨hrev, ?_, ?_, rfl, by decide!⟩
  · rw [hrev]
    simp [length_list]
  · intro hx
    rw [hrev]
    rcases hx with hx | hx
    · have h0 : list (x :: xs).reverse = revOnto (x :: xs) .null := by
        have := revOnto_list (x :: xs) []
        simpa [list] using this.symm
      have hall : ∀ z ∈ x :: xs, isNull z = false := by
        intro z hz
        rcases List.mem_cons.mp hz with rfl | hz
        · exact hx
        · exact hnn z hz
      rw [h0]
      exact reverse_revOnto (x :: xs) hall
    · subst hx
      rfl

/-- C40, the list `(() 1)`: its reverse is `(1 ())`, of the same length. -/
theorem reverse_exact_without_null_after_first_witness :
    reverse (list [.null, .int 1]) = some (list [.int 1, .null])
      ∧ (reverse (list [.null, .int 1])).bind length = length (list [.null, .int 1]) :=
  ⟨(reverse_exact_without_null_after_first .null [.int 1] (by simp [isNull])).1,
    (reverse_exact_without_null_after_first .null [.int 1] (by simp [isNull])).2.1⟩

/-! ### lambda -/

theorem lambdaParams_syms (names : List String) :
    ∀ acc : Value,
      lambdaParams (list (names.map Value.sym)) acc
        = .ok (revOnto (names.map Value.sym) acc) := by
  induction names with
  | nil => intro acc; rfl
  | cons s ss ih =>
    intro acc
    simp only [List.map_cons, list, lambdaParams, revOnto]
    exact ih _

theorem lambdaParams_not_symbol (names : List String) (bad : Value) (rest : List Value)
    (hbad : ∀ s, bad ≠ .sym s) :
    ∀ acc : Value,
      lambdaParams (list (names.map Value.sym ++ bad :: rest)) acc
        = .error "formal parameters for lambda must be symbols." := by
  induction names with
  | nil =>
    intro acc
    cases bad with
    | sym s => exact absurd rfl (hbad s)
    | _ => simp [list, lambdaParams]
  | cons s ss ih =>
    intro acc
    simp only [List.map_cons, List.cons_append, list, lambdaParams]
    exact ih _

theorem lambdaInner_syms (s : String) (names : List String) :
    lambdaInner (.sym s) (list (names.map Value.sym)) = some (decide (s ∈ names)) := by
  induction names with
  | nil => simp [list, lambdaInner]
  | cons t ts ih =>
    simp only [List.map_cons, list, lambdaInner, textOf]
    by_cases hst : s = t
    · simp [hst]
    · simp [hst, ih]

theorem lambdaOuter_syms (names : List String) :
    lambdaOuter (list (names.map Value.sym)) = some (!decide names.Nodup) := by
  induction names with
  | nil => simp [list, lambdaOuter]
  | cons s ss ih =>
    have hin := lambdaInner_syms s ss
    simp only [List.map_cons, list, lambdaOuter]
    simp only [list] at hin ih
    rw [hin]
    by_cases hmem : s ∈ ss
    · simp [hmem]
    · simp [hmem, ih]

theorem evalLambda_syms (names : List String) (body : Value) (fr : Nat) :
    evalLambda (.cons (list (names.map Value.sym)) body) fr
      = if names.Nodup then
          if isNull body then .error "no code in lambda following parameters."
          else .ok (.closure (list (names.map Value.sym)) body fr)
        else .error "duplicate identifier in lambda." := by
  have hrev : reverse (revOnto (names.map Value.sym) makeNull)
      = some (list (names.map Value.sym)) := by
    apply reverse_revOnto
    intro z hz
    obtain ⟨s, _, rfl⟩ := List.mem_map.mp hz
    rfl
  simp only [evalLambda, lambdaParams_syms, Res.bind_ok, hrev, lambdaOuter_syms]
  by_cases hnd : names.Nodup
  · simp [hnd]
  · simp [hnd]

/-- C32: evaluating `(lambda params body...)` with a proper parameter list.
If some parameter is not a Symbol (the parameters before the first such one
being Symbols) the evaluation fails; if all are Symbols and two of them, at
any positions, have the same text it fails; if all are Symbols, pairwise
distinct, and the body is empty it fails; otherwise it returns a Closure that
holds the given parameters in the given order, the body and the current frame,
and leaves the heap as it was. -/
theorem lambda_validates_parameters (ev : Ev) (fuel : Nat) (fr : Nat) (h : Heap)
    (names : List String) (bad : Value) (rest : List Value) (body : Value) :
    ((∀ s, bad ≠ .sym s) →
        evalStep ev fuel
            (.cons (.sym "lambda") (.cons (list (names.map Value.sym ++ bad :: rest)) body)) fr h
          = .error "formal parameters for lambda must be symbols.")
      ∧ (¬ names.Nodup →
        evalStep ev fuel (.cons (.sym "lambda") (.cons (list (names.map Value.sym)) body)) fr h
          = .error "duplicate identifier in lambda.")
      ∧ (names.Nodup →
        evalStep ev fuel (.cons (.sym "lambda") (.cons (list (names.map Value.sym)) .null)) fr h
          = .error "no code in lambda following parameters.")
      ∧ (names.Nodup → isNull body = false →
        evalStep ev fuel (.cons (.sym "lambda") (.cons (list (names.map Value.sym)) body)) fr h
          = .ok (.closure (list (names.map Value.sym)) body fr, h))
      ∧ interpret 6 (list [lambdaDuplicate]) = .error "duplicate identifier in lambda." := by
  refine ⟨?_, ?_, ?_, ?_, by decide!⟩
  · intro hbad
    rw [evalStep_lambda]
    simp only [evalLambda, lambdaParams_not_symbol names bad rest hbad, Res.bind_error]
  · intro hnd
    rw [evalStep_lambda, evalLambda_syms, if_neg hnd]
    rfl
  · intro hnd
    rw [evalStep_lambda, evalLambda_syms, if_pos hnd]
    rfl
  · intro hnd hbody
    rw [evalStep_lambda, evalLambda_syms, if_pos hnd]
    simp [hbody]

/-! ### Lookup -/

theorem scanBindings_bindingCells (name : Value) (text : String)
    (htext : textOf name = some text) :
    ∀ kvs : List (Value × Value), (∀ kv ∈ kvs, (textOf kv.1).isSome = true) →
      ∃ r, scanBindings name (bindingCells kvs) = .ok r
        ∧ r.map Prod.snd = firstBinding text kvs := by
  intro kvs
  induction kvs with
  | nil => intro _; exact ⟨none, rfl, rfl⟩
  | cons kv rest ih =>
    intro hall
    obtain ⟨a, ha⟩ := Option.isSome_iff_exists.mp (hall kv (List.mem_cons_self _ _))
    obtain ⟨r, hr, hrv⟩ := ih (fun q hq => hall q (List.mem_cons_of_mem _ hq))
    by_cases hat : a = text
    · refine ⟨some (cells (bindingCells rest) + 1, kv.2), ?_, ?_⟩
      · simp [bindingCells, list, scanBindings, ha, htext, hat]
      · simp [firstBinding, ha, hat]
    · refine ⟨r, ?_, ?_⟩
      · simp only [bindingCells, List.map_cons, list, scanBindings, ha, htext]
        rw [if_neg hat]
        exact hr
      · simp [firstBinding, ha, hat, hrv]

/-- C35: lookup of a name with text `text`.  Scanning one frame gives the value
of the first cell of its binding list whose name has that text (the head of
the list is the binding added last by `define`, `let` and `apply`), whatever
the tag of the value.  Lookup from frame `c` returns the value found in the
first frame that binds the name on the way from `c` through the parents; when
no frame on that way binds it, the value found in the global frame; and it
fails with "symbol not found" when the global frame does not bind it either.
So it fails exactly when no frame of the chain, the global frame included,
binds the name. -/
theorem lookup_returns_first_binding (name : Value) (text : String) (h : Heap)
    (htext : textOf name = some text) :
    (∀ kvs : List (Value × Value), (∀ kv ∈ kvs, (textOf kv.1).isSome = true) →
        ∃ r, scanBindings name (bindingCells kvs) = .ok r
          ∧ r.map Prod.snd = firstBinding text kvs)
      ∧ (∀ (chain : List Nat) (c t d : Nat) (ft : Frame) (v : Value), chain.Nodup →
          PathTo name h chain c t → h[t]? = some ft →
          scanBindings name ft.bindings = .ok (some (d, v)) →
          lookUpSymbol name c h = .ok v)
      ∧ (∀ (g : Frame) (chain : List Nat) (c d : Nat) (v : Value),
          h[globalframe]? = some g → (c :: chain).Nodup → Unshadowed name h (c :: chain) →
          scanBindings name g.bindings = .ok (some (d, v)) →
          lookUpSymbol name c h = .ok v)
      ∧ (∀ (g : Frame) (chain : List Nat) (c : Nat),
          h[globalframe]? = some g → g.parent = none → (c :: chain).Nodup →
          Unshadowed name h (c :: chain) → scanBindings name g.bindings = .ok none →
          lookUpSymbol name c h = .error "symbol '%s' not found.") := by
  refine ⟨scanBindings_bindingCells name text htext, ?_, ?_, ?_⟩
  · intro chain c t d ft v hnd hp hft hs
    exact lookUpSymbol_path name h c t d v ft chain hnd hp hft hs
  · intro g chain c d v hg hnd hun hs
    have hlen := nodup_length_le (c :: chain) h.length hnd (unshadowed_mem_lt _ h _ hun)
    unfold lookUpSymbol
    rw [walkFrames_unshadowed _ name h g d v hg hs chain c _ hun
      (by simp at hlen ⊢; omega)]
    rfl
  · intro g chain c hg hgp hnd hun hs
    have hlen := nodup_length_le (c :: chain) h.length hnd (unshadowed_mem_lt _ h _ hun)
    have hw := walkFrames_unbound "symbol '%s' not found." name h g hg hgp hs chain c
      (h.length + 2) hun (by simp at hlen ⊢; omega)
    unfold lookUpSymbol
    rcases hw with hw | hw <;> rw [hw] <;> rfl

/-- C35, witness: the name `x` bound to Null in the current frame; lookup
returns Null. -/
theorem lookup_returns_first_binding_witness :
    lookUpSymbol (.sym "x") 1 nullBindingHeap = .ok .null :=
  (lookup_returns_first_binding (.sym "x") "x" nullBindingHeap rfl).2.1 [] 1 1 1
    (Frame.mk (.cons (.cons (.sym "x") .null) .null) none) .null List.nodup_nil rfl rfl rfl

/-! ### letrec with a Null init -/

/-- C7 (the code departs from the claim): the values of the init expressions
of a `letrec` go through `reverse`, which takes a Null value for the end of
the list (the defect of C27).  When an init before the last evaluates to Null,
the reversed list is too short: the binders receive the values of later inits
and the last binder receives a member that was never stored.  In
`(letrec ((a (quote ())) (f (lambda () a))) (f))` the values are consed as
`(closure ())`, `reverse` returns `(closure)`, `a` is given the closure and
`f` the head of the Null that ends the list: the closure of `f` does not see
the binders and the result is undefined.  The even?/odd? program of the claim,
whose inits are all lambda forms, does evaluate to `#t`. -/
theorem letrec_null_init_misassigns_binders (v ka kf u1 u2 : Value) :
    reverse (list [v, .null]) = some (list [v])
      ∧ letrecAssign (list [.cons ka u1, .cons kf u2]) (list [v]) = none
      ∧ interpret 8 (list [letrecNullInit]) = .undefined
      ∧ interpret 40 evenOddProgram = .ok [.bool "#t"] := by
  refine ⟨?_, ?_, by decide!, by decide!⟩
  · simp [list, reverse, reverseLoop_null]
  · simp [list, letrecAssign]

end Scheme
